import Mathlib

/-
Verification development for the `skiplist` package (azr/lockfree): a
concurrent skip list with lock-free searches and fine-grained locking for
inserts and deletes.  The claims examined here concern single-threaded
executions, so the heap of Go nodes is embedded shallowly: nodes live in a
store indexed by allocation order, pointers are store indices (`none`
standing for a nil pointer), and each public operation is a function from
states to `Option` of states, returning `none` exactly when the Go code
would panic or loop forever in a single-threaded run (a retry `continue`
re-executes an identical iteration when no other thread intervenes).
-/

namespace SkipList

/-- Constant `maxlevel = 32` from rand.go. -/
def maxlevel : Nat := 32

/-- Key of the left sentinel: `int(math.MinInt32)`. -/
def minKey : Int := -2147483648

/-- Key of the right sentinel: `int(math.MaxInt32)`. -/
def maxKey : Int := 2147483647

/-- Modulus of Go's `uint32`, the type of `Header.length`. -/
def U32 : Nat := 4294967296

/-- A skip-list node (struct `node` in list.go): key, user value
(`unsafe.Pointer`, abstracted to a `Nat`), tower of forward pointers
(`nexts`, a slice of atomically accessed `*node`, embedded as store indices
with `none` for Go's nil), the `marked` and `fullyLinked` flags.  The
per-node mutex has no effect in single-threaded runs and is not part of the
state. -/
structure Node where
  key : Int
  value : Nat
  nexts : List (Option Nat)
  marked : Bool
  fullyLinked : Bool
deriving DecidableEq

/-- The list header (struct `Header` in list.go) together with the node
store: `length` is the `uint32` counter, `nodes` the allocation-ordered
store, and the two sentinel fields hold store indices. -/
structure Header where
  length : Nat
  nodes : List Node
  leftSentinel : Nat
  rightSentinel : Nat
deriving DecidableEq

/-- Key of the node at index `i` (default 0 for a dangling index). -/
def keyOf (s : Header) (i : Nat) : Int :=
  ((s.nodes[i]?).map Node.key).getD 0

/-- Height (length of the `nexts` tower) of the node at index `i`. -/
def heightOf (s : Header) (i : Nat) : Nat :=
  ((s.nodes[i]?).map (fun n => n.nexts.length)).getD 0

/-- The `marked` flag of the node at index `i`. -/
def markedOf (s : Header) (i : Nat) : Bool :=
  ((s.nodes[i]?).map Node.marked).getD true

/-- The `fullyLinked` flag of the node at index `i`. -/
def flagOf (s : Header) (i : Nat) : Bool :=
  ((s.nodes[i]?).map Node.fullyLinked).getD false

/-- The `value` slot of the node at index `i`. -/
def valueOf (s : Header) (i : Nat) : Nat :=
  ((s.nodes[i]?).map Node.value).getD 0

/-- Go's `n.nexts.get(layer)`: outer `none` means the node index or layer is
invalid (a Go panic), inner `none` is a nil pointer. -/
def nextAt (s : Header) (i layer : Nat) : Option (Option Nat) :=
  (s.nodes[i]?).bind (fun n => n.nexts[layer]?)

/-- Transcription of `Header.Initialize` (list.go): allocates a fresh right
sentinel whose tower is `maxlevel` nil pointers, then a fresh left sentinel
whose tower points to the right sentinel at every layer.  The `length` field
is not touched. -/
def Initialize (s : Header) : Header :=
  let rid := s.nodes.length
  let rightMost : Node :=
    { key := maxKey, value := 0, nexts := List.replicate maxlevel none,
      marked := false, fullyLinked := true }
  let leftMost : Node :=
    { key := minKey, value := 0, nexts := List.replicate maxlevel (some rid),
      marked := false, fullyLinked := true }
  { length := s.length, nodes := s.nodes ++ [rightMost, leftMost],
    leftSentinel := rid + 1, rightSentinel := rid }

/-- Transcription of `New` (list.go): a fresh header, then `Initialize`. -/
def New : Header :=
  Initialize { length := 0, nodes := [], leftSentinel := 0, rightSentinel := 0 }

/-- The inner while loop of `findNode` at one layer: starting from node `x`,
follow `nexts` while the right neighbour's key is `< v`; returns the final
(pred, succ) pair.  Fuel bounds the number of steps; `none` means a nil
dereference, a dangling index, or fuel exhaustion (never happens on states
reachable single-threadedly, see the chain lemmas below). -/
def chase (s : Header) (v : Int) (layer : Nat) : Nat → Nat → Option (Nat × Nat)
  | 0, _ => none
  | fuel+1, x =>
    match nextAt s x layer with
    | some (some r) =>
      match s.nodes[r]? with
      | some rn => if rn.key < v then chase s v layer fuel r else some (x, r)
      | none => none
    | _ => none

/-- The outer loop of `findNode`, from layer `l-1` down to layer 0, carrying
the current `left` node, the running `lFound`, and the preds/succs recorded
so far (element `i` of the returned lists is the entry for layer `i`). -/
def findNodeAux (s : Header) (v : Int) (fuel : Nat) :
    Nat → Nat → Int → List Nat → List Nat → Option (Int × List Nat × List Nat)
  | 0, _, lf, preds, succs => some (lf, preds, succs)
  | l+1, x, lf, preds, succs =>
    match chase s v l fuel x with
    | none => none
    | some (p, r) =>
      match s.nodes[r]? with
      | none => none
      | some rn =>
        let lf' : Int := if lf = -1 ∧ rn.key = v then (l : Int) else lf
        findNodeAux s v fuel l p lf' (p :: preds) (r :: succs)

/-- Transcription of `Header.findNode` (list.go): top-down search recording
predecessor and successor per layer, returning `lFound` (highest layer whose
successor has key `v`, else -1). -/
def findNode (s : Header) (v : Int) : Option (Int × List Nat × List Nat) :=
  findNodeAux s v (s.nodes.length + 1) maxlevel s.leftSentinel (-1) [] []

/-- Transcription of `Header.Contains` (list.go). -/
def Contains (s : Header) (v : Int) : Option Bool :=
  match findNode s v with
  | none => none
  | some (lf, _, succs) =>
    if lf = -1 then some false
    else
      match succs[lf.toNat]? with
      | none => none
      | some nid =>
        match s.nodes[nid]? with
        | none => none
        | some n => some (n.fullyLinked && !n.marked)

/-- Transcription of `Header.Get` (list.go): `(0, false)` plays the role of
Go's `(nil, false)`. -/
def Get (s : Header) (v : Int) : Option (Nat × Bool) :=
  match findNode s v with
  | none => none
  | some (lf, _, succs) =>
    if lf = -1 then some (0, false)
    else
      match succs[lf.toNat]? with
      | none => none
      | some nid =>
        match s.nodes[nid]? with
        | none => none
        | some n =>
          if !n.fullyLinked || n.marked then some (0, false)
          else some (n.value, true)

/-- Replace the node at index `i` (Go mutates the node in place). -/
def setNodeAt (s : Header) (i : Nat) (n : Node) : Header :=
  { s with nodes := s.nodes.set i n }

/-- Go's `pred.nexts.set(layer, ptr)`; `none` when the index or layer is out
of range (a Go panic). -/
def setNextSlot (s : Header) (i layer : Nat) (ptr : Option Nat) : Option Header :=
  match s.nodes[i]? with
  | none => none
  | some n =>
    if layer < n.nexts.length then
      some (setNodeAt s i { n with nexts := n.nexts.set layer ptr })
    else none

/-- Perform a sequence of forward-pointer stores in order. -/
def setsFold : Header → List (Nat × Nat × Option Nat) → Option Header
  | s, [] => some s
  | s, (i, layer, ptr) :: rest =>
    match setNextSlot s i layer ptr with
    | none => none
    | some s1 => setsFold s1 rest

/-- One step of the validation loop shared by `Set` and `Remove`:
`!pred.marked && (!succ.marked when inserting) && pred.nexts.get(layer) == succ`. -/
def validAt (s : Header) (pid sid layer : Nat) (checkSucc : Bool) : Option Bool :=
  match s.nodes[pid]?, s.nodes[sid]? with
  | some pn, some sn =>
    match pn.nexts[layer]? with
    | some nx => some (!pn.marked && (!checkSucc || !sn.marked) && (nx == some sid))
    | none => none
  | _, _ => none

/-- The validation loop of `Set`/`Remove` from `layer` for `rem` further
layers, stopping at the first invalid layer exactly as the Go loop does. -/
def validateFrom (s : Header) (preds succs : List Nat) (checkSucc : Bool) :
    Nat → Nat → Option Bool
  | _, 0 => some true
  | layer, rem+1 =>
    match preds[layer]?, succs[layer]? with
    | some pid, some sid =>
      match validAt s pid sid layer checkSucc with
      | some true => validateFrom s preds succs checkSucc (layer+1) rem
      | some false => some false
      | none => none
    | _, _ => none

/-- Transcription of `newNode` (list.go): key, value, and a tower of size
`topLayer+1` (its content is filled by the linking loop of `Set`; the model
passes the final tower directly, which yields the same end state). -/
def newNode (ptr : Nat) (v : Int) (tower : List (Option Nat)) : Node :=
  { key := v, value := ptr, nexts := tower, marked := false, fullyLinked := false }

/-- The stores performed by the linking loop of `Set`:
`preds.get(layer).nexts.set(layer, newNode)` for layer = 0 .. topLayer. -/
def linkEntries (preds : List Nat) (nid : Nat) (topLayer : Nat) :
    Option (List (Nat × Nat × Option Nat)) :=
  (List.range (topLayer+1)).mapM (fun l => (preds[l]?).map (fun p => (p, l, some nid)))

/-- Transcription of `Header.Set` (list.go) in a single-threaded run.
`topLayer` is the value of `generateLevel(maxlevel)` drawn for this call.
The retry paths (`continue` on a marked successor, spinning on
`!fullyLinked`, validation failure) repeat an identical iteration when no
other thread runs, so they yield `none` (divergence). -/
def Set (s : Header) (v : Int) (ptr : Nat) (topLayer : Nat) : Option (Header × Bool) :=
  match findNode s v with
  | none => none
  | some (lf, preds, succs) =>
    if lf ≠ -1 then
      match succs[lf.toNat]? with
      | none => none
      | some nid =>
        match s.nodes[nid]? with
        | none => none
        | some n =>
          if !n.marked then
            if n.fullyLinked then some (setNodeAt s nid { n with value := ptr }, false)
            else none
          else none
    else
      match validateFrom s preds succs true 0 (topLayer+1) with
      | none => none
      | some false => none
      | some true =>
        if topLayer + 1 ≤ succs.length then
          let tower := (succs.take (topLayer+1)).map some
          let nid := s.nodes.length
          let s1 : Header := { s with nodes := s.nodes ++ [newNode ptr v tower] }
          match linkEntries preds nid topLayer with
          | none => none
          | some entries =>
            match setsFold s1 entries with
            | none => none
            | some s2 =>
              match s2.nodes[nid]? with
              | none => none
              | some nn =>
                let s3 := setNodeAt s2 nid { nn with fullyLinked := true }
                some ({ s3 with length := (s3.length + 1) % U32 }, true)
        else none

/-- Transcription of `node.okToDelete` (list.go):
`n.fullyLinked && len(n.nexts) == lFound+1 && !n.marked`. -/
def okToDelete (n : Node) (lFound : Int) : Bool :=
  n.fullyLinked && ((n.nexts.length : Int) == lFound + 1) && !n.marked

/-- The stores performed by the unlinking loop of `Remove`:
`preds.get(layer).nexts.set(layer, nodeToDelete.nexts.get(layer))` for
layer = topLayer down to 0. -/
def unlinkEntries (preds : List Nat) (n : Node) (topLayer : Nat) :
    Option (List (Nat × Nat × Option Nat)) :=
  ((List.range (topLayer+1)).reverse).mapM (fun l =>
    match preds[l]?, n.nexts[l]? with
    | some p, some ptr => some (p, l, ptr)
    | _, _ => none)

/-- Transcription of `Header.Remove` (list.go) in a single-threaded run.
As with `Set`, paths that would retry an identical iteration forever give
`none`. -/
def Remove (s : Header) (v : Int) : Option (Header × Bool) :=
  match findNode s v with
  | none => none
  | some (lf, preds, succs) =>
    if lf = -1 then some (s, false)
    else
      match succs[lf.toNat]? with
      | none => none
      | some nid =>
        match s.nodes[nid]? with
        | none => none
        | some n =>
          if !(okToDelete n lf) then some (s, false)
          else if n.marked then some (s, false)
          else
            let topLayer := n.nexts.length - 1
            let s1 := setNodeAt s nid { n with marked := true }
            match validateFrom s1 preds succs false 0 (topLayer+1) with
            | none => none
            | some false => none
            | some true =>
              match unlinkEntries preds n topLayer with
              | none => none
              | some entries =>
                match setsFold s1 entries with
                | none => none
                | some s2 => some ({ s2 with length := (s2.length + (U32 - 1)) % U32 }, true)

/-- Transcription of `Header.Len` (list.go): `int(atomic.LoadUint32(&h.length))`
(`length` is kept reduced modulo `2^32` by the operations). -/
def Len (s : Header) : Nat := s.length

/-- The loop body of `generateLevel` (rand.go): starting with `level = 1`,
while `level < maxLevel-1` and the coin flip continues, increment.  `flips i`
is the result of the i-th call to `flipCoin()`, i.e. the event
`generator.Float64() >= p` with `p = 0.5`; the fuel argument counts the
remaining iterations allowed by the bound `level < maxLevel-1`. -/
def genAux (flips : Nat → Bool) : Nat → Nat → Nat → Nat
  | _, level, 0 => level
  | i, level, fuel+1 => if flips i then genAux flips (i+1) (level+1) fuel else level

/-- Transcription of `generateLevel` (rand.go) over an explicit stream of
coin flips: `for level = 1; level < maxLevel-1 && flipCoin(); level++`. -/
def generateLevel (maxLevel : Nat) (flips : Nat → Bool) : Nat :=
  genAux flips 0 1 (maxLevel - 2)

theorem genAux_ge_level (flips : Nat → Bool) :
    ∀ (fuel i level : Nat), level ≤ genAux flips i level fuel := by
  intro fuel
  induction fuel with
  | zero => intro i level; simp [genAux]
  | succ f ih =>
    intro i level
    simp only [genAux]
    by_cases h : flips i
    · simp only [h, if_true]
      exact (Nat.le_succ level).trans (ih (i+1) (level+1))
    · simp [h]

theorem genAux_le (flips : Nat → Bool) :
    ∀ (fuel i level : Nat), genAux flips i level fuel ≤ level + fuel := by
  intro fuel
  induction fuel with
  | zero => intro i level; simp [genAux]
  | succ f ih =>
    intro i level
    simp only [genAux]
    by_cases h : flips i
    · rw [if_pos h]
      have := ih (i+1) (level+1)
      omega
    · rw [if_neg h]
      omega

theorem genAux_ge_iff (flips : Nat → Bool) :
    ∀ (fuel i level j : Nat), j ≤ fuel →
      (level + j ≤ genAux flips i level fuel ↔ ∀ t, t < j → flips (i + t) = true) := by
  intro fuel
  induction fuel with
  | zero =>
    intro i level j hj
    have hj0 : j = 0 := Nat.le_zero.mp hj
    subst hj0
    simp [genAux]
  | succ f ih =>
    intro i level j hj
    cases j with
    | zero =>
      simp only [Nat.add_zero]
      constructor
      · intro _ t ht; omega
      · intro _; exact genAux_ge_level flips (f+1) i level
    | succ j' =>
      simp only [genAux]
      by_cases h : flips i
      · simp only [h, if_true]
        have hiff := ih (i+1) (level+1) j' (by omega)
        have harith : level + (j' + 1) = (level + 1) + j' := by omega
        rw [harith, hiff]
        constructor
        · intro hall t ht
          cases t with
          | zero => simpa using h
          | succ t' =>
            have := hall t' (by omega)
            have harith2 : i + 1 + t' = i + (t' + 1) := by omega
            rw [harith2] at this
            exact this
        · intro hall t ht
          have := hall (t + 1) (by omega)
          have harith2 : i + (t + 1) = i + 1 + t := by omega
          rw [harith2] at this
          exact this
      · rw [if_neg h]
        constructor
        · intro hle; omega
        · intro hall
          have := hall 0 (by omega)
          simp [h] at this

theorem generateLevel_le_31 (flips : Nat → Bool) :
    generateLevel maxlevel flips ≤ 31 := by
  have := genAux_le flips 30 0 1
  simpa [generateLevel, maxlevel] using this

theorem generateLevel_ge_1 (flips : Nat → Bool) :
    1 ≤ generateLevel maxlevel flips :=
  genAux_ge_level flips 30 0 1

theorem generateLevel_ge_iff (flips : Nat → Bool) (k : Nat)
    (h1 : 1 ≤ k) (h2 : k ≤ 31) :
    (k ≤ generateLevel maxlevel flips ↔ ∀ t, t + 1 < k → flips t = true) := by
  have hiff := genAux_ge_iff flips 30 0 1 (k - 1) (by omega)
  have harith : 1 + (k - 1) = k := by omega
  rw [harith] at hiff
  show k ≤ genAux flips 0 1 (maxlevel - 2) ↔ _
  have hml : maxlevel - 2 = 30 := by norm_num [maxlevel]
  rw [hml, hiff]
  constructor
  · intro hall t ht
    have := hall t (by omega)
    simpa using this
  · intro hall t ht
    have := hall t (by omega)
    simpa using this

theorem generateLevel_depends_on_prefix (k : Nat) (h1 : 1 ≤ k) (h2 : k ≤ 31)
    (f : Fin 30 → Bool) :
    (k ≤ generateLevel maxlevel (fun i => if h : i < 30 then f ⟨i, h⟩ else false)
      ↔ ∀ i : Fin 30, (i : Nat) + 1 < k → f i = true) := by
  rw [generateLevel_ge_iff _ k h1 h2]
  constructor
  · intro hall i hi
    have := hall i.1 hi
    rwa [dif_pos i.2] at this
  · intro hall t ht
    have ht30 : t < 30 := by omega
    rw [dif_pos ht30]
    exact hall ⟨t, ht30⟩ ht

theorem count_constrained_flip_vectors (k : Nat) (h1 : 1 ≤ k) (h2 : k ≤ 31) :
    (Finset.univ.filter
        (fun f : Fin 30 → Bool => ∀ i : Fin 30, (i : Nat) + 1 < k → f i = true)).card
      = 2 ^ (30 - (k - 1)) := by
  rw [← Fintype.card_subtype]
  rw [Fintype.card_congr
    (@Equiv.subtypePiEquivPi (Fin 30) (fun _ => Bool)
      (fun (i : Fin 30) (b : Bool) => (i : Nat) + 1 < k → b = true))]
  rw [Fintype.card_pi]
  have hci : ∀ i : Fin 30,
      Fintype.card {b : Bool // (i : Nat) + 1 < k → b = true}
        = if (i : Nat) + 1 < k then 1 else 2 := by
    intro i
    by_cases hi : (i : Nat) + 1 < k
    · rw [if_pos hi]
      have hiff : ∀ b : Bool, (((i : Nat) + 1 < k → b = true) ↔ b = true) :=
        fun b => ⟨fun h => h hi, fun h _ => h⟩
      rw [Fintype.card_congr (Equiv.subtypeEquivRight hiff)]
      exact Fintype.card_subtype_eq true
    · rw [if_neg hi]
      have hiff : ∀ b : Bool, (((i : Nat) + 1 < k → b = true) ↔ True) :=
        fun b => ⟨fun _ => trivial, fun _ h => absurd h hi⟩
      rw [Fintype.card_congr (Equiv.subtypeEquivRight hiff)]
      rw [Fintype.card_congr (Equiv.subtypeUnivEquiv (fun _ => trivial))]
      exact Fintype.card_bool
  rw [Finset.prod_congr rfl (fun i _ => hci i)]
  rw [Finset.prod_ite]
  simp only [Finset.prod_const_one, Finset.prod_const, one_mul]
  congr 1
  by_cases hk : k - 1 < 30
  · have hfe : (Finset.univ.filter (fun i : Fin 30 => ¬ ((i : Nat) + 1 < k)))
        = Finset.Ici (⟨k - 1, hk⟩ : Fin 30) := by
      ext i
      simp only [Finset.mem_filter, Finset.mem_univ, true_and, Finset.mem_Ici, Fin.le_def]
      omega
    rw [hfe, Fin.card_Ici]
  · have hk31 : k = 31 := by omega
    subst hk31
    have hfe : (Finset.univ.filter (fun i : Fin 30 => ¬ ((i : Nat) + 1 < 31)))
        = (∅ : Finset (Fin 30)) := by
      ext i
      simp only [Finset.mem_filter, Finset.mem_univ, true_and, Finset.not_mem_empty, iff_false]
      have := i.2
      omega
    rw [hfe]
    simp

theorem generateLevel_tail_count (k : Nat) (h1 : 1 ≤ k) (h2 : k ≤ 31) :
    (Finset.univ.filter (fun f : Fin 30 → Bool =>
        k ≤ generateLevel maxlevel (fun i => if h : i < 30 then f ⟨i, h⟩ else false))).card
      * 2 ^ (k - 1) = 2 ^ 30 := by
  have hset : (Finset.univ.filter (fun f : Fin 30 → Bool =>
        k ≤ generateLevel maxlevel (fun i => if h : i < 30 then f ⟨i, h⟩ else false)))
      = (Finset.univ.filter
          (fun f : Fin 30 → Bool => ∀ i : Fin 30, (i : Nat) + 1 < k → f i = true)) := by
    apply Finset.filter_congr
    intro f _
    exact generateLevel_depends_on_prefix k h1 h2 f
  rw [hset, count_constrained_flip_vectors k h1 h2, ← pow_add]
  congr 1
  omega

/-- The level-`layer` chain a well-formed state is expected to carry:
the left sentinel, then (in key order) every live node whose tower covers
`layer`, then the right sentinel. -/
def levChain (s : Header) (mid : List Nat) (layer : Nat) : List Nat :=
  s.leftSentinel :: ((mid.filter (fun m => decide (layer < heightOf s m))) ++ [s.rightSentinel])

/-- Adjacency on the level-`layer` chain: `a`'s forward pointer at `layer`
is exactly `b`. -/
def ChainRel (s : Header) (layer : Nat) (a b : Nat) : Prop :=
  nextAt s a layer = some (some b)

/-- The list `l` is literally linked, element to element, at `layer`. -/
def ChainOk (s : Header) (layer : Nat) (l : List Nat) : Prop :=
  List.Chain' (ChainRel s layer) l

/-- Structural well-formedness of a state, with `mid` the (sorted) list of
indices of live user nodes.  This is the single-threaded version of the
skip-list shape invariants: sentinels in place, live nodes fully linked and
unmarked with towers of height 2..32, keys strictly ascending, and the
level-`i` chain containing exactly the live nodes of height `> i`. -/
structure StructOk (s : Header) (mid : List Nat) : Prop where
  left_lt : s.leftSentinel < s.nodes.length
  right_lt : s.rightSentinel < s.nodes.length
  left_key : keyOf s s.leftSentinel = minKey
  right_key : keyOf s s.rightSentinel = maxKey
  left_height : heightOf s s.leftSentinel = maxlevel
  right_height : heightOf s s.rightSentinel = maxlevel
  left_marked : markedOf s s.leftSentinel = false
  right_marked : markedOf s s.rightSentinel = false
  left_flag : flagOf s s.leftSentinel = true
  right_flag : flagOf s s.rightSentinel = true
  mid_ok : ∀ m ∈ mid, m < s.nodes.length ∧ minKey < keyOf s m ∧ keyOf s m < maxKey ∧
    markedOf s m = false ∧ flagOf s m = true ∧ 2 ≤ heightOf s m ∧ heightOf s m ≤ maxlevel
  sorted : List.Pairwise (fun a b => keyOf s a < keyOf s b)
    (s.leftSentinel :: mid ++ [s.rightSentinel])
  chains : ∀ layer, layer < maxlevel → ChainOk s layer (levChain s mid layer)

/-- Full invariant: structure plus an accurate length counter. -/
def InvData (s : Header) (mid : List Nat) : Prop :=
  StructOk s mid ∧ s.length = mid.length

theorem StructOk.full_nodup {s : Header} {mid : List Nat} (h : StructOk s mid) :
    (s.leftSentinel :: mid ++ [s.rightSentinel]).Nodup := by
  refine h.sorted.imp ?_
  intro a b hab
  intro hEq
  subst hEq
  exact lt_irrefl _ hab

theorem StructOk.full_valid {s : Header} {mid : List Nat} (h : StructOk s mid) :
    ∀ i ∈ s.leftSentinel :: mid ++ [s.rightSentinel], i < s.nodes.length := by
  intro i hi
  simp only [List.mem_cons, List.mem_append, List.mem_singleton] at hi
  rcases hi with (rfl | hi) | (rfl | hnil)
  · exact h.left_lt
  · exact (h.mid_ok i hi).1
  · exact h.right_lt
  · exact absurd hnil (List.not_mem_nil i)

theorem StructOk.size_bound {s : Header} {mid : List Nat} (h : StructOk s mid) :
    mid.length + 2 ≤ s.nodes.length := by
  have hnodup := h.full_nodup
  have hvalid := h.full_valid
  have hsub : (s.leftSentinel :: mid ++ [s.rightSentinel]).toFinset ⊆
      Finset.range s.nodes.length := by
    intro i hi
    rw [List.mem_toFinset] at hi
    rw [Finset.mem_range]
    exact hvalid i hi
  have hcard := Finset.card_le_card hsub
  rw [List.toFinset_card_of_nodup hnodup, Finset.card_range] at hcard
  simpa using hcard

theorem StructOk.levChain_sublist {s : Header} {mid : List Nat} (layer : Nat) :
    List.Sublist (levChain s mid layer) (s.leftSentinel :: mid ++ [s.rightSentinel]) := by
  unfold levChain
  refine List.Sublist.cons₂ _ ?_
  exact List.Sublist.append (List.filter_sublist mid) (List.Sublist.refl _)

theorem StructOk.levChain_sorted {s : Header} {mid : List Nat} (h : StructOk s mid)
    (layer : Nat) :
    List.Pairwise (fun a b => keyOf s a < keyOf s b) (levChain s mid layer) :=
  h.sorted.sublist (StructOk.levChain_sublist layer)

theorem StructOk.levChain_valid {s : Header} {mid : List Nat} (h : StructOk s mid)
    (layer : Nat) :
    ∀ i ∈ levChain s mid layer, i < s.nodes.length := by
  intro i hi
  exact h.full_valid i ((StructOk.levChain_sublist layer).mem hi)

theorem StructOk.levChain_length {s : Header} {mid : List Nat} (h : StructOk s mid)
    (layer : Nat) :
    (levChain s mid layer).length ≤ s.nodes.length := by
  have h1 : (levChain s mid layer).length ≤ (s.leftSentinel :: mid ++ [s.rightSentinel]).length :=
    (StructOk.levChain_sublist layer).length_le
  have h2 := h.size_bound
  simp at h1
  omega

theorem chase_spec (s : Header) (v : Int) (layer : Nat) :
    ∀ (c : List Nat) (x : Nat) (fuel : Nat),
      ChainOk s layer (x :: c) → (∀ i ∈ x :: c, i < s.nodes.length) →
      keyOf s x < v → (∃ z ∈ x :: c, ¬ keyOf s z < v) → (x :: c).length ≤ fuel →
      ∃ p q, chase s v layer fuel x = some (p, q) ∧
        ((x :: c).takeWhile (fun i => decide (keyOf s i < v))).getLast? = some p ∧
        ((x :: c).dropWhile (fun i => decide (keyOf s i < v))).head? = some q := by
  intro c
  induction c with
  | nil =>
    intro x fuel _ _ hx hstop _
    exfalso
    obtain ⟨z, hz, hzk⟩ := hstop
    simp only [List.mem_singleton] at hz
    subst hz
    exact hzk hx
  | cons y c' ih =>
    intro x fuel hchain hvalid hx hstop hfuel
    obtain ⟨f, rfl⟩ : ∃ f, fuel = f + 1 := ⟨fuel - 1, by simp at hfuel; omega⟩
    have hrel : ChainRel s layer x y := (List.chain'_cons.mp hchain).1
    have hyv : y < s.nodes.length := hvalid y (by simp)
    obtain ⟨yn, hyn⟩ : ∃ yn, s.nodes[y]? = some yn :=
      ⟨s.nodes[y], List.getElem?_eq_getElem hyv⟩
    have hykey : keyOf s y = yn.key := by simp [keyOf, hyn]
    have hstep : chase s v layer (f+1) x =
        (if yn.key < v then chase s v layer f y else some (x, y)) := by
      have h1 : chase s v layer (f+1) x =
          match nextAt s x layer with
          | some (some r) =>
            match s.nodes[r]? with
            | some rn => if rn.key < v then chase s v layer f r else some (x, r)
            | none => none
          | _ => none := rfl
      rw [h1, show nextAt s x layer = some (some y) from hrel]
      show (match s.nodes[y]? with
        | some rn => if rn.key < v then chase s v layer f y else some (x, y)
        | none => none) = _
      rw [hyn]
    by_cases hy : yn.key < v
    · rw [if_pos hy] at hstep
      obtain ⟨p, q, hc, htw, hdw⟩ := ih y f (List.chain'_cons.mp hchain).2
        (fun i hi => hvalid i (by simp [hi]))
        (hykey ▸ hy)
        (by
          obtain ⟨z, hz, hzk⟩ := hstop
          refine ⟨z, ?_, hzk⟩
          simp only [List.mem_cons] at hz ⊢
          rcases hz with rfl | hz
          · exact absurd hx hzk
          · exact hz)
        (by simp at hfuel ⊢; omega)
      refine ⟨p, q, hstep ▸ hc, ?_, ?_⟩
      · rw [List.takeWhile_cons, if_pos (by simpa using hx)]
        have htwy : (y :: c').takeWhile (fun i => decide (keyOf s i < v))
            = y :: c'.takeWhile (fun i => decide (keyOf s i < v)) := by
          rw [List.takeWhile_cons, if_pos (by simp [hykey, hy])]
        rw [htwy] at htw ⊢
        rw [List.getLast?_cons_cons]
        exact htw
      · rw [List.dropWhile_cons, if_pos (by simpa using hx)]
        exact hdw
    · rw [if_neg hy] at hstep
      refine ⟨x, y, hstep, ?_, ?_⟩
      · rw [List.takeWhile_cons, if_pos (by simpa using hx)]
        rw [List.takeWhile_cons, if_neg (by simp [hykey, hy])]
        rfl
      · rw [List.dropWhile_cons, if_pos (by simpa using hx)]
        rw [List.dropWhile_cons, if_neg (by simp [hykey, hy])]
        rfl

/-- Prefix of a chain whose keys are `< v`. -/
def lowsOf (s : Header) (v : Int) (l : List Nat) : List Nat :=
  l.takeWhile (fun i => decide (keyOf s i < v))

/-- Remainder of a chain from the first key `≥ v` on. -/
def highsOf (s : Header) (v : Int) (l : List Nat) : List Nat :=
  l.dropWhile (fun i => decide (keyOf s i < v))

/-- The predecessor `findNode` should record at layer `j`. -/
def predAt (s : Header) (mid : List Nat) (v : Int) (j : Nat) : Nat :=
  (lowsOf s v (levChain s mid j)).getLast?.getD 0

/-- The successor `findNode` should record at layer `j`. -/
def succAt (s : Header) (mid : List Nat) (v : Int) (j : Nat) : Nat :=
  (highsOf s v (levChain s mid j)).head?.getD 0

/-- The `lFound` accumulator of `findNode` after the layers `L-1 .. 0` have
been processed starting from accumulator `lf`. -/
def lfAux (s : Header) (mid : List Nat) (v : Int) : Nat → Int → Int
  | 0, lf => lf
  | j+1, lf =>
    lfAux s mid v j (if lf = -1 ∧ keyOf s (succAt s mid v j) = v then (j : Int) else lf)

/-- Number of layers on which key `v` occurs in a well-formed state: 32 for
the right-sentinel key, the height of the live node with key `v` if any,
else 0. -/
def vHeight (s : Header) (mid : List Nat) (v : Int) : Nat :=
  if v = maxKey then maxlevel
  else
    match mid.find? (fun m => keyOf s m == v) with
    | some m => heightOf s m
    | none => 0

theorem mem_levChain_cases {s : Header} {mid : List Nat} {layer i : Nat}
    (hi : i ∈ levChain s mid layer) :
    i = s.leftSentinel ∨ (i ∈ mid ∧ layer < heightOf s i) ∨ i = s.rightSentinel := by
  unfold levChain at hi
  simp only [List.mem_cons, List.mem_append, List.mem_singleton, List.mem_filter,
    decide_eq_true_eq] at hi
  tauto

theorem left_mem_levChain (s : Header) (mid : List Nat) (layer : Nat) :
    s.leftSentinel ∈ levChain s mid layer := by
  unfold levChain; simp

theorem right_mem_levChain (s : Header) (mid : List Nat) (layer : Nat) :
    s.rightSentinel ∈ levChain s mid layer := by
  unfold levChain; simp

theorem mem_levChain_unmarked {s : Header} {mid : List Nat} (h : StructOk s mid)
    {layer i : Nat} (hi : i ∈ levChain s mid layer) :
    markedOf s i = false ∧ flagOf s i = true := by
  rcases mem_levChain_cases hi with rfl | ⟨hm, _⟩ | rfl
  · exact ⟨h.left_marked, h.left_flag⟩
  · exact ⟨(h.mid_ok i hm).2.2.2.1, (h.mid_ok i hm).2.2.2.2.1⟩
  · exact ⟨h.right_marked, h.right_flag⟩

theorem mem_levChain_height {s : Header} {mid : List Nat} (h : StructOk s mid)
    {layer i : Nat} (hlayer : layer < maxlevel) (hi : i ∈ levChain s mid layer) :
    layer < heightOf s i := by
  rcases mem_levChain_cases hi with rfl | ⟨_, hh⟩ | rfl
  · rw [h.left_height]; exact hlayer
  · exact hh
  · rw [h.right_height]; exact hlayer

theorem takeWhile_append_of_all {α : Type} (p : α → Bool) :
    ∀ (pre rest : List α), (∀ a ∈ pre, p a = true) →
      (pre ++ rest).takeWhile p = pre ++ rest.takeWhile p ∧
      (pre ++ rest).dropWhile p = rest.dropWhile p := by
  intro pre
  induction pre with
  | nil => intro rest _; simp
  | cons a pre' ih =>
    intro rest hall
    have ha : p a = true := hall a (by simp)
    have := ih rest (fun b hb => hall b (by simp [hb]))
    constructor
    · rw [List.cons_append, List.takeWhile_cons, if_pos ha, this.1]
      rfl
    · rw [List.cons_append, List.dropWhile_cons, if_pos ha, this.2]

theorem chain_adjacent {s : Header} {v : Int} {layer : Nat} {l : List Nat}
    (hchain : ChainOk s layer l) {p q : Nat}
    (hp : (lowsOf s v l).getLast? = some p) (hq : (highsOf s v l).head? = some q) :
    ChainRel s layer p q := by
  have hsplit : lowsOf s v l ++ highsOf s v l = l :=
    List.takeWhile_append_dropWhile _ _
  rw [show (ChainOk s layer l) = ChainOk s layer (lowsOf s v l ++ highsOf s v l) by
    rw [hsplit]] at hchain
  have hparts := List.chain'_append.mp hchain
  exact hparts.2.2 p hp q hq

theorem mem_lowsOf_key {s : Header} {v : Int} {l : List Nat} {i : Nat}
    (hi : i ∈ lowsOf s v l) : keyOf s i < v := by
  have := List.mem_takeWhile_imp hi
  simpa using this

theorem head_highsOf_key {s : Header} {v : Int} {l : List Nat} {q : Nat}
    (hq : (highsOf s v l).head? = some q) : ¬ keyOf s q < v := by
  unfold highsOf at hq
  have := List.head?_dropWhile_not (fun i => decide (keyOf s i < v)) l
  rw [hq] at this
  simpa using this

theorem lows_ne_nil {s : Header} {mid : List Nat} (h : StructOk s mid) {v : Int}
    (hv1 : minKey < v) (layer : Nat) :
    ∃ t, lowsOf s v (levChain s mid layer) = s.leftSentinel :: t := by
  have hstep : lowsOf s v (levChain s mid layer) =
      s.leftSentinel :: (List.filter (fun m => decide (layer < heightOf s m)) mid
        ++ [s.rightSentinel]).takeWhile (fun i => decide (keyOf s i < v)) := by
    unfold lowsOf levChain
    rw [List.takeWhile_cons, if_pos (by simp [h.left_key]; exact hv1)]
  exact ⟨_, hstep⟩

theorem highs_ne_nil {s : Header} {mid : List Nat} (h : StructOk s mid) {v : Int}
    (hv2 : v ≤ maxKey) (layer : Nat) :
    highsOf s v (levChain s mid layer) ≠ [] := by
  intro hnil
  unfold highsOf at hnil
  have := List.dropWhile_eq_nil_iff.mp hnil _ (right_mem_levChain s mid layer)
  rw [h.right_key] at this
  simp at this
  omega

theorem predAt_eq {s : Header} {mid : List Nat} (h : StructOk s mid) {v : Int}
    (hv1 : minKey < v) (layer : Nat) :
    (lowsOf s v (levChain s mid layer)).getLast? = some (predAt s mid v layer) := by
  obtain ⟨t, ht⟩ := lows_ne_nil h hv1 layer
  have hne : lowsOf s v (levChain s mid layer) ≠ [] := by rw [ht]; simp
  obtain ⟨p, hp⟩ := Option.isSome_iff_exists.mp (List.getLast?_isSome.mpr hne)
  rw [hp]
  unfold predAt
  rw [hp]
  rfl

theorem succAt_eq {s : Header} {mid : List Nat} (h : StructOk s mid) {v : Int}
    (hv2 : v ≤ maxKey) (layer : Nat) :
    (highsOf s v (levChain s mid layer)).head? = some (succAt s mid v layer) := by
  have hne := highs_ne_nil h hv2 layer
  obtain ⟨q, t, hqt⟩ := List.exists_cons_of_ne_nil hne
  rw [hqt]
  unfold succAt
  rw [hqt]
  rfl

theorem predAt_key_lt {s : Header} {mid : List Nat} (h : StructOk s mid) {v : Int}
    (hv1 : minKey < v) (layer : Nat) :
    keyOf s (predAt s mid v layer) < v :=
  mem_lowsOf_key (List.mem_of_getLast?_eq_some (predAt_eq h hv1 layer))

theorem succAt_key_ge {s : Header} {mid : List Nat} (h : StructOk s mid) {v : Int}
    (hv2 : v ≤ maxKey) (layer : Nat) :
    ¬ keyOf s (succAt s mid v layer) < v :=
  head_highsOf_key (succAt_eq h hv2 layer)

theorem predAt_mem_chain {s : Header} {mid : List Nat} (h : StructOk s mid) {v : Int}
    (hv1 : minKey < v) (layer : Nat) :
    predAt s mid v layer ∈ levChain s mid layer := by
  have := List.mem_of_getLast?_eq_some (predAt_eq h hv1 layer)
  exact (List.takeWhile_sublist _).subset this

theorem succAt_mem_chain {s : Header} {mid : List Nat} (h : StructOk s mid) {v : Int}
    (hv2 : v ≤ maxKey) (layer : Nat) :
    succAt s mid v layer ∈ levChain s mid layer := by
  have hsucc := succAt_eq h hv2 layer
  have hne := highs_ne_nil h hv2 layer
  obtain ⟨q, t, hqt⟩ := List.exists_cons_of_ne_nil hne
  rw [hqt] at hsucc
  have hmem : succAt s mid v layer ∈ highsOf s v (levChain s mid layer) := by
    rw [hqt]
    have : q = succAt s mid v layer := by simpa using hsucc
    rw [← this]
    simp
  unfold highsOf at hmem
  exact (List.dropWhile_sublist _).subset hmem

theorem predAt_adjacent {s : Header} {mid : List Nat} (h : StructOk s mid) {v : Int}
    (hv1 : minKey < v) (hv2 : v ≤ maxKey) {layer : Nat} (hlayer : layer < maxlevel) :
    ChainRel s layer (predAt s mid v layer) (succAt s mid v layer) :=
  chain_adjacent (h.chains layer hlayer) (predAt_eq h hv1 layer) (succAt_eq h hv2 layer)

theorem predAt_mem_lower {s : Header} {mid : List Nat} (h : StructOk s mid) {v : Int}
    (hv1 : minKey < v) (hv2 : v ≤ maxKey) (layer : Nat) :
    predAt s mid v layer = s.leftSentinel ∨
      (predAt s mid v layer ∈ mid ∧ layer ≤ heightOf s (predAt s mid v layer)) := by
  rcases mem_levChain_cases (predAt_mem_chain h hv1 layer) with hl | ⟨hm, hh⟩ | hr
  · exact Or.inl hl
  · exact Or.inr ⟨hm, by omega⟩
  · exfalso
    have := predAt_key_lt h hv1 layer
    rw [hr, h.right_key] at this
    omega

theorem chase_at_layer {s : Header} {mid : List Nat} (h : StructOk s mid) {v : Int}
    (hv1 : minKey < v) (hv2 : v ≤ maxKey) {layer : Nat} (hlayer : layer < maxlevel)
    {x : Nat} (hx : x ∈ levChain s mid layer) (hxk : keyOf s x < v) :
    chase s v layer (s.nodes.length + 1) x =
      some (predAt s mid v layer, succAt s mid v layer) := by
  obtain ⟨pre, c, hsplit⟩ := List.append_of_mem hx
  have hsorted := h.levChain_sorted layer
  rw [hsplit] at hsorted
  have hpre : ∀ a ∈ pre, keyOf s a < v := by
    intro a ha
    have := (List.pairwise_append.mp hsorted).2.2 a ha x (by simp)
    omega
  have hpreB : ∀ a ∈ pre, (fun i => decide (keyOf s i < v)) a = true := by
    intro a ha; simpa using hpre a ha
  have hta := takeWhile_append_of_all (fun i => decide (keyOf s i < v)) pre (x :: c) hpreB
  have hright : s.rightSentinel ∈ x :: c := by
    have hmem := right_mem_levChain s mid layer
    rw [hsplit] at hmem
    rcases List.mem_append.mp hmem with hp | hc
    · exfalso
      have := hpre _ hp
      rw [h.right_key] at this
      omega
    · exact hc
  have hchainsuf : ChainOk s layer (x :: c) := by
    have hc := h.chains layer hlayer
    rw [hsplit] at hc
    exact (List.chain'_append.mp hc).2.1
  have hvalidsuf : ∀ i ∈ x :: c, i < s.nodes.length := by
    intro i hi
    exact h.levChain_valid layer i (by rw [hsplit]; exact List.mem_append.mpr (Or.inr hi))
  have hfuel : (x :: c).length ≤ s.nodes.length + 1 := by
    have h1 : (x :: c).length ≤ (levChain s mid layer).length := by
      rw [hsplit]; simp
    have h2 := h.levChain_length layer
    omega
  obtain ⟨p, q, hc, htw, hdw⟩ := chase_spec s v layer c x (s.nodes.length + 1)
    hchainsuf hvalidsuf hxk
    ⟨s.rightSentinel, hright, by rw [h.right_key]; omega⟩ hfuel
  have hlowseq : (lowsOf s v (levChain s mid layer)).getLast? = some p := by
    unfold lowsOf
    rw [hsplit, hta.1, List.getLast?_append]
    rw [htw]
    rfl
  have hhighseq : (highsOf s v (levChain s mid layer)).head? = some q := by
    unfold highsOf
    rw [hsplit, hta.2]
    exact hdw
  have hp : p = predAt s mid v layer := by
    have := predAt_eq h hv1 layer
    rw [hlowseq] at this
    simpa using this
  have hq : q = succAt s mid v layer := by
    have := succAt_eq h hv2 layer
    rw [hhighseq] at this
    simpa using this
  rw [hp, hq] at hc
  exact hc

theorem findNodeAux_succ (s : Header) (v : Int) (fuel L x : Nat) (lf : Int)
    (preds succs : List Nat) :
    findNodeAux s v fuel (L+1) x lf preds succs =
      match chase s v L fuel x with
      | none => none
      | some (p, r) =>
        match s.nodes[r]? with
        | none => none
        | some rn =>
          findNodeAux s v fuel L p (if lf = -1 ∧ rn.key = v then (L : Int) else lf)
            (p :: preds) (r :: succs) := rfl

theorem findNodeAux_spec (s : Header) (mid : List Nat) (v : Int) (h : StructOk s mid)
    (hv1 : minKey < v) (hv2 : v ≤ maxKey) :
    ∀ (L : Nat), L ≤ maxlevel → ∀ (x : Nat),
      (x = s.leftSentinel ∨ (x ∈ mid ∧ L ≤ heightOf s x)) → keyOf s x < v →
      ∀ (lf : Int) (preds succs : List Nat),
        findNodeAux s v (s.nodes.length + 1) L x lf preds succs =
          some (lfAux s mid v L lf,
            (List.range L).map (predAt s mid v) ++ preds,
            (List.range L).map (succAt s mid v) ++ succs) := by
  intro L
  induction L with
  | zero =>
    intro _ x _ _ lf preds succs
    simp [findNodeAux, lfAux]
  | succ L ihL =>
    intro hL x hmem hxk lf preds succs
    have hlayer : L < maxlevel := by omega
    have hxchain : x ∈ levChain s mid L := by
      rcases hmem with rfl | ⟨hm, hh⟩
      · exact left_mem_levChain s mid L
      · unfold levChain
        simp only [List.mem_cons, List.mem_append, List.mem_filter, decide_eq_true_eq,
          List.mem_singleton]
        exact Or.inr (Or.inl ⟨hm, by omega⟩)
    have hchase := chase_at_layer h hv1 hv2 hlayer hxchain hxk
    rw [findNodeAux_succ, hchase]
    have hqmem := succAt_mem_chain h hv2 L
    have hqv : succAt s mid v L < s.nodes.length := h.levChain_valid L _ hqmem
    obtain ⟨qn, hqn⟩ : ∃ qn, s.nodes[succAt s mid v L]? = some qn :=
      ⟨_, List.getElem?_eq_getElem hqv⟩
    show (match s.nodes[succAt s mid v L]? with
      | none => none
      | some rn =>
        findNodeAux s v (s.nodes.length + 1) L (predAt s mid v L)
          (if lf = -1 ∧ rn.key = v then (L : Int) else lf)
          (predAt s mid v L :: preds) (succAt s mid v L :: succs)) = _
    rw [hqn]
    have hqkey : qn.key = keyOf s (succAt s mid v L) := by simp [keyOf, hqn]
    show findNodeAux s v (s.nodes.length + 1) L (predAt s mid v L)
        (if lf = -1 ∧ qn.key = v then (L : Int) else lf)
        (predAt s mid v L :: preds) (succAt s mid v L :: succs) = _
    rw [ihL (by omega) (predAt s mid v L) (predAt_mem_lower h hv1 hv2 L)
      (predAt_key_lt h hv1 L) _ _ _]
    congr 1
    refine congrArg₂ _ ?_ (congrArg₂ _ ?_ ?_)
    · show lfAux s mid v L (if lf = -1 ∧ qn.key = v then (L : Int) else lf)
        = lfAux s mid v (L+1) lf
      rw [hqkey]
      rfl
    · rw [List.range_succ, List.map_append, List.append_assoc]
      rfl
    · rw [List.range_succ, List.map_append, List.append_assoc]
      rfl

theorem findNode_spec {s : Header} {mid : List Nat} (h : StructOk s mid) {v : Int}
    (hv1 : minKey < v) (hv2 : v ≤ maxKey) :
    findNode s v = some (lfAux s mid v maxlevel (-1),
      (List.range maxlevel).map (predAt s mid v),
      (List.range maxlevel).map (succAt s mid v)) := by
  unfold findNode
  have := findNodeAux_spec s mid v h hv1 hv2 maxlevel le_rfl s.leftSentinel (Or.inl rfl)
    (by rw [h.left_key]; exact hv1) (-1) [] []
  simpa using this

theorem mid_key_inj {s : Header} {mid : List Nat} (h : StructOk s mid) :
    ∀ a ∈ mid, ∀ b ∈ mid, keyOf s a = keyOf s b → a = b := by
  have hmidsorted : List.Pairwise (fun a b => keyOf s a < keyOf s b) mid := by
    refine h.sorted.sublist ?_
    refine List.Sublist.cons _ ?_
    exact (List.sublist_append_left mid [s.rightSentinel])
  have hne : List.Pairwise (fun a b => keyOf s a ≠ keyOf s b) mid :=
    hmidsorted.imp (fun hab => ne_of_lt hab)
  have hsym : Symmetric (fun a b : Nat => keyOf s a ≠ keyOf s b) := by
    intro x y hxy
    exact Ne.symm hxy
  intro a ha b hb hk
  by_contra hab
  exact (hne.forall hsym ha hb hab) hk

theorem minKey_lt_maxKey : minKey < maxKey := by norm_num [minKey, maxKey]

theorem succAt_of_mem {s : Header} {mid : List Nat} (h : StructOk s mid) {v : Int}
    (hv1 : minKey < v) {m0 : Nat} (hm0 : m0 ∈ mid) (hkey : keyOf s m0 = v)
    {j : Nat} (hj : j < heightOf s m0) :
    succAt s mid v j = m0 := by
  have hvmax : v < maxKey := hkey ▸ (h.mid_ok m0 hm0).2.2.1
  have hmem : m0 ∈ levChain s mid j := by
    unfold levChain
    simp only [List.mem_cons, List.mem_append, List.mem_filter, decide_eq_true_eq,
      List.mem_singleton]
    exact Or.inr (Or.inl ⟨hm0, hj⟩)
  obtain ⟨pre, post, hsplit⟩ := List.append_of_mem hmem
  have hsorted := h.levChain_sorted j
  rw [hsplit] at hsorted
  have hpre : ∀ a ∈ pre, (fun i => decide (keyOf s i < v)) a = true := by
    intro a ha
    have := (List.pairwise_append.mp hsorted).2.2 a ha m0 (by simp)
    rw [hkey] at this
    simpa using this
  have hta := takeWhile_append_of_all (fun i => decide (keyOf s i < v)) pre (m0 :: post) hpre
  have hhighs : highsOf s v (levChain s mid j) = m0 :: post := by
    unfold highsOf
    rw [hsplit, hta.2, List.dropWhile_cons_of_neg]
    simp [hkey]
  have hsAt := succAt_eq h (le_of_lt hvmax) j
  rw [hhighs] at hsAt
  simpa using hsAt.symm

theorem succAt_maxKey {s : Header} {mid : List Nat} (h : StructOk s mid) (j : Nat) :
    succAt s mid maxKey j = s.rightSentinel := by
  have hpre : ∀ a ∈ s.leftSentinel :: mid.filter (fun m => decide (j < heightOf s m)),
      (fun i => decide (keyOf s i < maxKey)) a = true := by
    intro a ha
    rcases List.mem_cons.mp ha with rfl | hf
    · simp only [decide_eq_true_eq, h.left_key]
      exact minKey_lt_maxKey
    · have := (h.mid_ok a (List.mem_of_mem_filter hf)).2.2.1
      simpa using this
  have hta := takeWhile_append_of_all (fun i => decide (keyOf s i < maxKey))
    (s.leftSentinel :: mid.filter (fun m => decide (j < heightOf s m))) [s.rightSentinel] hpre
  have hhighs : highsOf s maxKey (levChain s mid j) = [s.rightSentinel] := by
    unfold highsOf levChain
    rw [← List.cons_append, hta.2, List.dropWhile_cons_of_neg]
    simp [h.right_key]
  have hsAt := succAt_eq h le_rfl j
  rw [hhighs] at hsAt
  simpa using hsAt.symm

theorem vHeight_le {s : Header} {mid : List Nat} (h : StructOk s mid) (v : Int) :
    vHeight s mid v ≤ maxlevel := by
  unfold vHeight
  by_cases hmax : v = maxKey
  · rw [if_pos hmax]
  · rw [if_neg hmax]
    cases hfind : mid.find? (fun m => keyOf s m == v) with
    | some m0 =>
      exact (h.mid_ok m0 (List.mem_of_find?_eq_some hfind)).2.2.2.2.2.2
    | none => exact Nat.zero_le _

theorem succAt_key_iff {s : Header} {mid : List Nat} (h : StructOk s mid) {v : Int}
    (hv1 : minKey < v) (hv2 : v ≤ maxKey) {j : Nat} (hj : j < maxlevel) :
    keyOf s (succAt s mid v j) = v ↔ j < vHeight s mid v := by
  unfold vHeight
  by_cases hmax : v = maxKey
  · rw [if_pos hmax]
    subst hmax
    rw [succAt_maxKey h j, h.right_key]
    simp [hj]
  · rw [if_neg hmax]
    have hvlt : v < maxKey := lt_of_le_of_ne hv2 hmax
    cases hfind : mid.find? (fun m => keyOf s m == v) with
    | some m0 =>
      have hm0 : m0 ∈ mid := List.mem_of_find?_eq_some hfind
      have hkey : keyOf s m0 = v := by
        have := List.find?_some hfind
        simpa using this
      constructor
      · intro hk
        rcases mem_levChain_cases (succAt_mem_chain h hv2 j) with hl | ⟨hm', hh'⟩ | hr
        · rw [hl, h.left_key] at hk
          rw [hk] at hv1
          exact absurd hv1 (lt_irrefl v)
        · have heq : succAt s mid v j = m0 :=
            mid_key_inj h _ hm' _ hm0 (by rw [hk, hkey])
          rw [heq] at hh'
          exact hh'
        · rw [hr, h.right_key] at hk
          rw [hk] at hvlt
          exact absurd hvlt (lt_irrefl v)
      · intro hh
        rw [succAt_of_mem h hv1 hm0 hkey hh, hkey]
    | none =>
      constructor
      · intro hk
        exfalso
        rcases mem_levChain_cases (succAt_mem_chain h hv2 j) with hl | ⟨hm', _⟩ | hr
        · rw [hl, h.left_key] at hk
          rw [hk] at hv1
          exact absurd hv1 (lt_irrefl v)
        · have := List.find?_eq_none.mp hfind _ hm'
          simp [hk] at this
        · rw [hr, h.right_key] at hk
          rw [hk] at hvlt
          exact absurd hvlt (lt_irrefl v)
      · intro hh
        exact absurd (show j < 0 from hh) (Nat.not_lt_zero j)

theorem lfAux_ne (s : Header) (mid : List Nat) (v : Int) :
    ∀ (L : Nat) (lf : Int), lf ≠ -1 → lfAux s mid v L lf = lf := by
  intro L
  induction L with
  | zero => intro lf _; rfl
  | succ L ih =>
    intro lf hlf
    show lfAux s mid v L
      (if lf = -1 ∧ keyOf s (succAt s mid v L) = v then (L : Int) else lf) = lf
    rw [if_neg (fun hc => hlf hc.1)]
    exact ih lf hlf

theorem lfAux_eval {s : Header} {mid : List Nat} (h : StructOk s mid) {v : Int}
    (hv1 : minKey < v) (hv2 : v ≤ maxKey) :
    ∀ L, L ≤ maxlevel →
      lfAux s mid v L (-1) =
        if min (vHeight s mid v) L = 0 then -1
        else ((min (vHeight s mid v) L : Nat) : Int) - 1 := by
  intro L
  induction L with
  | zero => simp [lfAux]
  | succ L ih =>
    intro hL
    show lfAux s mid v L
      (if (-1 : Int) = -1 ∧ keyOf s (succAt s mid v L) = v then (L : Int) else -1) = _
    have hchar := succAt_key_iff h hv1 hv2 (show L < maxlevel by omega)
    by_cases hc : keyOf s (succAt s mid v L) = v
    · rw [if_pos ⟨rfl, hc⟩]
      have hH : L < vHeight s mid v := hchar.mp hc
      rw [lfAux_ne s mid v L (L : Int) (by omega)]
      rw [min_eq_right (by omega : L + 1 ≤ vHeight s mid v)]
      rw [if_neg (by omega)]
      push_cast
      omega
    · rw [if_neg (fun hands => hc hands.2)]
      rw [ih (by omega)]
      have hH : vHeight s mid v ≤ L := by
        by_contra hlt
        exact hc (hchar.mpr (by omega))
      have hmm : min (vHeight s mid v) (L + 1) = min (vHeight s mid v) L := by omega
      rw [hmm]

theorem lfAux_full {s : Header} {mid : List Nat} (h : StructOk s mid) {v : Int}
    (hv1 : minKey < v) (hv2 : v ≤ maxKey) :
    lfAux s mid v maxlevel (-1) =
      if vHeight s mid v = 0 then -1 else ((vHeight s mid v : Nat) : Int) - 1 := by
  rw [lfAux_eval h hv1 hv2 maxlevel le_rfl]
  rw [min_eq_left (vHeight_le h v)]

theorem getElem?_range_map (f : Nat → Nat) {n j : Nat} (hj : j < n) :
    ((List.range n).map f)[j]? = some (f j) := by
  rw [List.getElem?_map, List.getElem?_range hj]
  rfl

theorem exists_node {s : Header} {i : Nat} (hi : i < s.nodes.length) :
    ∃ n, s.nodes[i]? = some n :=
  ⟨_, List.getElem?_eq_getElem hi⟩

theorem keyOf_eq {s : Header} {i : Nat} {n : Node} (hn : s.nodes[i]? = some n) :
    keyOf s i = n.key := by simp [keyOf, hn]

theorem heightOf_eq {s : Header} {i : Nat} {n : Node} (hn : s.nodes[i]? = some n) :
    heightOf s i = n.nexts.length := by simp [heightOf, hn]

theorem markedOf_eq {s : Header} {i : Nat} {n : Node} (hn : s.nodes[i]? = some n) :
    markedOf s i = n.marked := by simp [markedOf, hn]

theorem flagOf_eq {s : Header} {i : Nat} {n : Node} (hn : s.nodes[i]? = some n) :
    flagOf s i = n.fullyLinked := by simp [flagOf, hn]

theorem valueOf_eq {s : Header} {i : Nat} {n : Node} (hn : s.nodes[i]? = some n) :
    valueOf s i = n.value := by simp [valueOf, hn]

theorem vHeight_pos_bounds {s : Header} {mid : List Nat} (h : StructOk s mid) {v : Int}
    (hH : vHeight s mid v ≠ 0) :
    vHeight s mid v - 1 < maxlevel := by
  have := vHeight_le h v
  omega

theorem Contains_spec {s : Header} {mid : List Nat} (h : StructOk s mid) {v : Int}
    (hv1 : minKey < v) (hv2 : v ≤ maxKey) :
    Contains s v = some (decide (0 < vHeight s mid v)) := by
  unfold Contains
  rw [findNode_spec h hv1 hv2]
  show (if lfAux s mid v maxlevel (-1) = -1 then some false
    else
      match ((List.range maxlevel).map (succAt s mid v))[(lfAux s mid v maxlevel (-1)).toNat]? with
      | none => none
      | some nid =>
        match s.nodes[nid]? with
        | none => none
        | some n => some (n.fullyLinked && !n.marked)) = _
  rw [lfAux_full h hv1 hv2]
  by_cases hH : vHeight s mid v = 0
  · rw [if_pos hH, if_pos rfl]
    simp [hH]
  · rw [if_neg hH]
    rw [if_neg (by omega)]
    have htn : ((vHeight s mid v : Int) - 1).toNat = vHeight s mid v - 1 := by omega
    rw [htn]
    have hjm : vHeight s mid v - 1 < maxlevel := vHeight_pos_bounds h hH
    rw [getElem?_range_map (succAt s mid v) hjm]
    have hmem := succAt_mem_chain h hv2 (vHeight s mid v - 1)
    obtain ⟨n, hn⟩ := exists_node (h.levChain_valid _ _ hmem)
    show (match s.nodes[succAt s mid v (vHeight s mid v - 1)]? with
      | none => none
      | some n => some (n.fullyLinked && !n.marked)) = _
    rw [hn]
    have hflags := mem_levChain_unmarked h hmem
    rw [markedOf_eq hn, flagOf_eq hn] at hflags
    show some (n.fullyLinked && !n.marked) = _
    rw [hflags.2, hflags.1]
    simp [Nat.pos_of_ne_zero hH]

theorem Get_spec {s : Header} {mid : List Nat} (h : StructOk s mid) {v : Int}
    (hv1 : minKey < v) (hv2 : v ≤ maxKey) :
    Get s v = some (if vHeight s mid v = 0 then (0, false)
      else (valueOf s (succAt s mid v (vHeight s mid v - 1)), true)) := by
  unfold Get
  rw [findNode_spec h hv1 hv2]
  show (if lfAux s mid v maxlevel (-1) = -1 then some (0, false)
    else
      match ((List.range maxlevel).map (succAt s mid v))[(lfAux s mid v maxlevel (-1)).toNat]? with
      | none => none
      | some nid =>
        match s.nodes[nid]? with
        | none => none
        | some n =>
          if !n.fullyLinked || n.marked then some (0, false)
          else some (n.value, true)) = _
  rw [lfAux_full h hv1 hv2]
  by_cases hH : vHeight s mid v = 0
  · rw [if_pos hH, if_pos rfl]
    rw [if_pos hH]
  · rw [if_neg hH]
    rw [if_neg (by omega)]
    have htn : ((vHeight s mid v : Int) - 1).toNat = vHeight s mid v - 1 := by omega
    rw [htn]
    have hjm : vHeight s mid v - 1 < maxlevel := vHeight_pos_bounds h hH
    rw [getElem?_range_map (succAt s mid v) hjm]
    have hmem := succAt_mem_chain h hv2 (vHeight s mid v - 1)
    obtain ⟨n, hn⟩ := exists_node (h.levChain_valid _ _ hmem)
    show (match s.nodes[succAt s mid v (vHeight s mid v - 1)]? with
      | none => none
      | some n =>
        if !n.fullyLinked || n.marked then some (0, false)
        else some (n.value, true)) = _
    rw [hn]
    have hflags := mem_levChain_unmarked h hmem
    rw [markedOf_eq hn, flagOf_eq hn] at hflags
    show (if !n.fullyLinked || n.marked then some (0, false) else some (n.value, true)) = _
    rw [if_neg (by simp [hflags.1, hflags.2])]
    rw [if_neg hH, valueOf_eq hn]

theorem setNodeAt_get_same {s : Header} {i : Nat} (n : Node) (hi : i < s.nodes.length) :
    (setNodeAt s i n).nodes[i]? = some n := by
  unfold setNodeAt
  simp [List.getElem?_set_self hi]

theorem setNodeAt_get_other {s : Header} {i j : Nat} (n : Node) (hij : i ≠ j) :
    (setNodeAt s i n).nodes[j]? = s.nodes[j]? := by
  unfold setNodeAt
  simp [List.getElem?_set_ne hij]

theorem setNodeAt_length {s : Header} {i : Nat} (n : Node) :
    (setNodeAt s i n).nodes.length = s.nodes.length := by
  unfold setNodeAt
  simp

theorem setNodeAt_fields {s : Header} {i : Nat} (n : Node) :
    (setNodeAt s i n).leftSentinel = s.leftSentinel ∧
    (setNodeAt s i n).rightSentinel = s.rightSentinel ∧
    (setNodeAt s i n).length = s.length :=
  ⟨rfl, rfl, rfl⟩

theorem setNextSlot_spec {s : Header} {i layer : Nat} {ptr : Option Nat} {n : Node}
    (hn : s.nodes[i]? = some n) (hl : layer < n.nexts.length) :
    setNextSlot s i layer ptr =
      some (setNodeAt s i { n with nexts := n.nexts.set layer ptr }) := by
  unfold setNextSlot
  rw [hn]
  show (if layer < n.nexts.length then
      some (setNodeAt s i { n with nexts := n.nexts.set layer ptr })
    else none) = _
  rw [if_pos hl]

/-- After a sequence of forward-pointer stores at pairwise distinct layers,
all node fields except the targeted `nexts` slots are unchanged, untouched
slots are unchanged, and each targeted slot holds its written value. -/
theorem setsFold_spec :
    ∀ (entries : List (Nat × Nat × Option Nat)) (s : Header),
      (∀ e ∈ entries, e.1 < s.nodes.length ∧ e.2.1 < heightOf s e.1) →
      List.Pairwise (fun e f => e.2.1 ≠ f.2.1) entries →
      ∃ s', setsFold s entries = some s' ∧
        s'.nodes.length = s.nodes.length ∧
        s'.leftSentinel = s.leftSentinel ∧ s'.rightSentinel = s.rightSentinel ∧
        s'.length = s.length ∧
        (∀ i, keyOf s' i = keyOf s i) ∧
        (∀ i, heightOf s' i = heightOf s i) ∧
        (∀ i, markedOf s' i = markedOf s i) ∧
        (∀ i, flagOf s' i = flagOf s i) ∧
        (∀ i, valueOf s' i = valueOf s i) ∧
        (∀ i, (∀ e ∈ entries, e.1 ≠ i) → s'.nodes[i]? = s.nodes[i]?) ∧
        (∀ i layer, (∀ e ∈ entries, ¬(e.1 = i ∧ e.2.1 = layer)) →
          nextAt s' i layer = nextAt s i layer) ∧
        (∀ e ∈ entries, nextAt s' e.1 e.2.1 = some e.2.2) := by
  intro entries
  induction entries with
  | nil =>
    intro s _ _
    exact ⟨s, rfl, rfl, rfl, rfl, rfl, fun _ => rfl, fun _ => rfl, fun _ => rfl,
      fun _ => rfl, fun _ => rfl, fun _ _ => rfl, fun _ _ _ => rfl, by simp⟩
  | cons e rest ih =>
    intro s hok hpw
    obtain ⟨i0, l0, p0⟩ := e
    obtain ⟨hi0, hl0⟩ := hok (i0, l0, p0) (by simp)
    obtain ⟨n0, hn0⟩ := exists_node hi0
    have hl0' : l0 < n0.nexts.length := by
      rw [heightOf_eq hn0] at hl0
      exact hl0
    have hstep := @setNextSlot_spec s i0 l0 p0 n0 hn0 hl0'
    set s1 := setNodeAt s i0 { n0 with nexts := n0.nexts.set l0 p0 } with hs1
    have hs1len : s1.nodes.length = s.nodes.length := setNodeAt_length _
    have hs1key : ∀ i, keyOf s1 i = keyOf s i := by
      intro i
      by_cases hii : i0 = i
      · subst hii
        rw [keyOf_eq (setNodeAt_get_same _ hi0), keyOf_eq hn0]
      · unfold keyOf
        rw [setNodeAt_get_other _ hii]
    have hs1height : ∀ i, heightOf s1 i = heightOf s i := by
      intro i
      by_cases hii : i0 = i
      · subst hii
        rw [heightOf_eq (setNodeAt_get_same _ hi0), heightOf_eq hn0]
        simp
      · unfold heightOf
        rw [setNodeAt_get_other _ hii]
    have hs1marked : ∀ i, markedOf s1 i = markedOf s i := by
      intro i
      by_cases hii : i0 = i
      · subst hii
        rw [markedOf_eq (setNodeAt_get_same _ hi0), markedOf_eq hn0]
      · unfold markedOf
        rw [setNodeAt_get_other _ hii]
    have hs1flag : ∀ i, flagOf s1 i = flagOf s i := by
      intro i
      by_cases hii : i0 = i
      · subst hii
        rw [flagOf_eq (setNodeAt_get_same _ hi0), flagOf_eq hn0]
      · unfold flagOf
        rw [setNodeAt_get_other _ hii]
    have hs1value : ∀ i, valueOf s1 i = valueOf s i := by
      intro i
      by_cases hii : i0 = i
      · subst hii
        rw [valueOf_eq (setNodeAt_get_same _ hi0), valueOf_eq hn0]
      · unfold valueOf
        rw [setNodeAt_get_other _ hii]
    have hs1nodes : ∀ i, i0 ≠ i → s1.nodes[i]? = s.nodes[i]? := by
      intro i hii
      exact setNodeAt_get_other _ hii
    have hs1next_other : ∀ i layer, ¬(i0 = i ∧ l0 = layer) →
        nextAt s1 i layer = nextAt s i layer := by
      intro i layer hne
      by_cases hii : i0 = i
      · subst hii
        have hll : l0 ≠ layer := fun hc => hne ⟨rfl, hc⟩
        unfold nextAt
        rw [setNodeAt_get_same _ hi0, hn0]
        show (n0.nexts.set l0 p0)[layer]? = n0.nexts[layer]?
        exact List.getElem?_set_ne hll
      · unfold nextAt
        rw [hs1nodes i hii]
    have hs1next_here : nextAt s1 i0 l0 = some p0 := by
      unfold nextAt
      rw [setNodeAt_get_same _ hi0]
      show (n0.nexts.set l0 p0)[l0]? = some p0
      exact List.getElem?_set_self hl0'
    obtain ⟨s', hfold, hlen, hleft, hright, hhl, hkey, hheight, hmarked, hflag, hvalue,
        hnodes, hnext, htargets⟩ := ih s1
      (by
        intro f hf
        obtain ⟨hfa, hfb⟩ := hok f (by simp [hf])
        refine ⟨by rw [hs1len]; exact hfa, ?_⟩
        rw [hs1height]
        exact hfb)
      (List.Pairwise.sublist (List.sublist_cons_self _ _) hpw)
    refine ⟨s', ?_, ?_, ?_, ?_, ?_, ?_, ?_, ?_, ?_, ?_, ?_, ?_, ?_⟩
    · show setsFold s ((i0, l0, p0) :: rest) = some s'
      unfold setsFold
      rw [hstep]
      exact hfold
    · rw [hlen, hs1len]
    · exact hleft
    · exact hright
    · exact hhl
    · intro i; rw [hkey, hs1key]
    · intro i; rw [hheight, hs1height]
    · intro i; rw [hmarked, hs1marked]
    · intro i; rw [hflag, hs1flag]
    · intro i; rw [hvalue, hs1value]
    · intro i hi
      rw [hnodes i (fun f hf => hi f (by simp [hf])), hs1nodes i (hi (i0, l0, p0) (by simp))]
    · intro i layer hunt
      rw [hnext i layer (fun f hf => hunt f (by simp [hf])),
        hs1next_other i layer (hunt (i0, l0, p0) (by simp))]
    · intro f hf
      rcases List.mem_cons.mp hf with rfl | hfr
      · have huntouched : ∀ g ∈ rest, ¬(g.1 = i0 ∧ g.2.1 = l0) := by
          intro g hg hc
          have := (List.pairwise_cons.mp hpw).1 g hg
          exact this (hc.2.symm)
        rw [hnext i0 l0 huntouched]
        exact hs1next_here
      · exact htargets f hfr

theorem validAt_true {s : Header} {mid : List Nat} (h : StructOk s mid) {v : Int}
    (hv1 : minKey < v) (hv2 : v ≤ maxKey) (checkSucc : Bool) {layer : Nat}
    (hlayer : layer < maxlevel) :
    validAt s (predAt s mid v layer) (succAt s mid v layer) layer checkSucc = some true := by
  obtain ⟨pn, hpn⟩ := exists_node (h.levChain_valid layer _ (predAt_mem_chain h hv1 layer))
  obtain ⟨sn, hsn⟩ := exists_node (h.levChain_valid layer _ (succAt_mem_chain h hv2 layer))
  have hpm := mem_levChain_unmarked h (predAt_mem_chain h hv1 layer)
  have hsm := mem_levChain_unmarked h (succAt_mem_chain h hv2 layer)
  rw [markedOf_eq hpn] at hpm
  rw [markedOf_eq hsn] at hsm
  have hadj := predAt_adjacent h hv1 hv2 hlayer
  unfold ChainRel nextAt at hadj
  rw [hpn] at hadj
  have hnx : pn.nexts[layer]? = some (some (succAt s mid v layer)) := hadj
  unfold validAt
  rw [hpn, hsn]
  show (match pn.nexts[layer]? with
    | some nx => some (!pn.marked && (!checkSucc || !sn.marked)
        && (nx == some (succAt s mid v layer)))
    | none => none) = _
  rw [hnx]
  rw [hpm.1, hsm.1]
  simp

theorem validateFrom_true {s : Header} {mid : List Nat} (h : StructOk s mid) {v : Int}
    (hv1 : minKey < v) (hv2 : v ≤ maxKey) (checkSucc : Bool) :
    ∀ (rem start : Nat), start + rem ≤ maxlevel →
      validateFrom s ((List.range maxlevel).map (predAt s mid v))
        ((List.range maxlevel).map (succAt s mid v)) checkSucc start rem = some true := by
  intro rem
  induction rem with
  | zero => intro start _; rfl
  | succ rem ih =>
    intro start hbound
    have hstart : start < maxlevel := by omega
    show (match ((List.range maxlevel).map (predAt s mid v))[start]?,
        ((List.range maxlevel).map (succAt s mid v))[start]? with
      | some pid, some sid =>
        match validAt s pid sid start checkSucc with
        | some true => validateFrom s ((List.range maxlevel).map (predAt s mid v))
            ((List.range maxlevel).map (succAt s mid v)) checkSucc (start+1) rem
        | some false => some false
        | none => none
      | _, _ => none) = some true
    rw [getElem?_range_map (predAt s mid v) hstart, getElem?_range_map (succAt s mid v) hstart]
    show (match validAt s (predAt s mid v start) (succAt s mid v start) start checkSucc with
      | some true => validateFrom s ((List.range maxlevel).map (predAt s mid v))
          ((List.range maxlevel).map (succAt s mid v)) checkSucc (start+1) rem
      | some false => some false
      | none => none) = some true
    rw [validAt_true h hv1 hv2 checkSucc hstart]
    exact ih (start+1) (by omega)

theorem mapM_of_forall_some {α β : Type} (f : α → Option β) (g : α → β) :
    ∀ (l : List α), (∀ a ∈ l, f a = some (g a)) → l.mapM f = some (l.map g) := by
  intro l
  induction l with
  | nil => intro _; rfl
  | cons a t ih =>
    intro hall
    rw [List.mapM_cons, hall a (by simp), ih (fun b hb => hall b (by simp [hb]))]
    rfl

theorem chain'_transport {R S : Nat → Nat → Prop} :
    ∀ (l : List Nat), List.Chain' R l → (∀ a ∈ l, ∀ b ∈ l, R a b → S a b) →
      List.Chain' S l := by
  intro l
  induction l with
  | nil => intro _ _; exact List.chain'_nil
  | cons a t ih =>
    intro hc htr
    cases t with
    | nil => exact List.chain'_singleton a
    | cons b t' =>
      rw [List.chain'_cons] at hc ⊢
      refine ⟨htr a (by simp) b (by simp) hc.1, ?_⟩
      exact ih hc.2 (fun x hx y hy hxy => htr x (by simp [hx]) y (by simp [hy]) hxy)

theorem sorted_dropWhile_gt {s : Header} {mid : List Nat}
    (hsorted : List.Pairwise (fun a b => keyOf s a < keyOf s b) mid) (v : Int) :
    ∀ b ∈ mid.dropWhile (fun m => decide (keyOf s m < v)), ¬ keyOf s b < v := by
  cases hd : mid.dropWhile (fun m => decide (keyOf s m < v)) with
  | nil => simp
  | cons g0 rest =>
    intro b hb
    have hg0 : ¬ keyOf s g0 < v := by
      have := List.head?_dropWhile_not (fun m => decide (keyOf s m < v)) mid
      rw [hd] at this
      simpa using this
    have hpw : List.Pairwise (fun a b => keyOf s a < keyOf s b) (g0 :: rest) := by
      rw [← hd]
      exact hsorted.sublist (List.dropWhile_sublist _)
    rcases List.mem_cons.mp hb with rfl | hbr
    · exact hg0
    · have := (List.pairwise_cons.mp hpw).1 b hbr
      omega

theorem vHeight_eq_zero_iff {s : Header} {mid : List Nat} (h : StructOk s mid) (v : Int) :
    vHeight s mid v = 0 ↔ (v ≠ maxKey ∧ ∀ m ∈ mid, keyOf s m ≠ v) := by
  unfold vHeight
  by_cases hmax : v = maxKey
  · rw [if_pos hmax]
    constructor
    · intro hc; exact absurd hc (by norm_num [maxlevel])
    · intro hc; exact absurd hmax hc.1
  · rw [if_neg hmax]
    cases hfind : mid.find? (fun m => keyOf s m == v) with
    | some m0 =>
      have hm0 : m0 ∈ mid := List.mem_of_find?_eq_some hfind
      have hh := (h.mid_ok m0 hm0).2.2.2.2.2.1
      constructor
      · intro hc
        exact absurd (show heightOf s m0 = 0 from hc) (by omega)
      · intro hc
        exfalso
        have := List.find?_some hfind
        exact hc.2 m0 hm0 (by simpa using this)
    | none =>
      constructor
      · intro _
        refine ⟨hmax, ?_⟩
        intro m hm hk
        have := List.find?_eq_none.mp hfind m hm
        simp [hk] at this
      · intro _; rfl

theorem pairwise_insert_mid (key : Nat → Int) (v : Int) (x y n : Nat) (lt ge : List Nat)
    (hall : List.Pairwise (fun a b => key a < key b) (x :: ((lt ++ ge) ++ [y])))
    (hlt : ∀ a ∈ lt, key a < v) (hge : ∀ b ∈ ge, v < key b)
    (hx : key x < v) (hy : v < key y) (hn : key n = v) :
    List.Pairwise (fun a b => key a < key b) (x :: ((lt ++ n :: ge) ++ [y])) := by
  have hshape : (x :: ((lt ++ ge) ++ [y])) = (x :: lt) ++ (ge ++ [y]) := by
    simp
  have hshape2 : (x :: ((lt ++ n :: ge) ++ [y])) = (x :: lt) ++ (n :: (ge ++ [y])) := by
    simp
  rw [hshape] at hall
  rw [hshape2]
  rw [List.pairwise_append] at hall ⊢
  obtain ⟨hA, hB, hAB⟩ := hall
  refine ⟨hA, ?_, ?_⟩
  · rw [List.pairwise_cons]
    refine ⟨?_, hB⟩
    intro b hb
    rw [hn]
    rcases List.mem_append.mp hb with hbg | hby
    · exact hge b hbg
    · rw [List.mem_singleton.mp hby]
      exact hy
  · intro a ha b hb
    have hav : key a < v := by
      rcases List.mem_cons.mp ha with rfl | hal
      · exact hx
      · exact hlt a hal
    rcases List.mem_cons.mp hb with rfl | hbr
    · rw [hn]; exact hav
    · rcases List.mem_append.mp hbr with hbg | hby
      · have := hge b hbg
        omega
      · rw [List.mem_singleton.mp hby]
        omega

theorem levChain_congr {s s' : Header} (hL : s'.leftSentinel = s.leftSentinel)
    (hR : s'.rightSentinel = s.rightSentinel)
    (hheight : ∀ i, heightOf s' i = heightOf s i) (mid : List Nat) (layer : Nat) :
    levChain s' mid layer = levChain s mid layer := by
  unfold levChain
  rw [hL, hR]
  congr 2
  apply List.filter_congr
  intro m _
  rw [hheight]

theorem structOk_congr {s s' : Header} (hL : s'.leftSentinel = s.leftSentinel)
    (hR : s'.rightSentinel = s.rightSentinel) (hlen : s'.nodes.length = s.nodes.length)
    (hkey : ∀ i, keyOf s' i = keyOf s i) (hheight : ∀ i, heightOf s' i = heightOf s i)
    (hmarked : ∀ i, markedOf s' i = markedOf s i) (hflag : ∀ i, flagOf s' i = flagOf s i)
    (hnext : ∀ i layer, nextAt s' i layer = nextAt s i layer)
    {mid : List Nat} (h : StructOk s mid) : StructOk s' mid := by
  refine ⟨?_, ?_, ?_, ?_, ?_, ?_, ?_, ?_, ?_, ?_, ?_, ?_, ?_⟩
  · rw [hL, hlen]; exact h.left_lt
  · rw [hR, hlen]; exact h.right_lt
  · rw [hL, hkey]; exact h.left_key
  · rw [hR, hkey]; exact h.right_key
  · rw [hL, hheight]; exact h.left_height
  · rw [hR, hheight]; exact h.right_height
  · rw [hL, hmarked]; exact h.left_marked
  · rw [hR, hmarked]; exact h.right_marked
  · rw [hL, hflag]; exact h.left_flag
  · rw [hR, hflag]; exact h.right_flag
  · intro m hm
    obtain ⟨h1, h2, h3, h4, h5, h6, h7⟩ := h.mid_ok m hm
    rw [hlen, hkey, hmarked, hflag, hheight]
    exact ⟨h1, h2, h3, h4, h5, h6, h7⟩
  · rw [hL, hR]
    refine h.sorted.imp ?_
    intro a b hab
    rw [hkey, hkey]
    exact hab
  · intro layer hlayer
    rw [levChain_congr hL hR hheight]
    refine chain'_transport _ (h.chains layer hlayer) ?_
    intro a _ b _ hab
    unfold ChainRel at hab ⊢
    rw [hnext]
    exact hab

theorem Set_step {s : Header} {v : Int} {ptr topLayer : Nat} {lf : Int}
    {preds succs : List Nat} (hf : findNode s v = some (lf, preds, succs)) :
    Set s v ptr topLayer =
      (if lf ≠ -1 then
        match succs[lf.toNat]? with
        | none => none
        | some nid =>
          match s.nodes[nid]? with
          | none => none
          | some n =>
            if !n.marked then
              if n.fullyLinked then some (setNodeAt s nid { n with value := ptr }, false)
              else none
            else none
      else
        match validateFrom s preds succs true 0 (topLayer+1) with
        | none => none
        | some false => none
        | some true =>
          if topLayer + 1 ≤ succs.length then
            let tower := (succs.take (topLayer+1)).map some
            let nid := s.nodes.length
            let s1 : Header := { s with nodes := s.nodes ++ [newNode ptr v tower] }
            match linkEntries preds nid topLayer with
            | none => none
            | some entries =>
              match setsFold s1 entries with
              | none => none
              | some s2 =>
                match s2.nodes[nid]? with
                | none => none
                | some nn =>
                  let s3 := setNodeAt s2 nid { nn with fullyLinked := true }
                  some ({ s3 with length := (s3.length + 1) % U32 }, true)
          else none) := by
  unfold Set
  rw [hf]

theorem Set_spec_found {s : Header} {mid : List Nat} (h : StructOk s mid) {v : Int}
    (ptr topLayer : Nat) (hv1 : minKey < v) (hv2 : v ≤ maxKey)
    (hH : vHeight s mid v ≠ 0) :
    ∃ m0 n, m0 = succAt s mid v (vHeight s mid v - 1) ∧ s.nodes[m0]? = some n ∧
      keyOf s m0 = v ∧
      Set s v ptr topLayer = some (setNodeAt s m0 { n with value := ptr }, false) ∧
      StructOk (setNodeAt s m0 { n with value := ptr }) mid ∧
      (setNodeAt s m0 { n with value := ptr }).length = s.length ∧
      valueOf (setNodeAt s m0 { n with value := ptr }) m0 = ptr := by
  have hjm : vHeight s mid v - 1 < maxlevel := vHeight_pos_bounds h hH
  have hmem := succAt_mem_chain h hv2 (vHeight s mid v - 1)
  obtain ⟨n, hn⟩ := exists_node (h.levChain_valid _ _ hmem)
  have hkey : keyOf s (succAt s mid v (vHeight s mid v - 1)) = v := by
    rw [succAt_key_iff h hv1 hv2 hjm]
    omega
  have hflags := mem_levChain_unmarked h hmem
  rw [markedOf_eq hn, flagOf_eq hn] at hflags
  refine ⟨succAt s mid v (vHeight s mid v - 1), n, rfl, hn, hkey, ?_, ?_, rfl, ?_⟩
  · rw [Set_step (findNode_spec h hv1 hv2)]
    rw [lfAux_full h hv1 hv2, if_neg hH]
    rw [if_pos (by omega : ¬((vHeight s mid v : Int) - 1 = -1))]
    have htn : ((vHeight s mid v : Int) - 1).toNat = vHeight s mid v - 1 := by omega
    rw [htn, getElem?_range_map (succAt s mid v) hjm]
    show (match s.nodes[succAt s mid v (vHeight s mid v - 1)]? with
      | none => none
      | some n =>
        if !n.marked then
          if n.fullyLinked then
            some (setNodeAt s (succAt s mid v (vHeight s mid v - 1)) { n with value := ptr },
              false)
          else none
        else none) = _
    rw [hn]
    show (if !n.marked then
        if n.fullyLinked then
          some (setNodeAt s (succAt s mid v (vHeight s mid v - 1)) { n with value := ptr },
            false)
        else none
      else none) = _
    rw [hflags.1, hflags.2]
    rfl
  · set m0 := succAt s mid v (vHeight s mid v - 1) with hm0
    have hm0lt : m0 < s.nodes.length := h.levChain_valid _ _ hmem
    refine structOk_congr (setNodeAt_fields _).1 (setNodeAt_fields _).2.1
      (setNodeAt_length _) ?_ ?_ ?_ ?_ ?_ h
    · intro i
      by_cases hii : m0 = i
      · subst hii
        rw [keyOf_eq (setNodeAt_get_same _ hm0lt), keyOf_eq hn]
      · unfold keyOf
        rw [setNodeAt_get_other _ hii]
    · intro i
      by_cases hii : m0 = i
      · subst hii
        rw [heightOf_eq (setNodeAt_get_same _ hm0lt), heightOf_eq hn]
      · unfold heightOf
        rw [setNodeAt_get_other _ hii]
    · intro i
      by_cases hii : m0 = i
      · subst hii
        rw [markedOf_eq (setNodeAt_get_same _ hm0lt), markedOf_eq hn]
      · unfold markedOf
        rw [setNodeAt_get_other _ hii]
    · intro i
      by_cases hii : m0 = i
      · subst hii
        rw [flagOf_eq (setNodeAt_get_same _ hm0lt), flagOf_eq hn]
      · unfold flagOf
        rw [setNodeAt_get_other _ hii]
    · intro i layer
      by_cases hii : m0 = i
      · subst hii
        unfold nextAt
        rw [setNodeAt_get_same _ hm0lt, hn]
        rfl
      · unfold nextAt
        rw [setNodeAt_get_other _ hii]
  · rw [valueOf_eq (setNodeAt_get_same _ (h.levChain_valid _ _ hmem))]

theorem chain_insert_ok {s s4 : Header} {layer : Nat} {A B : List Nat} {p q nid : Nat}
    (hold : List.Chain' (ChainRel s layer) (A ++ B))
    (hnd : (A ++ B).Nodup)
    (hAlast : A.getLast? = some p)
    (hBhead : B.head? = some q)
    (huntouched : ∀ a ∈ A ++ B, a ≠ p → nextAt s4 a layer = nextAt s a layer)
    (hp4 : nextAt s4 p layer = some (some nid))
    (hnid4 : nextAt s4 nid layer = some (some q)) :
    List.Chain' (ChainRel s4 layer) (A ++ nid :: B) := by
  obtain ⟨A2, rfl⟩ := List.getLast?_eq_some_iff.mp hAlast
  obtain ⟨B', rfl⟩ : ∃ B', B = q :: B' := by
    cases B with
    | nil => simp at hBhead
    | cons b bs =>
      have hb : b = q := by simpa using hBhead
      exact ⟨bs, by rw [hb]⟩
  have hdisj := List.disjoint_of_nodup_append hnd
  have hndA := hnd.of_append_left
  have hdisjA := List.disjoint_of_nodup_append hndA
  have hA2ne : ∀ a ∈ A2, a ≠ p := by
    intro a ha hap
    exact hdisjA ha (by rw [hap]; simp)
  have hBne : ∀ b ∈ q :: B', b ≠ p := by
    intro b hb hbp
    exact @hdisj b (by rw [hbp]; simp) hb
  obtain ⟨cA, cB, bd⟩ := List.chain'_append.mp hold
  obtain ⟨cA2, _, bd2⟩ := List.chain'_append.mp cA
  have cA2' : List.Chain' (ChainRel s4 layer) A2 := by
    refine chain'_transport A2 cA2 ?_
    intro a ha b _ hr
    unfold ChainRel at hr ⊢
    rw [huntouched a (by simp [ha]) (hA2ne a ha)]
    exact hr
  have cA' : List.Chain' (ChainRel s4 layer) (A2 ++ [p]) := by
    refine List.chain'_append.mpr ⟨cA2', List.chain'_singleton p, ?_⟩
    intro x hx y hy
    have hxA2 : x ∈ A2 := List.mem_of_getLast?_eq_some hx
    have hyp : p = y := by simpa using hy
    rw [← hyp]
    have := bd2 x hx p (by simp)
    unfold ChainRel at this ⊢
    rw [huntouched x (by simp [hxA2]) (hA2ne x hxA2)]
    exact this
  have cB' : List.Chain' (ChainRel s4 layer) (q :: B') := by
    refine chain'_transport _ cB ?_
    intro a ha b _ hr
    unfold ChainRel at hr ⊢
    rw [huntouched a (by simp [ha]) (hBne a ha)]
    exact hr
  refine List.chain'_append.mpr ⟨cA', ?_, ?_⟩
  · rw [List.chain'_cons]
    exact ⟨hnid4, cB'⟩
  · intro x hx y hy
    have hxp : p = x := by simpa using hx
    have hyn : nid = y := by simpa using hy
    rw [← hxp, ← hyn]
    exact hp4

theorem chain_remove_ok {s s4 : Header} {layer : Nat} {A B : List Nat} {p m q : Nat}
    (hold : List.Chain' (ChainRel s layer) (A ++ m :: B))
    (hnd : (A ++ m :: B).Nodup)
    (hAlast : A.getLast? = some p)
    (hBhead : B.head? = some q)
    (huntouched : ∀ a ∈ A ++ B, a ≠ p → nextAt s4 a layer = nextAt s a layer)
    (hp4 : nextAt s4 p layer = some (some q)) :
    List.Chain' (ChainRel s4 layer) (A ++ B) := by
  obtain ⟨A2, rfl⟩ := List.getLast?_eq_some_iff.mp hAlast
  obtain ⟨B', rfl⟩ : ∃ B', B = q :: B' := by
    cases B with
    | nil => simp at hBhead
    | cons b bs =>
      have hb : b = q := by simpa using hBhead
      exact ⟨bs, by rw [hb]⟩
  have hdisj := List.disjoint_of_nodup_append hnd
  have hndA := hnd.of_append_left
  have hdisjA := List.disjoint_of_nodup_append hndA
  have hA2ne : ∀ a ∈ A2, a ≠ p := by
    intro a ha hap
    exact hdisjA ha (by rw [hap]; simp)
  have hBne : ∀ b ∈ q :: B', b ≠ p := by
    intro b hb hbp
    exact @hdisj b (by rw [hbp]; simp) (by simp [hb])
  obtain ⟨cA, cMB, _⟩ := List.chain'_append.mp hold
  obtain ⟨cA2, _, bd2⟩ := List.chain'_append.mp cA
  have cB : List.Chain' (ChainRel s layer) (q :: B') := cMB.tail
  have cA2' : List.Chain' (ChainRel s4 layer) A2 := by
    refine chain'_transport A2 cA2 ?_
    intro a ha b _ hr
    unfold ChainRel at hr ⊢
    rw [huntouched a (by simp [ha]) (hA2ne a ha)]
    exact hr
  have cA' : List.Chain' (ChainRel s4 layer) (A2 ++ [p]) := by
    refine List.chain'_append.mpr ⟨cA2', List.chain'_singleton p, ?_⟩
    intro x hx y hy
    have hxA2 : x ∈ A2 := List.mem_of_getLast?_eq_some hx
    have hyp : p = y := by simpa using hy
    rw [← hyp]
    have := bd2 x hx p (by simp)
    unfold ChainRel at this ⊢
    rw [huntouched x (by simp [hxA2]) (hA2ne x hxA2)]
    exact this
  have cB' : List.Chain' (ChainRel s4 layer) (q :: B') := by
    refine chain'_transport _ cB ?_
    intro a ha b _ hr
    unfold ChainRel at hr ⊢
    rw [huntouched a (by simp [ha]) (hBne a ha)]
    exact hr
  refine List.chain'_append.mpr ⟨cA', cB', ?_⟩
  · intro x hx y hy
    have hxp : p = x := by simpa using hx
    have hyq : q = y := by simpa using hy
    rw [← hxp, ← hyq]
    exact hp4

theorem mid_sorted {s : Header} {mid : List Nat} (h : StructOk s mid) :
    List.Pairwise (fun a b => keyOf s a < keyOf s b) mid := by
  refine h.sorted.sublist ?_
  refine List.Sublist.cons _ ?_
  exact List.sublist_append_left mid [s.rightSentinel]

theorem chain_split {s : Header} {mid : List Nat} (h : StructOk s mid) {v : Int}
    (hv1 : minKey < v) (hv2 : v ≤ maxKey) (layer : Nat) :
    levChain s mid layer =
      (s.leftSentinel :: (mid.takeWhile (fun m => decide (keyOf s m < v))).filter
          (fun m => decide (layer < heightOf s m))) ++
        ((mid.dropWhile (fun m => decide (keyOf s m < v))).filter
          (fun m => decide (layer < heightOf s m)) ++ [s.rightSentinel]) ∧
    (s.leftSentinel :: (mid.takeWhile (fun m => decide (keyOf s m < v))).filter
        (fun m => decide (layer < heightOf s m))).getLast? = some (predAt s mid v layer) ∧
    ((mid.dropWhile (fun m => decide (keyOf s m < v))).filter
        (fun m => decide (layer < heightOf s m)) ++ [s.rightSentinel]).head?
      = some (succAt s mid v layer) := by
  have hsplitmid : mid.takeWhile (fun m => decide (keyOf s m < v))
      ++ mid.dropWhile (fun m => decide (keyOf s m < v)) = mid :=
    List.takeWhile_append_dropWhile _ _
  have hchain : levChain s mid layer =
      (s.leftSentinel :: (mid.takeWhile (fun m => decide (keyOf s m < v))).filter
          (fun m => decide (layer < heightOf s m))) ++
        ((mid.dropWhile (fun m => decide (keyOf s m < v))).filter
          (fun m => decide (layer < heightOf s m)) ++ [s.rightSentinel]) := by
    unfold levChain
    rw [← hsplitmid, List.filter_append]
    simp
  have hpre : ∀ a ∈ s.leftSentinel :: (mid.takeWhile (fun m => decide (keyOf s m < v))).filter
      (fun m => decide (layer < heightOf s m)), (fun i => decide (keyOf s i < v)) a = true := by
    intro a ha
    rcases List.mem_cons.mp ha with rfl | hf
    · simp only [decide_eq_true_eq, h.left_key]
      exact hv1
    · have := List.mem_takeWhile_imp (List.mem_of_mem_filter hf)
      simpa using this
  have hrestfail : ∀ b ∈ (mid.dropWhile (fun m => decide (keyOf s m < v))).filter
      (fun m => decide (layer < heightOf s m)) ++ [s.rightSentinel],
      ¬ ((fun i => decide (keyOf s i < v)) b = true) := by
    intro b hb
    rcases List.mem_append.mp hb with hg | hr
    · have := sorted_dropWhile_gt (mid_sorted h) v b (List.mem_of_mem_filter hg)
      simpa using this
    · rw [List.mem_singleton.mp hr]
      simp only [decide_eq_true_eq, h.right_key]
      omega
  have hrest : ((mid.dropWhile (fun m => decide (keyOf s m < v))).filter
        (fun m => decide (layer < heightOf s m)) ++ [s.rightSentinel]).takeWhile
        (fun i => decide (keyOf s i < v)) = [] ∧
      ((mid.dropWhile (fun m => decide (keyOf s m < v))).filter
        (fun m => decide (layer < heightOf s m)) ++ [s.rightSentinel]).dropWhile
        (fun i => decide (keyOf s i < v)) =
        (mid.dropWhile (fun m => decide (keyOf s m < v))).filter
          (fun m => decide (layer < heightOf s m)) ++ [s.rightSentinel] := by
    cases hfge : (mid.dropWhile (fun m => decide (keyOf s m < v))).filter
        (fun m => decide (layer < heightOf s m)) with
    | nil =>
      simp only [hfge, List.nil_append]
      constructor
      · rw [List.takeWhile_cons_of_neg]
        have := hrestfail s.rightSentinel (by rw [hfge]; simp)
        simpa using this
      · rw [List.dropWhile_cons_of_neg]
        have := hrestfail s.rightSentinel (by rw [hfge]; simp)
        simpa using this
    | cons g0 gs =>
      have hg0 := hrestfail g0 (by rw [hfge]; simp)
      constructor
      · rw [List.cons_append, List.takeWhile_cons_of_neg (by simpa using hg0)]
      · rw [List.cons_append, List.dropWhile_cons_of_neg (by simpa using hg0)]
  have hta := takeWhile_append_of_all (fun i => decide (keyOf s i < v)) _
    ((mid.dropWhile (fun m => decide (keyOf s m < v))).filter
      (fun m => decide (layer < heightOf s m)) ++ [s.rightSentinel]) hpre
  refine ⟨hchain, ?_, ?_⟩
  · have hpe := predAt_eq h hv1 layer
    unfold lowsOf at hpe
    rw [hchain, hta.1, hrest.1, List.append_nil] at hpe
    exact hpe
  · have hse := succAt_eq h hv2 layer
    unfold highsOf at hse
    rw [hchain, hta.2, hrest.2] at hse
    exact hse

theorem dropWhile_keys_gt {s : Header} {mid : List Nat} (h : StructOk s mid) {v : Int}
    (hH : vHeight s mid v = 0) :
    ∀ b ∈ mid.dropWhile (fun m => decide (keyOf s m < v)), v < keyOf s b := by
  intro b hb
  have h1 := sorted_dropWhile_gt (mid_sorted h) v b hb
  have h2 := ((vHeight_eq_zero_iff h v).mp hH).2 b ((List.dropWhile_sublist _).subset hb)
  omega

theorem nodup_levChain {s : Header} {mid : List Nat} (h : StructOk s mid) (layer : Nat) :
    (levChain s mid layer).Nodup := by
  refine (h.levChain_sorted layer).imp ?_
  intro a b hab heq
  subst heq
  exact lt_irrefl _ hab

theorem mid_length_lt {s : Header} {mid : List Nat} (h : StructOk s mid) :
    mid.length + 1 < U32 := by
  classical
  have hpw : List.Pairwise (fun a b : Int => a < b) (mid.map (keyOf s)) :=
    List.pairwise_map.mpr (mid_sorted h)
  have hnd : (mid.map (keyOf s)).Nodup := by
    refine hpw.imp ?_
    intro a b hab heq
    subst heq
    exact lt_irrefl _ hab
  have hsub : (mid.map (keyOf s)).toFinset ⊆ Finset.Ioo minKey maxKey := by
    intro k hk
    rw [List.mem_toFinset] at hk
    obtain ⟨m, hm, rfl⟩ := List.mem_map.mp hk
    rw [Finset.mem_Ioo]
    exact ⟨(h.mid_ok m hm).2.1, (h.mid_ok m hm).2.2.1⟩
  have hcard := Finset.card_le_card hsub
  rw [List.toFinset_card_of_nodup hnd, List.length_map, Int.card_Ioo] at hcard
  have h1 : maxKey - minKey - 1 = (4294967294 : Int) := by norm_num [minKey, maxKey]
  rw [h1] at hcard
  have h2 : ((4294967294 : Int)).toNat = 4294967294 := rfl
  rw [h2] at hcard
  norm_num [U32]
  omega

theorem Set_spec_insert {s : Header} {mid : List Nat} (h : StructOk s mid) {v : Int}
    (ptr topLayer : Nat) (hv1 : minKey < v) (hv3 : v < maxKey)
    (ht1 : 1 ≤ topLayer) (ht2 : topLayer ≤ 31)
    (hH : vHeight s mid v = 0) :
    ∃ s', Set s v ptr topLayer = some (s', true) ∧
      StructOk s' ((mid.takeWhile (fun m => decide (keyOf s m < v))) ++
        s.nodes.length :: (mid.dropWhile (fun m => decide (keyOf s m < v)))) ∧
      s'.length = (s.length + 1) % U32 ∧
      s'.nodes.length = s.nodes.length + 1 ∧
      ((mid.takeWhile (fun m => decide (keyOf s m < v))) ++
        s.nodes.length :: (mid.dropWhile (fun m => decide (keyOf s m < v)))).length
        = mid.length + 1 ∧
      keyOf s' s.nodes.length = v ∧ valueOf s' s.nodes.length = ptr ∧
      heightOf s' s.nodes.length = topLayer + 1 ∧
      (∀ j, j ≠ s.nodes.length →
        keyOf s' j = keyOf s j ∧ valueOf s' j = valueOf s j) := by
  have hv2 : v ≤ maxKey := le_of_lt hv3
  have hmidsplit : mid.takeWhile (fun m => decide (keyOf s m < v))
      ++ mid.dropWhile (fun m => decide (keyOf s m < v)) = mid :=
    List.takeWhile_append_dropWhile _ _
  have hmemLt : ∀ a ∈ mid.takeWhile (fun m => decide (keyOf s m < v)), a ∈ mid :=
    fun a ha => (List.takeWhile_sublist _).subset ha
  have hmemGe : ∀ a ∈ mid.dropWhile (fun m => decide (keyOf s m < v)), a ∈ mid :=
    fun a ha => (List.dropWhile_sublist _).subset ha
  have hLt : ∀ a ∈ mid.takeWhile (fun m => decide (keyOf s m < v)), keyOf s a < v := by
    intro a ha
    have := List.mem_takeWhile_imp ha
    simpa using this
  have hGe : ∀ b ∈ mid.dropWhile (fun m => decide (keyOf s m < v)), v < keyOf s b :=
    dropWhile_keys_gt h hH
  have hmidlt : ∀ m ∈ mid, m < s.nodes.length := fun m hm => (h.mid_ok m hm).1
  -- the new node and the intermediate states
  have htowlen : ((((List.range maxlevel).map (succAt s mid v)).take (topLayer+1)).map
      some).length = topLayer + 1 := by
    simp only [List.length_map, List.length_take, List.length_range]
    have : maxlevel = 32 := rfl
    omega
  -- the appended state s1
  have hs1get_old : ∀ j, j < s.nodes.length →
      ({ s with nodes := s.nodes ++ [newNode ptr v
        ((((List.range maxlevel).map (succAt s mid v)).take (topLayer+1)).map some)]
        : Header}).nodes[j]? = s.nodes[j]? := by
    intro j hj
    exact List.getElem?_append_left hj
  have hs1get_new : ({ s with nodes := s.nodes ++ [newNode ptr v
      ((((List.range maxlevel).map (succAt s mid v)).take (topLayer+1)).map some)]
      : Header}).nodes[s.nodes.length]? = some (newNode ptr v
      ((((List.range maxlevel).map (succAt s mid v)).take (topLayer+1)).map some)) :=
    List.getElem?_concat_length _ _
  have hs1get : ∀ j, j ≠ s.nodes.length →
      ({ s with nodes := s.nodes ++ [newNode ptr v
        ((((List.range maxlevel).map (succAt s mid v)).take (topLayer+1)).map some)]
        : Header}).nodes[j]? = s.nodes[j]? := by
    intro j hj
    by_cases hjl : j < s.nodes.length
    · exact hs1get_old j hjl
    · rw [List.getElem?_eq_none (by simp; omega), List.getElem?_eq_none (by omega)]
  have hs1key : ∀ j, j ≠ s.nodes.length →
      keyOf ({ s with nodes := s.nodes ++ [newNode ptr v
        ((((List.range maxlevel).map (succAt s mid v)).take (topLayer+1)).map some)]
        : Header}) j = keyOf s j := by
    intro j hj
    unfold keyOf
    rw [hs1get j hj]
  have hs1height : ∀ j, j ≠ s.nodes.length →
      heightOf ({ s with nodes := s.nodes ++ [newNode ptr v
        ((((List.range maxlevel).map (succAt s mid v)).take (topLayer+1)).map some)]
        : Header}) j = heightOf s j := by
    intro j hj
    unfold heightOf
    rw [hs1get j hj]
  have hs1marked : ∀ j, j ≠ s.nodes.length →
      markedOf ({ s with nodes := s.nodes ++ [newNode ptr v
        ((((List.range maxlevel).map (succAt s mid v)).take (topLayer+1)).map some)]
        : Header}) j = markedOf s j := by
    intro j hj
    unfold markedOf
    rw [hs1get j hj]
  have hs1flag : ∀ j, j ≠ s.nodes.length →
      flagOf ({ s with nodes := s.nodes ++ [newNode ptr v
        ((((List.range maxlevel).map (succAt s mid v)).take (topLayer+1)).map some)]
        : Header}) j = flagOf s j := by
    intro j hj
    unfold flagOf
    rw [hs1get j hj]
  have hs1value : ∀ j, j ≠ s.nodes.length →
      valueOf ({ s with nodes := s.nodes ++ [newNode ptr v
        ((((List.range maxlevel).map (succAt s mid v)).take (topLayer+1)).map some)]
        : Header}) j = valueOf s j := by
    intro j hj
    unfold valueOf
    rw [hs1get j hj]
  have hs1next : ∀ j l, j ≠ s.nodes.length →
      nextAt ({ s with nodes := s.nodes ++ [newNode ptr v
        ((((List.range maxlevel).map (succAt s mid v)).take (topLayer+1)).map some)]
        : Header}) j l = nextAt s j l := by
    intro j l hj
    unfold nextAt
    rw [hs1get j hj]
  -- the link entries
  have hlink : linkEntries ((List.range maxlevel).map (predAt s mid v))
      s.nodes.length topLayer =
      some ((List.range (topLayer+1)).map
        (fun l => (predAt s mid v l, l, some s.nodes.length))) := by
    unfold linkEntries
    apply mapM_of_forall_some
    intro l hl
    have hl32 : l < maxlevel := by
      rw [List.mem_range] at hl
      have : maxlevel = 32 := rfl
      omega
    rw [getElem?_range_map (predAt s mid v) hl32]
    rfl
  have hentry_mem : ∀ l, l < topLayer + 1 →
      (predAt s mid v l, l, some s.nodes.length) ∈ (List.range (topLayer+1)).map
        (fun l => (predAt s mid v l, l, some s.nodes.length)) := by
    intro l hl
    exact List.mem_map.mpr ⟨l, List.mem_range.mpr hl, rfl⟩
  have hlayer32 : ∀ l, l < topLayer + 1 → l < maxlevel := by
    intro l hl
    have : maxlevel = 32 := rfl
    omega
  have hpredlt : ∀ l, l < maxlevel → predAt s mid v l < s.nodes.length := by
    intro l hl
    exact h.levChain_valid l _ (predAt_mem_chain h hv1 l)
  obtain ⟨s2, hfold, h2len, h2left, h2right, h2hl, h2key, h2height, h2marked, h2flag,
      h2value, h2nodes, h2next, h2targets⟩ :=
    setsFold_spec ((List.range (topLayer+1)).map
        (fun l => (predAt s mid v l, l, some s.nodes.length)))
      ({ s with nodes := s.nodes ++ [newNode ptr v
        ((((List.range maxlevel).map (succAt s mid v)).take (topLayer+1)).map some)]
        : Header})
      (by
        intro e he
        obtain ⟨l, hl, rfl⟩ := List.mem_map.mp he
        rw [List.mem_range] at hl
        have hl32 := hlayer32 l hl
        have hplt := hpredlt l hl32
        constructor
        · show predAt s mid v l < _
          simp only [List.length_append, List.length_singleton]
          omega
        · show l < heightOf _ (predAt s mid v l)
          rw [hs1height _ (by omega)]
          exact mem_levChain_height h hl32 (predAt_mem_chain h hv1 l))
      (by
        rw [List.pairwise_map]
        refine (List.nodup_range (topLayer+1)).imp ?_
        intro a b hab
        exact hab)
  have h2nid : s2.nodes[s.nodes.length]? = some (newNode ptr v
      ((((List.range maxlevel).map (succAt s mid v)).take (topLayer+1)).map some)) := by
    rw [h2nodes s.nodes.length (by
      intro e he
      obtain ⟨l, hl, rfl⟩ := List.mem_map.mp he
      rw [List.mem_range] at hl
      have := hpredlt l (hlayer32 l hl)
      omega)]
    exact hs1get_new
  have h2nidlt : s.nodes.length < s2.nodes.length := by
    rw [h2len]
    simp
  -- the final state s4
  refine ⟨{ setNodeAt s2 s.nodes.length
      { key := v, value := ptr,
        nexts := (((List.range maxlevel).map (succAt s mid v)).take (topLayer+1)).map some,
        marked := false, fullyLinked := true } with
      length := ((setNodeAt s2 s.nodes.length
      { key := v, value := ptr,
        nexts := (((List.range maxlevel).map (succAt s mid v)).take (topLayer+1)).map some,
        marked := false, fullyLinked := true }).length + 1) % U32 }, ?_, ?_⟩
  · -- the computation of Set
    rw [Set_step (findNode_spec h hv1 hv2), lfAux_full h hv1 hv2, if_pos hH]
    rw [if_neg (by simp)]
    rw [validateFrom_true h hv1 hv2 true (topLayer+1) 0 (by
      have : maxlevel = 32 := rfl
      omega)]
    show (if topLayer + 1 ≤ ((List.range maxlevel).map (succAt s mid v)).length then _
      else none) = _
    rw [if_pos (by
      simp only [List.length_map, List.length_range]
      have : maxlevel = 32 := rfl
      omega)]
    show (match linkEntries ((List.range maxlevel).map (predAt s mid v))
        s.nodes.length topLayer with
      | none => none
      | some entries =>
        match setsFold ({ s with nodes := s.nodes ++ [newNode ptr v
            ((((List.range maxlevel).map (succAt s mid v)).take (topLayer+1)).map some)]
            : Header}) entries with
        | none => none
        | some s2 =>
          match s2.nodes[s.nodes.length]? with
          | none => none
          | some nn =>
            some ({ setNodeAt s2 s.nodes.length { nn with fullyLinked := true } with
              length := ((setNodeAt s2 s.nodes.length
                { nn with fullyLinked := true }).length + 1) % U32 }, true)) = _
    rw [hlink]
    show (match setsFold ({ s with nodes := s.nodes ++ [newNode ptr v
        ((((List.range maxlevel).map (succAt s mid v)).take (topLayer+1)).map some)]
        : Header}) ((List.range (topLayer+1)).map
          (fun l => (predAt s mid v l, l, some s.nodes.length))) with
      | none => none
      | some s2 =>
        match s2.nodes[s.nodes.length]? with
        | none => none
        | some nn =>
          some ({ setNodeAt s2 s.nodes.length { nn with fullyLinked := true } with
            length := ((setNodeAt s2 s.nodes.length
              { nn with fullyLinked := true }).length + 1) % U32 }, true)) = _
    rw [hfold]
    show (match s2.nodes[s.nodes.length]? with
      | none => none
      | some nn =>
        some ({ setNodeAt s2 s.nodes.length { nn with fullyLinked := true } with
          length := ((setNodeAt s2 s.nodes.length
            { nn with fullyLinked := true }).length + 1) % U32 }, true)) = _
    rw [h2nid]
    rfl
  · -- the properties of the final state
    set s3 := setNodeAt s2 s.nodes.length
      { key := v, value := ptr,
        nexts := (((List.range maxlevel).map (succAt s mid v)).take (topLayer+1)).map some,
        marked := false, fullyLinked := true } with hs3def
    have h2nidlt : s.nodes.length < s2.nodes.length := by
      rw [h2len]; simp
    have h3left : s3.leftSentinel = s.leftSentinel := by
      rw [hs3def]; exact h2left
    have h3right : s3.rightSentinel = s.rightSentinel := by
      rw [hs3def]; exact h2right
    have h3len : s3.nodes.length = s.nodes.length + 1 := by
      rw [hs3def, setNodeAt_length, h2len]
      simp
    have h3get_nid : s3.nodes[s.nodes.length]? = some
        { key := v, value := ptr,
          nexts := (((List.range maxlevel).map (succAt s mid v)).take (topLayer+1)).map some,
          marked := false, fullyLinked := true } := by
      rw [hs3def]
      exact setNodeAt_get_same _ h2nidlt
    have h3key_nid : keyOf s3 s.nodes.length = v := by
      rw [keyOf_eq h3get_nid]
    have h3value_nid : valueOf s3 s.nodes.length = ptr := by
      rw [valueOf_eq h3get_nid]
    have h3height_nid : heightOf s3 s.nodes.length = topLayer + 1 := by
      rw [heightOf_eq h3get_nid]
      exact htowlen
    have h3marked_nid : markedOf s3 s.nodes.length = false := by
      rw [markedOf_eq h3get_nid]
    have h3flag_nid : flagOf s3 s.nodes.length = true := by
      rw [flagOf_eq h3get_nid]
    have h3key_other : ∀ j, j ≠ s.nodes.length → keyOf s3 j = keyOf s j := by
      intro j hj
      have e1 : keyOf s3 j = keyOf s2 j := by
        unfold keyOf
        rw [hs3def, setNodeAt_get_other _ (Ne.symm hj)]
      rw [e1, h2key j, hs1key j hj]
    have h3value_other : ∀ j, j ≠ s.nodes.length → valueOf s3 j = valueOf s j := by
      intro j hj
      have e1 : valueOf s3 j = valueOf s2 j := by
        unfold valueOf
        rw [hs3def, setNodeAt_get_other _ (Ne.symm hj)]
      rw [e1, h2value j, hs1value j hj]
    have h3height_other : ∀ j, j ≠ s.nodes.length → heightOf s3 j = heightOf s j := by
      intro j hj
      have e1 : heightOf s3 j = heightOf s2 j := by
        unfold heightOf
        rw [hs3def, setNodeAt_get_other _ (Ne.symm hj)]
      rw [e1, h2height j, hs1height j hj]
    have h3marked_other : ∀ j, j ≠ s.nodes.length → markedOf s3 j = markedOf s j := by
      intro j hj
      have e1 : markedOf s3 j = markedOf s2 j := by
        unfold markedOf
        rw [hs3def, setNodeAt_get_other _ (Ne.symm hj)]
      rw [e1, h2marked j, hs1marked j hj]
    have h3flag_other : ∀ j, j ≠ s.nodes.length → flagOf s3 j = flagOf s j := by
      intro j hj
      have e1 : flagOf s3 j = flagOf s2 j := by
        unfold flagOf
        rw [hs3def, setNodeAt_get_other _ (Ne.symm hj)]
      rw [e1, h2flag j, hs1flag j hj]
    have h3next_nid : ∀ l, l < topLayer + 1 →
        nextAt s3 s.nodes.length l = some (some (succAt s mid v l)) := by
      intro l hl
      unfold nextAt
      rw [h3get_nid]
      show ((((List.range maxlevel).map (succAt s mid v)).take (topLayer+1)).map
        some)[l]? = some (some (succAt s mid v l))
      rw [List.getElem?_map, List.getElem?_take_of_lt hl,
        getElem?_range_map (succAt s mid v) (hlayer32 l hl)]
      rfl
    have h3next_pred : ∀ l, l < topLayer + 1 →
        nextAt s3 (predAt s mid v l) l = some (some s.nodes.length) := by
      intro l hl
      have hne : s.nodes.length ≠ predAt s mid v l := by
        have := hpredlt l (hlayer32 l hl)
        omega
      have e1 : nextAt s3 (predAt s mid v l) l = nextAt s2 (predAt s mid v l) l := by
        unfold nextAt
        rw [hs3def, setNodeAt_get_other _ hne]
      rw [e1]
      exact h2targets _ (hentry_mem l hl)
    have h3next_other : ∀ j l, j ≠ s.nodes.length →
        (topLayer + 1 ≤ l ∨ j ≠ predAt s mid v l) →
        nextAt s3 j l = nextAt s j l := by
      intro j l hj hcond
      have e1 : nextAt s3 j l = nextAt s2 j l := by
        unfold nextAt
        rw [hs3def, setNodeAt_get_other _ (Ne.symm hj)]
      rw [e1, h2next j l ?_, hs1next j l hj]
      intro e he hc
      obtain ⟨l2, hl2, rfl⟩ := List.mem_map.mp he
      rw [List.mem_range] at hl2
      rcases hcond with hge | hne
      · have : l2 = l := hc.2
        omega
      · have h1 : predAt s mid v l2 = j := hc.1
        have h2 : l2 = l := hc.2
        rw [h2] at h1
        exact hne h1.symm
    have hstruct3 : StructOk s3 ((mid.takeWhile (fun m => decide (keyOf s m < v))) ++
        s.nodes.length :: (mid.dropWhile (fun m => decide (keyOf s m < v)))) := by
      have hleftne : s.leftSentinel ≠ s.nodes.length := by
        have := h.left_lt; omega
      have hrightne : s.rightSentinel ≠ s.nodes.length := by
        have := h.right_lt; omega
      refine ⟨?_, ?_, ?_, ?_, ?_, ?_, ?_, ?_, ?_, ?_, ?_, ?_, ?_⟩
      · rw [h3left, h3len]
        have := h.left_lt; omega
      · rw [h3right, h3len]
        have := h.right_lt; omega
      · rw [h3left, h3key_other _ hleftne]; exact h.left_key
      · rw [h3right, h3key_other _ hrightne]; exact h.right_key
      · rw [h3left, h3height_other _ hleftne]; exact h.left_height
      · rw [h3right, h3height_other _ hrightne]; exact h.right_height
      · rw [h3left, h3marked_other _ hleftne]; exact h.left_marked
      · rw [h3right, h3marked_other _ hrightne]; exact h.right_marked
      · rw [h3left, h3flag_other _ hleftne]; exact h.left_flag
      · rw [h3right, h3flag_other _ hrightne]; exact h.right_flag
      · intro m hm
        rcases List.mem_append.mp hm with hml | hmc
        · have hmmid := hmemLt m hml
          have hmne : m ≠ s.nodes.length := by
            have := hmidlt m hmmid; omega
          obtain ⟨o1, o2, o3, o4, o5, o6, o7⟩ := h.mid_ok m hmmid
          rw [h3len, h3key_other _ hmne, h3marked_other _ hmne, h3flag_other _ hmne,
            h3height_other _ hmne]
          exact ⟨by omega, o2, o3, o4, o5, o6, o7⟩
        · rcases List.mem_cons.mp hmc with rfl | hmg
          · rw [h3len, h3key_nid, h3marked_nid, h3flag_nid, h3height_nid]
            refine ⟨by omega, hv1, hv3, rfl, rfl, by omega, ?_⟩
            show topLayer + 1 ≤ maxlevel
            have : maxlevel = 32 := rfl
            omega
          · have hmmid := hmemGe m hmg
            have hmne : m ≠ s.nodes.length := by
              have := hmidlt m hmmid; omega
            obtain ⟨o1, o2, o3, o4, o5, o6, o7⟩ := h.mid_ok m hmmid
            rw [h3len, h3key_other _ hmne, h3marked_other _ hmne, h3flag_other _ hmne,
              h3height_other _ hmne]
            exact ⟨by omega, o2, o3, o4, o5, o6, o7⟩
      · rw [h3left, h3right]
        have hsorted3 : List.Pairwise (fun a b => keyOf s3 a < keyOf s3 b)
            (s.leftSentinel :: mid ++ [s.rightSentinel]) := by
          refine h.sorted.imp_of_mem ?_
          intro a b ha hb hab
          have hane : a ≠ s.nodes.length := by
            have := h.full_valid a ha; omega
          have hbne : b ≠ s.nodes.length := by
            have := h.full_valid b hb; omega
          rw [h3key_other _ hane, h3key_other _ hbne]
          exact hab
        rw [← hmidsplit] at hsorted3
        have := pairwise_insert_mid (keyOf s3) v s.leftSentinel s.rightSentinel
          s.nodes.length
          (mid.takeWhile (fun m => decide (keyOf s m < v)))
          (mid.dropWhile (fun m => decide (keyOf s m < v)))
          hsorted3
          (fun a ha => by
            rw [h3key_other _ (by have := hmidlt a (hmemLt a ha); omega)]
            exact hLt a ha)
          (fun b hb => by
            rw [h3key_other _ (by have := hmidlt b (hmemGe b hb); omega)]
            exact hGe b hb)
          (by rw [h3key_other _ hleftne, h.left_key]; exact hv1)
          (by rw [h3key_other _ hrightne, h.right_key]; exact hv3)
          h3key_nid
        exact this
      · intro layer hlayer
        have hfiltLt : (mid.takeWhile (fun m => decide (keyOf s m < v))).filter
            (fun m => decide (layer < heightOf s3 m)) =
            (mid.takeWhile (fun m => decide (keyOf s m < v))).filter
            (fun m => decide (layer < heightOf s m)) := by
          apply List.filter_congr
          intro m hm
          rw [h3height_other _ (by have := hmidlt m (hmemLt m hm); omega)]
        have hfiltGe : (mid.dropWhile (fun m => decide (keyOf s m < v))).filter
            (fun m => decide (layer < heightOf s3 m)) =
            (mid.dropWhile (fun m => decide (keyOf s m < v))).filter
            (fun m => decide (layer < heightOf s m)) := by
          apply List.filter_congr
          intro m hm
          rw [h3height_other _ (by have := hmidlt m (hmemGe m hm); omega)]
        by_cases hcase : layer < topLayer + 1
        · have hlev : levChain s3 ((mid.takeWhile (fun m => decide (keyOf s m < v))) ++
              s.nodes.length :: (mid.dropWhile (fun m => decide (keyOf s m < v)))) layer =
              (s.leftSentinel :: (mid.takeWhile (fun m => decide (keyOf s m < v))).filter
                (fun m => decide (layer < heightOf s m))) ++
              (s.nodes.length :: ((mid.dropWhile (fun m => decide (keyOf s m < v))).filter
                (fun m => decide (layer < heightOf s m)) ++ [s.rightSentinel])) := by
            unfold levChain
            rw [h3left, h3right, List.filter_append, List.filter_cons]
            rw [h3height_nid]
            rw [if_pos (by simpa using hcase)]
            rw [hfiltLt, hfiltGe]
            simp
          rw [hlev]
          obtain ⟨hchaineq, hplast, hqhead⟩ := chain_split h hv1 hv2 layer
          have hold : List.Chain' (ChainRel s layer)
              ((s.leftSentinel :: (mid.takeWhile (fun m => decide (keyOf s m < v))).filter
                (fun m => decide (layer < heightOf s m))) ++
              ((mid.dropWhile (fun m => decide (keyOf s m < v))).filter
                (fun m => decide (layer < heightOf s m)) ++ [s.rightSentinel])) := by
            have := h.chains layer hlayer
            rwa [hchaineq] at this
          have hnd : ((s.leftSentinel :: (mid.takeWhile (fun m => decide (keyOf s m < v))).filter
              (fun m => decide (layer < heightOf s m))) ++
              ((mid.dropWhile (fun m => decide (keyOf s m < v))).filter
                (fun m => decide (layer < heightOf s m)) ++ [s.rightSentinel])).Nodup := by
            have := nodup_levChain h layer
            rwa [hchaineq] at this
          exact chain_insert_ok hold hnd hplast hqhead
            (by
              intro a ha hap
              have hamem : a ∈ levChain s mid layer := by
                rw [hchaineq]; exact ha
              have halt := h.levChain_valid layer a hamem
              exact h3next_other a layer (by omega) (Or.inr hap))
            (h3next_pred layer hcase)
            (h3next_nid layer hcase)
        · have hlev : levChain s3 ((mid.takeWhile (fun m => decide (keyOf s m < v))) ++
              s.nodes.length :: (mid.dropWhile (fun m => decide (keyOf s m < v)))) layer =
              levChain s mid layer := by
            unfold levChain
            rw [h3left, h3right, List.filter_append, List.filter_cons]
            rw [h3height_nid]
            rw [if_neg (by simpa using hcase)]
            rw [hfiltLt, hfiltGe, ← List.filter_append, hmidsplit]
          rw [hlev]
          refine chain'_transport _ (h.chains layer hlayer) ?_
          intro a ha b _ hab
          unfold ChainRel at hab ⊢
          rw [h3next_other a layer
            (by have := h.levChain_valid layer a ha; omega) (Or.inl (by omega))]
          exact hab
    refine ⟨?_, ?_, ?_, ?_, ?_, ?_, ?_, ?_⟩
    · refine structOk_congr ?_ ?_ ?_ ?_ ?_ ?_ ?_ ?_ hstruct3
      · rfl
      · rfl
      · rfl
      · intro i; rfl
      · intro i; rfl
      · intro i; rfl
      · intro i; rfl
      · intro i layer; rfl
    · show (s3.length + 1) % U32 = (s.length + 1) % U32
      rw [show s3.length = s2.length from by rw [hs3def]; rfl, h2hl]
    · show s3.nodes.length = s.nodes.length + 1
      exact h3len
    · have hlen := congrArg List.length hmidsplit
      simp only [List.length_append] at hlen
      simp only [List.length_append, List.length_cons]
      omega
    · exact h3key_nid
    · exact h3value_nid
    · exact h3height_nid
    · intro j hj
      exact ⟨h3key_other j hj, h3value_other j hj⟩

theorem Remove_step {s : Header} {v : Int} {lf : Int} {preds succs : List Nat}
    (hf : findNode s v = some (lf, preds, succs)) :
    Remove s v =
      (if lf = -1 then some (s, false)
      else
        match succs[lf.toNat]? with
        | none => none
        | some nid =>
          match s.nodes[nid]? with
          | none => none
          | some n =>
            if !(okToDelete n lf) then some (s, false)
            else if n.marked then some (s, false)
            else
              let topLayer := n.nexts.length - 1
              let s1 := setNodeAt s nid { n with marked := true }
              match validateFrom s1 preds succs false 0 (topLayer+1) with
              | none => none
              | some false => none
              | some true =>
                match unlinkEntries preds n topLayer with
                | none => none
                | some entries =>
                  match setsFold s1 entries with
                  | none => none
                  | some s2 =>
                    some ({ s2 with length := (s2.length + (U32 - 1)) % U32 }, true)) := by
  unfold Remove
  rw [hf]

theorem Remove_spec_absent {s : Header} {mid : List Nat} (h : StructOk s mid) {v : Int}
    (hv1 : minKey < v) (hv2 : v ≤ maxKey) (hH : vHeight s mid v = 0) :
    Remove s v = some (s, false) := by
  rw [Remove_step (findNode_spec h hv1 hv2), lfAux_full h hv1 hv2, if_pos hH]
  rw [if_pos rfl]

theorem vHeight_pos_node {s : Header} {mid : List Nat} (h : StructOk s mid) {v : Int}
    (hv3 : v < maxKey) (hH : vHeight s mid v ≠ 0) :
    ∃ m0, m0 ∈ mid ∧ keyOf s m0 = v ∧ vHeight s mid v = heightOf s m0 := by
  unfold vHeight at hH ⊢
  rw [if_neg (ne_of_lt hv3)] at hH ⊢
  cases hfind : mid.find? (fun m => keyOf s m == v) with
  | some m0 =>
    refine ⟨m0, List.mem_of_find?_eq_some hfind, ?_, ?_⟩
    · have := List.find?_some hfind
      simpa using this
    · rfl
  | none =>
    rw [hfind] at hH
    exact absurd rfl hH

theorem dropWhile_head_eq {s : Header} {mid : List Nat} (h : StructOk s mid) {v : Int}
    {m0 : Nat} (hm0 : m0 ∈ mid) (hkey : keyOf s m0 = v) :
    ∃ midR, mid.dropWhile (fun m => decide (keyOf s m < v)) = m0 :: midR := by
  have hsplit : mid.takeWhile (fun m => decide (keyOf s m < v))
      ++ mid.dropWhile (fun m => decide (keyOf s m < v)) = mid :=
    List.takeWhile_append_dropWhile _ _
  have hm0nlt : ¬ (m0 ∈ mid.takeWhile (fun m => decide (keyOf s m < v))) := by
    intro hc
    have := List.mem_takeWhile_imp hc
    rw [hkey] at this
    simp at this
  have hm0drop : m0 ∈ mid.dropWhile (fun m => decide (keyOf s m < v)) := by
    have : m0 ∈ mid.takeWhile (fun m => decide (keyOf s m < v))
        ++ mid.dropWhile (fun m => decide (keyOf s m < v)) := by
      rw [hsplit]; exact hm0
    rcases List.mem_append.mp this with hc | hc
    · exact absurd hc hm0nlt
    · exact hc
  cases hd : mid.dropWhile (fun m => decide (keyOf s m < v)) with
  | nil => rw [hd] at hm0drop; simp at hm0drop
  | cons g0 rest =>
    rw [hd] at hm0drop
    rcases List.mem_cons.mp hm0drop with rfl | hm0r
    · exact ⟨rest, rfl⟩
    · exfalso
      have hg0 : ¬ keyOf s g0 < v := by
        have := List.head?_dropWhile_not (fun m => decide (keyOf s m < v)) mid
        rw [hd] at this
        simpa using this
      have hpw : List.Pairwise (fun a b => keyOf s a < keyOf s b) (g0 :: rest) := by
        rw [← hd]
        exact (mid_sorted h).sublist (List.dropWhile_sublist _)
      have := (List.pairwise_cons.mp hpw).1 m0 hm0r
      rw [hkey] at this
      omega

theorem validateFrom_remove {s : Header} {mid : List Nat} (h : StructOk s mid) {v : Int}
    (hv1 : minKey < v) (hv2 : v ≤ maxKey) {m0 : Nat} (hm0key : keyOf s m0 = v) {n : Node}
    (hn : s.nodes[m0]? = some n) :
    ∀ (rem start : Nat), start + rem ≤ maxlevel →
      validateFrom (setNodeAt s m0 { n with marked := true })
        ((List.range maxlevel).map (predAt s mid v))
        ((List.range maxlevel).map (succAt s mid v)) false start rem = some true := by
  have hm0lt : m0 < s.nodes.length := by
    by_contra hc
    rw [List.getElem?_eq_none (by omega)] at hn
    exact Option.noConfusion hn
  intro rem
  induction rem with
  | zero => intro start _; rfl
  | succ rem ih =>
    intro start hbound
    have hstart : start < maxlevel := by omega
    show (match ((List.range maxlevel).map (predAt s mid v))[start]?,
        ((List.range maxlevel).map (succAt s mid v))[start]? with
      | some pid, some sid =>
        match validAt (setNodeAt s m0 { n with marked := true }) pid sid start false with
        | some true => validateFrom (setNodeAt s m0 { n with marked := true })
            ((List.range maxlevel).map (predAt s mid v))
            ((List.range maxlevel).map (succAt s mid v)) false (start+1) rem
        | some false => some false
        | none => none
      | _, _ => none) = some true
    rw [getElem?_range_map (predAt s mid v) hstart, getElem?_range_map (succAt s mid v) hstart]
    have hpredne : m0 ≠ predAt s mid v start := by
      intro hc
      have := predAt_key_lt h hv1 start
      rw [← hc, hm0key] at this
      exact lt_irrefl v this
    obtain ⟨pn, hpn⟩ := exists_node (h.levChain_valid start _ (predAt_mem_chain h hv1 start))
    have hpn1 : (setNodeAt s m0 { n with marked := true }).nodes[predAt s mid v start]?
        = some pn := by
      rw [setNodeAt_get_other _ hpredne]
      exact hpn
    have hsuclt : succAt s mid v start < s.nodes.length :=
      h.levChain_valid start _ (succAt_mem_chain h hv2 start)
    obtain ⟨sn1, hsn1⟩ : ∃ sn1, (setNodeAt s m0
        { n with marked := true }).nodes[succAt s mid v start]? = some sn1 := by
      by_cases hsm : m0 = succAt s mid v start
      · refine ⟨{ n with marked := true }, ?_⟩
        rw [← hsm]
        exact setNodeAt_get_same _ hm0lt
      · refine ⟨s.nodes[succAt s mid v start], ?_⟩
        rw [setNodeAt_get_other _ hsm]
        exact List.getElem?_eq_getElem hsuclt
    have hpm := mem_levChain_unmarked h (predAt_mem_chain h hv1 start)
    rw [markedOf_eq hpn] at hpm
    have hadj := predAt_adjacent h hv1 hv2 hstart
    unfold ChainRel nextAt at hadj
    rw [hpn] at hadj
    have hadj2 : pn.nexts[start]? = some (some (succAt s mid v start)) := hadj
    have hva : validAt (setNodeAt s m0 { n with marked := true })
        (predAt s mid v start) (succAt s mid v start) start false = some true := by
      unfold validAt
      rw [hpn1, hsn1]
      show (match pn.nexts[start]? with
        | some nx => some (!pn.marked && (!false || !sn1.marked)
            && (nx == some (succAt s mid v start)))
        | none => none) = _
      rw [hadj2]
      rw [hpm.1]
      simp
    show (match validAt (setNodeAt s m0 { n with marked := true })
        (predAt s mid v start) (succAt s mid v start) start false with
      | some true => validateFrom (setNodeAt s m0 { n with marked := true })
          ((List.range maxlevel).map (predAt s mid v))
          ((List.range maxlevel).map (succAt s mid v)) false (start+1) rem
      | some false => some false
      | none => none) = some true
    rw [hva]
    exact ih (start+1) (by omega)

set_option maxRecDepth 4000 in
/-- Removal of a present key: `Remove` returns `true`, the marked node is
unlinked from every one of its layers, the invariant is restored on the
shortened node list, the counter drops by one (mod 2^32), and every other
node keeps its key and value. -/
theorem Remove_spec_present {s : Header} {mid : List Nat} (h : StructOk s mid) {v : Int}
    (hv1 : minKey < v) (hv3 : v < maxKey) (hH : vHeight s mid v ≠ 0) :
    ∃ s' m0 midR,
      mid.dropWhile (fun m => decide (keyOf s m < v)) = m0 :: midR ∧
      keyOf s m0 = v ∧
      Remove s v = some (s', true) ∧
      StructOk s' ((mid.takeWhile (fun m => decide (keyOf s m < v))) ++ midR) ∧
      s'.length = (s.length + (U32 - 1)) % U32 ∧
      s'.nodes.length = s.nodes.length ∧
      ((mid.takeWhile (fun m => decide (keyOf s m < v))) ++ midR).length + 1 = mid.length ∧
      (∀ j, keyOf s' j = keyOf s j) ∧
      (∀ j, valueOf s' j = valueOf s j) := by
  have hv2 : v ≤ maxKey := le_of_lt hv3
  obtain ⟨m0, hm0mid, hm0key, hHpos⟩ := vHeight_pos_node h hv3 hH
  obtain ⟨midR, hdrop⟩ := dropWhile_head_eq h hm0mid hm0key
  obtain ⟨hm0lt, hm0k1, hm0k2, hm0marked, hm0flag, hm0h2, hm0h32⟩ := h.mid_ok m0 hm0mid
  obtain ⟨n, hn⟩ := exists_node hm0lt
  have hnlen : n.nexts.length = heightOf s m0 := (heightOf_eq hn).symm
  have hnkey : n.key = v := by rw [← keyOf_eq hn]; exact hm0key
  have hnflag : n.fullyLinked = true := by rw [← flagOf_eq hn]; exact hm0flag
  have hnmarked : n.marked = false := by rw [← markedOf_eq hn]; exact hm0marked
  have hvh2 : 2 ≤ vHeight s mid v := by rw [hHpos]; exact hm0h2
  have hnpos : 2 ≤ n.nexts.length := by rw [hnlen]; exact hm0h2
  have hmidsplit : mid.takeWhile (fun m => decide (keyOf s m < v))
      ++ mid.dropWhile (fun m => decide (keyOf s m < v)) = mid :=
    List.takeWhile_append_dropWhile _ _
  have hsplit_eq : (mid.takeWhile (fun m => decide (keyOf s m < v))) ++ m0 :: midR = mid := by
    rw [← hdrop]; exact hmidsplit
  have hmidnd : mid.Nodup := by
    refine (mid_sorted h).imp ?_
    intro a b hab heq
    subst heq
    exact lt_irrefl _ hab
  have hnd' : ((mid.takeWhile (fun m => decide (keyOf s m < v))) ++ m0 :: midR).Nodup := by
    rw [hsplit_eq]; exact hmidnd
  have hm0notLt : m0 ∉ mid.takeWhile (fun m => decide (keyOf s m < v)) := by
    intro hc
    exact (List.disjoint_of_nodup_append hnd') hc (by simp)
  have hm0notR : m0 ∉ midR := (List.nodup_cons.mp hnd'.of_append_right).1
  have hmemLt : ∀ a ∈ mid.takeWhile (fun m => decide (keyOf s m < v)), a ∈ mid :=
    fun a ha => (List.takeWhile_sublist _).subset ha
  have hmemR : ∀ a ∈ midR, a ∈ mid := by
    intro a ha
    rw [← hsplit_eq]
    simp [ha]
  have hne_m0 : ∀ m ∈ (mid.takeWhile (fun m => decide (keyOf s m < v))) ++ midR, m ≠ m0 := by
    intro m hm hc
    subst hc
    rcases List.mem_append.mp hm with hl | hr
    · exact hm0notLt hl
    · exact hm0notR hr
  have hleftne : m0 ≠ s.leftSentinel := by
    intro hc
    rw [hc] at hm0key
    rw [h.left_key] at hm0key
    exact absurd hm0key (ne_of_lt hv1)
  have hrightne : m0 ≠ s.rightSentinel := by
    intro hc
    rw [hc] at hm0key
    rw [h.right_key] at hm0key
    exact absurd hm0key (ne_of_gt hv3)
  have hsucc_eq : ∀ layer, layer < heightOf s m0 → succAt s mid v layer = m0 := by
    intro layer hlayer
    have hse := (chain_split h hv1 hv2 layer).2.2
    rw [hdrop, List.filter_cons, if_pos (by simpa using hlayer)] at hse
    simp only [List.cons_append, List.head?_cons, Option.some.injEq] at hse
    exact hse.symm
  -- the state with the node marked: every field but `marked` at `m0` is kept
  have hs1len : (setNodeAt s m0 { n with marked := true }).nodes.length = s.nodes.length :=
    setNodeAt_length _
  have hs1key : ∀ i, keyOf (setNodeAt s m0 { n with marked := true }) i = keyOf s i := by
    intro i
    by_cases hii : m0 = i
    · subst hii
      rw [keyOf_eq (setNodeAt_get_same _ hm0lt), keyOf_eq hn]
    · unfold keyOf
      rw [setNodeAt_get_other _ hii]
  have hs1height : ∀ i, heightOf (setNodeAt s m0 { n with marked := true }) i
      = heightOf s i := by
    intro i
    by_cases hii : m0 = i
    · subst hii
      rw [heightOf_eq (setNodeAt_get_same _ hm0lt), heightOf_eq hn]
    · unfold heightOf
      rw [setNodeAt_get_other _ hii]
  have hs1flag : ∀ i, flagOf (setNodeAt s m0 { n with marked := true }) i = flagOf s i := by
    intro i
    by_cases hii : m0 = i
    · subst hii
      rw [flagOf_eq (setNodeAt_get_same _ hm0lt), flagOf_eq hn]
    · unfold flagOf
      rw [setNodeAt_get_other _ hii]
  have hs1value : ∀ i, valueOf (setNodeAt s m0 { n with marked := true }) i
      = valueOf s i := by
    intro i
    by_cases hii : m0 = i
    · subst hii
      rw [valueOf_eq (setNodeAt_get_same _ hm0lt), valueOf_eq hn]
    · unfold valueOf
      rw [setNodeAt_get_other _ hii]
  have hs1marked : ∀ i, m0 ≠ i →
      markedOf (setNodeAt s m0 { n with marked := true }) i = markedOf s i := by
    intro i hii
    unfold markedOf
    rw [setNodeAt_get_other _ hii]
  have hs1next : ∀ i l, nextAt (setNodeAt s m0 { n with marked := true }) i l
      = nextAt s i l := by
    intro i l
    by_cases hii : m0 = i
    · subst hii
      unfold nextAt
      rw [setNodeAt_get_same _ hm0lt, hn]
      rfl
    · unfold nextAt
      rw [setNodeAt_get_other _ hii]
  -- adjacency after `m0` on each of its layers
  have hadjq : ∀ layer, layer < heightOf s m0 → ∃ q,
      ((midR.filter (fun m => decide (layer < heightOf s m))) ++ [s.rightSentinel]).head?
        = some q ∧ n.nexts[layer]? = some (some q) := by
    intro layer hlayer
    have hlayer32 : layer < maxlevel := by
      have : maxlevel = 32 := rfl
      omega
    obtain ⟨hchaineq, hplast, hqhead⟩ := chain_split h hv1 hv2 layer
    rw [hdrop, List.filter_cons, if_pos (by simpa using hlayer)] at hchaineq
    obtain ⟨q, hq⟩ : ∃ q, ((midR.filter (fun m => decide (layer < heightOf s m)))
        ++ [s.rightSentinel]).head? = some q := by
      cases midR.filter (fun m => decide (layer < heightOf s m)) with
      | nil => exact ⟨s.rightSentinel, rfl⟩
      | cons b bs => exact ⟨b, rfl⟩
    refine ⟨q, hq, ?_⟩
    obtain ⟨B2, hB2⟩ : ∃ B2, (midR.filter (fun m => decide (layer < heightOf s m)))
        ++ [s.rightSentinel] = q :: B2 := by
      cases hc : (midR.filter (fun m => decide (layer < heightOf s m)))
          ++ [s.rightSentinel] with
      | nil => rw [hc] at hq; simp at hq
      | cons b bs =>
        rw [hc] at hq
        have hbq : b = q := by simpa using hq
        exact ⟨bs, by rw [hbq]⟩
    have hold := h.chains layer hlayer32
    rw [hchaineq] at hold
    have hold2 : List.Chain' (ChainRel s layer)
        ((s.leftSentinel :: (mid.takeWhile (fun m => decide (keyOf s m < v))).filter
          (fun m => decide (layer < heightOf s m))) ++ (m0 :: (q :: B2))) := by
      rw [← hB2]
      exact hold
    have htail := (List.chain'_append.mp hold2).2.1
    have hrel : ChainRel s layer m0 q := (List.chain'_cons.mp htail).1
    unfold ChainRel nextAt at hrel
    rw [hn] at hrel
    exact hrel
  -- the unlinking stores
  have hunlink : unlinkEntries ((List.range maxlevel).map (predAt s mid v)) n
      (n.nexts.length - 1) =
      some (((List.range (n.nexts.length - 1 + 1)).reverse).map
        (fun l => (predAt s mid v l, l, (n.nexts[l]?).getD none))) := by
    unfold unlinkEntries
    apply mapM_of_forall_some
    intro l hl
    have hlH : l < n.nexts.length := by
      rw [List.mem_reverse, List.mem_range] at hl
      omega
    have hl32 : l < maxlevel := by
      rw [hnlen] at hlH
      have : maxlevel = 32 := rfl
      omega
    rw [getElem?_range_map (predAt s mid v) hl32]
    rw [List.getElem?_eq_getElem hlH]
    rfl
  obtain ⟨s2, hfold, h2len, h2left, h2right, h2hl, h2key, h2height, h2marked, h2flag,
      h2value, h2nodes, h2next, h2targets⟩ :=
    setsFold_spec (((List.range (n.nexts.length - 1 + 1)).reverse).map
        (fun l => (predAt s mid v l, l, (n.nexts[l]?).getD none)))
      (setNodeAt s m0 { n with marked := true })
      (by
        intro e he
        obtain ⟨l, hl, rfl⟩ := List.mem_map.mp he
        rw [List.mem_reverse, List.mem_range] at hl
        have hl32 : l < maxlevel := by
          have h32 : maxlevel = 32 := rfl
          have := hm0h32
          rw [hnlen] at hl
          omega
        constructor
        · show predAt s mid v l < _
          rw [hs1len]
          exact h.levChain_valid l _ (predAt_mem_chain h hv1 l)
        · show l < heightOf _ (predAt s mid v l)
          rw [hs1height]
          exact mem_levChain_height h hl32 (predAt_mem_chain h hv1 l))
      (by
        rw [List.pairwise_map]
        refine (List.nodup_reverse.mpr (List.nodup_range _)).imp ?_
        intro a b hab
        exact hab)
  have hentry_mem : ∀ l, l < n.nexts.length →
      (predAt s mid v l, l, (n.nexts[l]?).getD none) ∈
        ((List.range (n.nexts.length - 1 + 1)).reverse).map
          (fun l => (predAt s mid v l, l, (n.nexts[l]?).getD none)) := by
    intro l hl
    exact List.mem_map.mpr ⟨l, by rw [List.mem_reverse, List.mem_range]; omega, rfl⟩
  -- composed preservation facts from `s` to `s2`
  have hKey : ∀ i, keyOf s2 i = keyOf s i := fun i => by rw [h2key, hs1key]
  have hHeight : ∀ i, heightOf s2 i = heightOf s i := fun i => by rw [h2height, hs1height]
  have hFlag : ∀ i, flagOf s2 i = flagOf s i := fun i => by rw [h2flag, hs1flag]
  have hValue : ∀ i, valueOf s2 i = valueOf s i := fun i => by rw [h2value, hs1value]
  have hMarked : ∀ i, m0 ≠ i → markedOf s2 i = markedOf s i :=
    fun i hi => by rw [h2marked, hs1marked i hi]
  have hLen2 : s2.nodes.length = s.nodes.length := by rw [h2len, hs1len]
  have hLeft2 : s2.leftSentinel = s.leftSentinel := h2left
  have hRight2 : s2.rightSentinel = s.rightSentinel := h2right
  have hHL2 : s2.length = s.length := h2hl
  have hNext_other : ∀ j l, (n.nexts.length ≤ l ∨ j ≠ predAt s mid v l) →
      nextAt s2 j l = nextAt s j l := by
    intro j l hcond
    rw [h2next j l ?_, hs1next]
    intro e he hc
    obtain ⟨l2, hl2, rfl⟩ := List.mem_map.mp he
    rw [List.mem_reverse, List.mem_range] at hl2
    rcases hcond with hge | hne
    · have hll : l2 = l := hc.2
      omega
    · have h1 : predAt s mid v l2 = j := hc.1
      have hll : l2 = l := hc.2
      rw [hll] at h1
      exact hne h1.symm
  have hNext_pred : ∀ l, l < n.nexts.length →
      nextAt s2 (predAt s mid v l) l = some ((n.nexts[l]?).getD none) :=
    fun l hl => h2targets _ (hentry_mem l hl)
  have hjm : vHeight s mid v - 1 < maxlevel := vHeight_pos_bounds h hH
  have hnid : succAt s mid v (vHeight s mid v - 1) = m0 := by
    apply hsucc_eq
    rw [← hHpos]
    omega
  have hok : okToDelete n ((vHeight s mid v : Int) - 1) = true := by
    unfold okToDelete
    rw [hnflag, hnmarked]
    have h1 : (vHeight s mid v : Int) - 1 + 1 = (n.nexts.length : Int) := by
      rw [hnlen, ← hHpos]
      omega
    rw [h1]
    simp
  refine ⟨{ s2 with length := (s2.length + (U32 - 1)) % U32 }, m0, midR, hdrop, hm0key,
    ?_, ?_, ?_, ?_, ?_, ?_, ?_⟩
  · -- the computation of Remove
    rw [Remove_step (findNode_spec h hv1 hv2), lfAux_full h hv1 hv2, if_neg hH]
    rw [if_neg (by omega : ¬((vHeight s mid v : Int) - 1 = -1))]
    have htn : ((vHeight s mid v : Int) - 1).toNat = vHeight s mid v - 1 := by omega
    rw [htn, getElem?_range_map (succAt s mid v) hjm, hnid]
    show (match s.nodes[m0]? with
      | none => none
      | some nn =>
        if !(okToDelete nn ((vHeight s mid v : Int) - 1)) then some (s, false)
        else if nn.marked then some (s, false)
        else
          match validateFrom (setNodeAt s m0 { nn with marked := true })
              ((List.range maxlevel).map (predAt s mid v))
              ((List.range maxlevel).map (succAt s mid v)) false 0
              (nn.nexts.length - 1 + 1) with
          | none => none
          | some false => none
          | some true =>
            match unlinkEntries ((List.range maxlevel).map (predAt s mid v)) nn
                (nn.nexts.length - 1) with
            | none => none
            | some entries =>
              match setsFold (setNodeAt s m0 { nn with marked := true }) entries with
              | none => none
              | some t => some ({ t with length := (t.length + (U32 - 1)) % U32 }, true)) = _
    rw [hn]
    show (if !(okToDelete n ((vHeight s mid v : Int) - 1)) then some (s, false)
      else if n.marked then some (s, false)
      else
        match validateFrom (setNodeAt s m0 { n with marked := true })
            ((List.range maxlevel).map (predAt s mid v))
            ((List.range maxlevel).map (succAt s mid v)) false 0
            (n.nexts.length - 1 + 1) with
        | none => none
        | some false => none
        | some true =>
          match unlinkEntries ((List.range maxlevel).map (predAt s mid v)) n
              (n.nexts.length - 1) with
          | none => none
          | some entries =>
            match setsFold (setNodeAt s m0 { n with marked := true }) entries with
            | none => none
            | some t => some ({ t with length := (t.length + (U32 - 1)) % U32 }, true)) = _
    rw [if_neg (by rw [hok]; simp)]
    rw [if_neg (by rw [hnmarked]; simp)]
    rw [validateFrom_remove h hv1 hv2 hm0key hn (n.nexts.length - 1 + 1) 0 (by
      rw [hnlen]
      have : maxlevel = 32 := rfl
      omega)]
    show (match unlinkEntries ((List.range maxlevel).map (predAt s mid v)) n
        (n.nexts.length - 1) with
      | none => none
      | some entries =>
        match setsFold (setNodeAt s m0 { n with marked := true }) entries with
        | none => none
        | some t => some ({ t with length := (t.length + (U32 - 1)) % U32 }, true)) = _
    rw [hunlink]
    show (match setsFold (setNodeAt s m0 { n with marked := true })
        (((List.range (n.nexts.length - 1 + 1)).reverse).map
          (fun l => (predAt s mid v l, l, (n.nexts[l]?).getD none))) with
      | none => none
      | some t => some ({ t with length := (t.length + (U32 - 1)) % U32 }, true)) = _
    rw [hfold]
  · -- the structural invariant on the shortened list
    have hstruct2 : StructOk s2 ((mid.takeWhile (fun m => decide (keyOf s m < v)))
        ++ midR) := by
      refine ⟨?_, ?_, ?_, ?_, ?_, ?_, ?_, ?_, ?_, ?_, ?_, ?_, ?_⟩
      · rw [hLeft2, hLen2]; exact h.left_lt
      · rw [hRight2, hLen2]; exact h.right_lt
      · rw [hLeft2, hKey]; exact h.left_key
      · rw [hRight2, hKey]; exact h.right_key
      · rw [hLeft2, hHeight]; exact h.left_height
      · rw [hRight2, hHeight]; exact h.right_height
      · rw [hLeft2, hMarked _ hleftne]; exact h.left_marked
      · rw [hRight2, hMarked _ hrightne]; exact h.right_marked
      · rw [hLeft2, hFlag]; exact h.left_flag
      · rw [hRight2, hFlag]; exact h.right_flag
      · intro m hm
        have hmmid : m ∈ mid := by
          rcases List.mem_append.mp hm with hl | hr
          · exact hmemLt m hl
          · exact hmemR m hr
        obtain ⟨o1, o2, o3, o4, o5, o6, o7⟩ := h.mid_ok m hmmid
        rw [hLen2, hKey, hMarked m (Ne.symm (hne_m0 m hm)), hFlag, hHeight]
        exact ⟨o1, o2, o3, o4, o5, o6, o7⟩
      · rw [hLeft2, hRight2]
        have hsub : List.Sublist ((mid.takeWhile (fun m => decide (keyOf s m < v))) ++ midR)
            ((mid.takeWhile (fun m => decide (keyOf s m < v))) ++ m0 :: midR) :=
          List.Sublist.append (List.Sublist.refl _) (List.sublist_cons_self _ _)
        have hsub2 : List.Sublist ((mid.takeWhile (fun m => decide (keyOf s m < v))) ++ midR)
            mid := by
          have hsub3 := hsub
          rw [hsplit_eq] at hsub3
          exact hsub3
        have hs : List.Pairwise (fun a b => keyOf s a < keyOf s b)
            (s.leftSentinel :: ((mid.takeWhile (fun m => decide (keyOf s m < v))) ++ midR)
              ++ [s.rightSentinel]) := by
          refine h.sorted.sublist ?_
          exact List.Sublist.append (List.Sublist.cons₂ _ hsub2) (List.Sublist.refl _)
        refine hs.imp ?_
        intro a b hab
        rw [hKey, hKey]
        exact hab
      · intro layer hlayer
        have hfiltLt : (mid.takeWhile (fun m => decide (keyOf s m < v))).filter
            (fun m => decide (layer < heightOf s2 m)) =
            (mid.takeWhile (fun m => decide (keyOf s m < v))).filter
            (fun m => decide (layer < heightOf s m)) := by
          apply List.filter_congr
          intro m _
          rw [hHeight]
        have hfiltR : midR.filter (fun m => decide (layer < heightOf s2 m)) =
            midR.filter (fun m => decide (layer < heightOf s m)) := by
          apply List.filter_congr
          intro m _
          rw [hHeight]
        have hlev : levChain s2 ((mid.takeWhile (fun m => decide (keyOf s m < v))) ++ midR)
            layer =
            (s.leftSentinel :: (mid.takeWhile (fun m => decide (keyOf s m < v))).filter
              (fun m => decide (layer < heightOf s m))) ++
            (midR.filter (fun m => decide (layer < heightOf s m)) ++ [s.rightSentinel]) := by
          unfold levChain
          rw [hLeft2, hRight2, List.filter_append, hfiltLt, hfiltR]
          simp
        rw [hlev]
        by_cases hcase : layer < heightOf s m0
        · obtain ⟨hchaineq, hplast, hqhead⟩ := chain_split h hv1 hv2 layer
          rw [hdrop, List.filter_cons, if_pos (by simpa using hcase)] at hchaineq
          obtain ⟨q, hq, hnq⟩ := hadjq layer hcase
          have hold : List.Chain' (ChainRel s layer)
              ((s.leftSentinel :: (mid.takeWhile (fun m => decide (keyOf s m < v))).filter
                (fun m => decide (layer < heightOf s m))) ++
                m0 :: (midR.filter (fun m => decide (layer < heightOf s m))
                  ++ [s.rightSentinel])) := by
            have hc := h.chains layer hlayer
            rw [hchaineq] at hc
            exact hc
          have hndc : ((s.leftSentinel :: (mid.takeWhile
              (fun m => decide (keyOf s m < v))).filter
              (fun m => decide (layer < heightOf s m))) ++
              m0 :: (midR.filter (fun m => decide (layer < heightOf s m))
                ++ [s.rightSentinel])).Nodup := by
            have hc := nodup_levChain h layer
            rw [hchaineq] at hc
            exact hc
          have hunt : ∀ a ∈ (s.leftSentinel :: (mid.takeWhile
              (fun m => decide (keyOf s m < v))).filter
              (fun m => decide (layer < heightOf s m))) ++
              (midR.filter (fun m => decide (layer < heightOf s m)) ++ [s.rightSentinel]),
              a ≠ predAt s mid v layer → nextAt s2 a layer = nextAt s a layer := by
            intro a _ hap
            exact hNext_other a layer (Or.inr hap)
          have hp4 : nextAt s2 (predAt s mid v layer) layer = some (some q) := by
            have hw := hNext_pred layer (by rw [hnlen]; exact hcase)
            rw [hnq] at hw
            exact hw
          exact chain_remove_ok hold hndc hplast hq hunt hp4
        · obtain ⟨hchaineq, hplast, hqhead⟩ := chain_split h hv1 hv2 layer
          rw [hdrop, List.filter_cons, if_neg (by simpa using hcase)] at hchaineq
          have hold := h.chains layer hlayer
          rw [hchaineq] at hold
          refine chain'_transport _ hold ?_
          intro a ha b hb hab
          unfold ChainRel at hab ⊢
          rw [hNext_other a layer (Or.inl (by rw [hnlen]; omega))]
          exact hab
    refine structOk_congr ?_ ?_ ?_ ?_ ?_ ?_ ?_ ?_ hstruct2
    · rfl
    · rfl
    · rfl
    · intro i; unfold keyOf; rfl
    · intro i; unfold heightOf; rfl
    · intro i; unfold markedOf; rfl
    · intro i; unfold flagOf; rfl
    · intro i layer; unfold nextAt; rfl
  · show (s2.length + (U32 - 1)) % U32 = (s.length + (U32 - 1)) % U32
    rw [hHL2]
  · show s2.nodes.length = s.nodes.length
    exact hLen2
  · have hlen := congrArg List.length hsplit_eq
    simp only [List.length_append, List.length_cons] at hlen
    simp only [List.length_append]
    omega
  · intro j
    have e1 : keyOf { s2 with length := (s2.length + (U32 - 1)) % U32 } j
        = keyOf s2 j := by
      unfold keyOf
      rfl
    rw [e1]
    exact hKey j
  · intro j
    have e1 : valueOf { s2 with length := (s2.length + (U32 - 1)) % U32 } j
        = valueOf s2 j := by
      unfold valueOf
      rfl
    rw [e1]
    exact hValue j

theorem Initialize_nodes_length (s : Header) :
    (Initialize s).nodes.length = s.nodes.length + 2 := by
  show (s.nodes ++ [_, _]).length = s.nodes.length + 2
  simp

theorem Initialize_get_right (s : Header) :
    (Initialize s).nodes[s.nodes.length]? = some
      { key := maxKey, value := 0, nexts := List.replicate maxlevel none,
        marked := false, fullyLinked := true } := by
  show (s.nodes ++ [_, _])[s.nodes.length]? = _
  rw [List.getElem?_append_right (le_refl _)]
  simp

theorem Initialize_get_left (s : Header) :
    (Initialize s).nodes[s.nodes.length + 1]? = some
      { key := minKey, value := 0,
        nexts := List.replicate maxlevel (some s.nodes.length),
        marked := false, fullyLinked := true } := by
  show (s.nodes ++ [_, _])[s.nodes.length + 1]? = _
  rw [List.getElem?_append_right (by omega)]
  have h1 : s.nodes.length + 1 - s.nodes.length = 1 := by omega
  rw [h1]
  simp

/-- After `Initialize`, the two fresh sentinels alone satisfy the structural
invariant, whatever was in the store before. -/
theorem structOk_Initialize (s : Header) : StructOk (Initialize s) [] := by
  have hL : (Initialize s).leftSentinel = s.nodes.length + 1 := rfl
  have hR : (Initialize s).rightSentinel = s.nodes.length := rfl
  have hlen := Initialize_nodes_length s
  have hgl := Initialize_get_left s
  have hgr := Initialize_get_right s
  refine ⟨?_, ?_, ?_, ?_, ?_, ?_, ?_, ?_, ?_, ?_, ?_, ?_, ?_⟩
  · rw [hL, hlen]; omega
  · rw [hR, hlen]; omega
  · rw [hL, keyOf_eq hgl]
  · rw [hR, keyOf_eq hgr]
  · rw [hL, heightOf_eq hgl]; simp
  · rw [hR, heightOf_eq hgr]; simp
  · rw [hL, markedOf_eq hgl]
  · rw [hR, markedOf_eq hgr]
  · rw [hL, flagOf_eq hgl]
  · rw [hR, flagOf_eq hgr]
  · intro m hm
    simp at hm
  · refine List.Pairwise.cons ?_ (List.pairwise_singleton _ _)
    intro b hb
    have hbr : b = (Initialize s).rightSentinel := by simpa using hb
    rw [hbr, hL, hR, keyOf_eq hgl, keyOf_eq hgr]
    norm_num [minKey, maxKey]
  · intro layer hlayer
    show List.Chain' (ChainRel (Initialize s) layer)
      ((Initialize s).leftSentinel :: (([] : List Nat).filter _ ++ [(Initialize s).rightSentinel]))
    refine List.chain'_cons.mpr ⟨?_, List.chain'_singleton _⟩
    unfold ChainRel nextAt
    rw [hL, hR, hgl]
    show (List.replicate maxlevel (some s.nodes.length))[layer]? = some (some s.nodes.length)
    rw [List.getElem?_replicate]
    rw [if_pos hlayer]

/-- The fresh list of `New` satisfies the full invariant with no live nodes. -/
theorem invData_New : InvData New [] :=
  ⟨structOk_Initialize _, rfl⟩

theorem vHeight_congr {s s' : Header} (hkey : ∀ i, keyOf s' i = keyOf s i)
    (hheight : ∀ i, heightOf s' i = heightOf s i) (mid : List Nat) (v : Int) :
    vHeight s' mid v = vHeight s mid v := by
  unfold vHeight
  have hp : (fun m => keyOf s' m == v) = (fun m => keyOf s m == v) := by
    funext m
    rw [hkey]
  rw [hp]
  by_cases hv : v = maxKey
  · rw [if_pos hv, if_pos hv]
  · rw [if_neg hv, if_neg hv]
    cases mid.find? (fun m => keyOf s m == v) with
    | none => rfl
    | some m => exact hheight m

theorem succAt_congr {s s' : Header} (hL : s'.leftSentinel = s.leftSentinel)
    (hR : s'.rightSentinel = s.rightSentinel)
    (hkey : ∀ i, keyOf s' i = keyOf s i) (hheight : ∀ i, heightOf s' i = heightOf s i)
    (mid : List Nat) (v : Int) (j : Nat) :
    succAt s' mid v j = succAt s mid v j := by
  unfold succAt highsOf
  rw [levChain_congr hL hR hheight]
  have hp : (fun i => decide (keyOf s' i < v)) = (fun i => decide (keyOf s i < v)) := by
    funext i
    rw [hkey]
  rw [hp]

theorem setNodeAt_congr_fields {s : Header} {i : Nat} {n nn : Node}
    (hn : s.nodes[i]? = some n) (hkey : nn.key = n.key)
    (hh : nn.nexts.length = n.nexts.length) (hm : nn.marked = n.marked)
    (hf : nn.fullyLinked = n.fullyLinked) :
    (∀ j, keyOf (setNodeAt s i nn) j = keyOf s j) ∧
    (∀ j, heightOf (setNodeAt s i nn) j = heightOf s j) ∧
    (∀ j, markedOf (setNodeAt s i nn) j = markedOf s j) ∧
    (∀ j, flagOf (setNodeAt s i nn) j = flagOf s j) := by
  have hi : i < s.nodes.length := by
    by_contra hc
    rw [List.getElem?_eq_none (by omega)] at hn
    exact Option.noConfusion hn
  refine ⟨?_, ?_, ?_, ?_⟩
  · intro j
    by_cases hij : i = j
    · subst hij
      rw [keyOf_eq (setNodeAt_get_same _ hi), keyOf_eq hn, hkey]
    · unfold keyOf
      rw [setNodeAt_get_other _ hij]
  · intro j
    by_cases hij : i = j
    · subst hij
      rw [heightOf_eq (setNodeAt_get_same _ hi), heightOf_eq hn, hh]
    · unfold heightOf
      rw [setNodeAt_get_other _ hij]
  · intro j
    by_cases hij : i = j
    · subst hij
      rw [markedOf_eq (setNodeAt_get_same _ hi), markedOf_eq hn, hm]
    · unfold markedOf
      rw [setNodeAt_get_other _ hij]
  · intro j
    by_cases hij : i = j
    · subst hij
      rw [flagOf_eq (setNodeAt_get_same _ hi), flagOf_eq hn, hf]
    · unfold flagOf
      rw [setNodeAt_get_other _ hij]

/-- The states reachable from `New` by single-threaded `Set` / `Remove`
calls on user keys (strictly between the sentinel keys), with tower heights
drawn from `generateLevel` (hence in `[1, 31]`, see
`generateLevel_ge_1` / `generateLevel_le_31`). -/
inductive Reachable : Header → Prop where
  | init : Reachable New
  | set {s : Header} {v : Int} {ptr topLayer : Nat} {s' : Header} {b : Bool} :
      Reachable s → minKey < v → v < maxKey → 1 ≤ topLayer → topLayer ≤ 31 →
      Set s v ptr topLayer = some (s', b) → Reachable s'
  | remove {s : Header} {v : Int} {s' : Header} {b : Bool} :
      Reachable s → minKey < v → v < maxKey →
      Remove s v = some (s', b) → Reachable s'

/-- Every reachable state satisfies the full invariant for some list of
live-node indices. -/
theorem reachable_inv {s : Header} (hr : Reachable s) : ∃ mid, InvData s mid := by
  induction hr with
  | init => exact ⟨[], invData_New⟩
  | set hr hv1 hv3 ht1 ht2 hset ih =>
    obtain ⟨mid, hstruct, hlen⟩ := ih
    rename_i s v ptr topLayer s' b
    by_cases hH : vHeight s mid v = 0
    · obtain ⟨s2, heq, hstruct2, hlen2, hnlen2, hmidlen2, hrest⟩ :=
        Set_spec_insert hstruct ptr topLayer hv1 hv3 ht1 ht2 hH
      rw [heq] at hset
      obtain ⟨hs, hb⟩ := Prod.mk.injEq .. ▸ Option.some.injEq .. ▸ hset
      refine ⟨(mid.takeWhile (fun m => decide (keyOf s m < v))) ++
        s.nodes.length :: (mid.dropWhile (fun m => decide (keyOf s m < v))), ?_, ?_⟩
      · rw [← hs]
        exact hstruct2
      · rw [← hs, hlen2, hmidlen2, hlen]
        exact Nat.mod_eq_of_lt (mid_length_lt hstruct)
    · obtain ⟨m0, n, hm0, hn, hkey, heq, hstruct2, hlen2, hval2⟩ :=
        Set_spec_found hstruct ptr topLayer hv1 (le_of_lt hv3) hH
      rw [heq] at hset
      obtain ⟨hs, hb⟩ := Prod.mk.injEq .. ▸ Option.some.injEq .. ▸ hset
      refine ⟨mid, ?_, ?_⟩
      · rw [← hs]
        exact hstruct2
      · rw [← hs, hlen2]
        exact hlen
  | remove hr hv1 hv3 hrem ih =>
    obtain ⟨mid, hstruct, hlen⟩ := ih
    rename_i s v s' b
    by_cases hH : vHeight s mid v = 0
    · rw [Remove_spec_absent hstruct hv1 (le_of_lt hv3) hH] at hrem
      obtain ⟨hs, hb⟩ := Prod.mk.injEq .. ▸ Option.some.injEq .. ▸ hrem
      rw [← hs]
      exact ⟨mid, hstruct, hlen⟩
    · obtain ⟨s2, m0, midR, hdrop, hkeym0, heq, hstruct2, hlen2, hnlen2, hmidlen2, hkeys,
          hvals⟩ := Remove_spec_present hstruct hv1 hv3 hH
      rw [heq] at hrem
      obtain ⟨hs, hb⟩ := Prod.mk.injEq .. ▸ Option.some.injEq .. ▸ hrem
      refine ⟨(mid.takeWhile (fun m => decide (keyOf s m < v))) ++ midR, ?_, ?_⟩
      · rw [← hs]
        exact hstruct2
      · rw [← hs, hlen2, hlen]
        have hmlt := mid_length_lt hstruct
        have hU : 0 < U32 := by norm_num [U32]
        have h1 : mid.length + (U32 - 1) =
            ((mid.takeWhile (fun m => decide (keyOf s m < v))) ++ midR).length + U32 := by
          omega
        rw [h1, Nat.add_mod_right]
        exact Nat.mod_eq_of_lt (by omega)

/-- A single-threaded API call: `add v lvl` is a `Set` call (storing value 0)
whose random tower draw came out as `lvl`, `del v` is `Remove`, `query v` is
`Contains`. -/
inductive Op where
  | add : Int → Nat → Op
  | del : Int → Op
  | query : Int → Op
deriving DecidableEq

/-- Well-formed call: the key lies strictly between the sentinel keys, and a
tower height in the range `generateLevel` can produce (see
`generateLevel_ge_1` and `generateLevel_le_31`). -/
def opWF : Op → Bool
  | Op.add v lvl => decide (minKey < v) && decide (v < maxKey)
      && decide (1 ≤ lvl) && decide (lvl ≤ 31)
  | Op.del v => decide (minKey < v) && decide (v < maxKey)
  | Op.query v => decide (minKey < v) && decide (v < maxKey)

/-- Run one call, returning the new state and the call's boolean result. -/
def runOp (s : Header) : Op → Option (Header × Bool)
  | Op.add v lvl => Set s v 0 lvl
  | Op.del v => Remove s v
  | Op.query v => (Contains s v).map (fun b => (s, b))

/-- Run a list of calls from `s`, pairing every call with its result. -/
def runTrace : Header → List Op → Option (Header × List (Op × Bool))
  | s, [] => some (s, [])
  | s, op :: rest =>
    match runOp s op with
    | none => none
    | some (s1, b) =>
      match runTrace s1 rest with
      | none => none
      | some (s2, res) => some (s2, (op, b) :: res)

/-- Contribution of one annotated call to the count of successful
`add`s of key `k`. -/
def opHitA (k : Int) : Op × Bool → Nat
  | (Op.add w _, b) => if w = k ∧ b = true then 1 else 0
  | _ => 0

/-- Contribution of one annotated call to the count of successful
`remove`s of key `k`. -/
def opHitR (k : Int) : Op × Bool → Nat
  | (Op.del w, b) => if w = k ∧ b = true then 1 else 0
  | _ => 0

/-- Number of completed `add k` calls in an annotated trace that returned
`true` (i.e. actually linked a node). -/
def cntA (k : Int) (res : List (Op × Bool)) : Nat :=
  (res.map (opHitA k)).sum

/-- Number of completed `remove k` calls in an annotated trace that returned
`true` (i.e. actually removed a node). -/
def cntR (k : Int) (res : List (Op × Bool)) : Nat :=
  (res.map (opHitR k)).sum

/-- Number of completed `add k` calls in a plain call list, successful or
not (the count the specification's set-semantics sentence uses). -/
def opCallA (k : Int) : Op → Nat
  | Op.add w _ => if w = k then 1 else 0
  | _ => 0

/-- Number of completed `remove k` calls in a plain call list. -/
def opCallR (k : Int) : Op → Nat
  | Op.del w => if w = k then 1 else 0
  | _ => 0

def cntAddCalls (k : Int) (ops : List Op) : Nat := (ops.map (opCallA k)).sum

def cntDelCalls (k : Int) (ops : List Op) : Nat := (ops.map (opCallR k)).sum

/-- Final `Contains` answer after running a trace from a fresh list. -/
def tracedContains (ops : List Op) (k : Int) : Option Bool :=
  match runTrace New ops with
  | none => none
  | some (s, _) => Contains s k

theorem cntA_cons (k : Int) (e : Op × Bool) (res : List (Op × Bool)) :
    cntA k (e :: res) = opHitA k e + cntA k res := by
  unfold cntA
  simp

theorem cntR_cons (k : Int) (e : Op × Bool) (res : List (Op × Bool)) :
    cntR k (e :: res) = opHitR k e + cntR k res := by
  unfold cntR
  simp

theorem vHeight_nil {s : Header} {v : Int} (hv : v ≠ maxKey) : vHeight s [] v = 0 := by
  unfold vHeight
  rw [if_neg hv]
  rfl

/-- Set semantics of a single-threaded trace, counting only the calls that
returned `true`: a key that starts absent is present exactly when its
successful removes are strictly outnumbered by its successful adds; a key
that starts present, exactly when they balance.  The two counts never drift
apart by more than one. -/
theorem runTrace_spec : ∀ (ops : List Op) (s : Header) (mid : List Nat),
    StructOk s mid → (∀ op ∈ ops, opWF op = true) →
    ∀ s2 res, runTrace s ops = some (s2, res) →
    ∃ mid2, StructOk s2 mid2 ∧
      ∀ k, minKey < k → k < maxKey →
        (if vHeight s mid k = 0
         then cntR k res ≤ cntA k res ∧ cntA k res ≤ cntR k res + 1 ∧
           (0 < vHeight s2 mid2 k ↔ cntR k res < cntA k res)
         else cntA k res ≤ cntR k res ∧ cntR k res ≤ cntA k res + 1 ∧
           (0 < vHeight s2 mid2 k ↔ cntA k res = cntR k res)) := by
  intro ops
  induction ops with
  | nil =>
    intro s mid hstruct _ s2 res hrun
    have hrun2 : some (s, ([] : List (Op × Bool))) = some (s2, res) := hrun
    obtain ⟨hs, hres⟩ := Prod.mk.injEq .. ▸ Option.some.injEq .. ▸ hrun2
    subst hs
    subst hres
    refine ⟨mid, hstruct, ?_⟩
    intro k hk1 hk3
    by_cases hk0 : vHeight s mid k = 0
    · rw [if_pos hk0]
      refine ⟨by simp [cntA, cntR], by simp [cntA, cntR], ?_⟩
      simp [cntA, cntR]
      omega
    · rw [if_neg hk0]
      refine ⟨by simp [cntA, cntR], by simp [cntA, cntR], ?_⟩
      simp [cntA, cntR]
      omega
  | cons op rest ih =>
    intro s mid hstruct hwf s2 res hrun
    have hopwf := hwf op (by simp)
    have hrestwf : ∀ o ∈ rest, opWF o = true := fun o ho => hwf o (by simp [ho])
    cases op with
    | query v =>
      have hb : opWF (Op.query v) = true := hopwf
      simp only [opWF, Bool.and_eq_true, decide_eq_true_eq] at hb
      obtain ⟨hv1, hv3⟩ := hb
      have hcon : Contains s v = some (decide (0 < vHeight s mid v)) :=
        Contains_spec hstruct hv1 (le_of_lt hv3)
      have hop_eq : runOp s (Op.query v) = some (s, decide (0 < vHeight s mid v)) := by
        show (Contains s v).map (fun b => (s, b)) = _
        rw [hcon]
        rfl
      have hstep : runTrace s (Op.query v :: rest) =
          (match runTrace s rest with
           | none => none
           | some (s2, res) =>
             some (s2, (Op.query v, decide (0 < vHeight s mid v)) :: res)) := by
        show (match runOp s (Op.query v) with
          | none => none
          | some (s1, b) =>
            match runTrace s1 rest with
            | none => none
            | some (s2, res) => some (s2, (Op.query v, b) :: res)) = _
        rw [hop_eq]
      rw [hstep] at hrun
      cases hrec : runTrace s rest with
      | none =>
        rw [hrec] at hrun
        exact Option.noConfusion hrun
      | some p =>
        obtain ⟨s3, res3⟩ := p
        rw [hrec] at hrun
        have hrun2 : some (s3, (Op.query v, decide (0 < vHeight s mid v)) :: res3)
            = some (s2, res) := hrun
        obtain ⟨hs3, hres⟩ := Prod.mk.injEq .. ▸ Option.some.injEq .. ▸ hrun2
        subst hs3
        subst hres
        obtain ⟨mid2, hstruct2, hbody⟩ := ih s mid hstruct hrestwf s3 res3 hrec
        refine ⟨mid2, hstruct2, ?_⟩
        intro k hk1 hk3
        have hq := hbody k hk1 hk3
        rw [cntA_cons, cntR_cons]
        have ha0 : opHitA k (Op.query v, decide (0 < vHeight s mid v)) = 0 := rfl
        have hr0 : opHitR k (Op.query v, decide (0 < vHeight s mid v)) = 0 := rfl
        rw [ha0, hr0]
        simpa using hq
    | add v lvl =>
      have hb : opWF (Op.add v lvl) = true := hopwf
      simp only [opWF, Bool.and_eq_true, decide_eq_true_eq] at hb
      obtain ⟨⟨⟨hv1, hv3⟩, hl1⟩, hl2⟩ := hb
      by_cases hH : vHeight s mid v = 0
      · obtain ⟨sIns, heq, hstructIns, hlenIns, hnlenIns, hmidlenIns, hkeyNew, hvalNew,
            hhNew, hothers⟩ := Set_spec_insert hstruct 0 lvl hv1 hv3 hl1 hl2 hH
        have hmidsplit : mid.takeWhile (fun m => decide (keyOf s m < v))
            ++ mid.dropWhile (fun m => decide (keyOf s m < v)) = mid :=
          List.takeWhile_append_dropWhile _ _
        have hmemIns : ∀ m, m ∈ (mid.takeWhile (fun m => decide (keyOf s m < v))) ++
            s.nodes.length :: (mid.dropWhile (fun m => decide (keyOf s m < v))) ↔
            (m = s.nodes.length ∨ m ∈ mid) := by
          intro m
          constructor
          · intro hm
            rcases List.mem_append.mp hm with h1 | h2
            · right
              rw [← hmidsplit]
              exact List.mem_append.mpr (Or.inl h1)
            · rcases List.mem_cons.mp h2 with h3 | h4
              · left; exact h3
              · right
                rw [← hmidsplit]
                exact List.mem_append.mpr (Or.inr h4)
          · intro hm
            rcases hm with rfl | h2
            · exact List.mem_append.mpr (Or.inr (by simp))
            · rw [← hmidsplit] at h2
              rcases List.mem_append.mp h2 with h3 | h4
              · exact List.mem_append.mpr (Or.inl h3)
              · exact List.mem_append.mpr (Or.inr (by simp [h4]))
        have hvins : vHeight sIns ((mid.takeWhile (fun m => decide (keyOf s m < v))) ++
            s.nodes.length :: (mid.dropWhile (fun m => decide (keyOf s m < v)))) v ≠ 0 := by
          intro hc
          exact ((vHeight_eq_zero_iff hstructIns v).mp hc).2 s.nodes.length
            ((hmemIns _).mpr (Or.inl rfl)) hkeyNew
        have hpres : ∀ k, k ≠ v →
            (vHeight sIns ((mid.takeWhile (fun m => decide (keyOf s m < v))) ++
              s.nodes.length :: (mid.dropWhile (fun m => decide (keyOf s m < v)))) k = 0 ↔
             vHeight s mid k = 0) := by
          intro k hkv
          rw [vHeight_eq_zero_iff hstructIns, vHeight_eq_zero_iff hstruct]
          constructor
          · rintro ⟨hkm, hall⟩
            refine ⟨hkm, ?_⟩
            intro m hm
            have hmlt : m < s.nodes.length := (hstruct.mid_ok m hm).1
            have hone := hall m ((hmemIns m).mpr (Or.inr hm))
            rw [(hothers m (by omega)).1] at hone
            exact hone
          · rintro ⟨hkm, hall⟩
            refine ⟨hkm, ?_⟩
            intro m hm
            rcases (hmemIns m).mp hm with rfl | hm2
            · rw [hkeyNew]
              exact fun hc => hkv hc.symm
            · have hmlt : m < s.nodes.length := (hstruct.mid_ok m hm2).1
              rw [(hothers m (by omega)).1]
              exact hall m hm2
        have hop_eq : runOp s (Op.add v lvl) = some (sIns, true) := heq
        have hstep : runTrace s (Op.add v lvl :: rest) = (match runTrace sIns rest with
            | none => none
            | some (s2, res) => some (s2, (Op.add v lvl, true) :: res)) := by
          show (match runOp s (Op.add v lvl) with
            | none => none
            | some (s1, b) =>
              match runTrace s1 rest with
              | none => none
              | some (s2, res) => some (s2, (Op.add v lvl, b) :: res)) = _
          rw [hop_eq]
        rw [hstep] at hrun
        cases hrec : runTrace sIns rest with
        | none =>
          rw [hrec] at hrun
          exact Option.noConfusion hrun
        | some p =>
          obtain ⟨s3, res3⟩ := p
          rw [hrec] at hrun
          have hrun2 : some (s3, (Op.add v lvl, true) :: res3) = some (s2, res) := hrun
          obtain ⟨hs3, hres⟩ := Prod.mk.injEq .. ▸ Option.some.injEq .. ▸ hrun2
          subst hs3
          subst hres
          obtain ⟨mid2, hstruct2, hbody⟩ := ih sIns _ hstructIns hrestwf s3 res3 hrec
          refine ⟨mid2, hstruct2, ?_⟩
          intro k hk1 hk3
          have hq := hbody k hk1 hk3
          rw [cntA_cons, cntR_cons]
          have hr0 : opHitR k (Op.add v lvl, true) = 0 := rfl
          rw [hr0]
          by_cases hkv : k = v
          · rw [hkv]
            rw [hkv] at hq
            have ha1 : opHitA v (Op.add v lvl, true) = 1 := by
              show (if v = v ∧ true = true then 1 else 0) = 1
              rw [if_pos ⟨rfl, rfl⟩]
            rw [ha1]
            rw [if_pos hH]
            rw [if_neg hvins] at hq
            obtain ⟨hA, hB, hIff⟩ := hq
            refine ⟨by omega, by omega, ?_⟩
            rw [hIff]
            constructor
            · intro hcc; omega
            · intro hcc; omega
          · have ha0 : opHitA k (Op.add v lvl, true) = 0 := by
              show (if v = k ∧ true = true then 1 else 0) = 0
              rw [if_neg (fun hc => hkv hc.1.symm)]
            rw [ha0]
            by_cases hk0 : vHeight s mid k = 0
            · rw [if_pos hk0]
              rw [if_pos ((hpres k hkv).mpr hk0)] at hq
              simpa using hq
            · rw [if_neg hk0]
              rw [if_neg (fun hc => hk0 ((hpres k hkv).mp hc))] at hq
              simpa using hq
      · obtain ⟨m0, n, hm0eq, hn, hkeym0, heq, hstructF, hlenF, hvalF⟩ :=
          Set_spec_found hstruct 0 lvl hv1 (le_of_lt hv3) hH
        have hcongr := @setNodeAt_congr_fields s m0 n { n with value := 0 }
          hn rfl rfl rfl rfl
        have hvh : ∀ k2, vHeight (setNodeAt s m0 { n with value := 0 }) mid k2
            = vHeight s mid k2 := fun k2 =>
          vHeight_congr hcongr.1 hcongr.2.1 mid k2
        have hop_eq : runOp s (Op.add v lvl)
            = some (setNodeAt s m0 { n with value := 0 }, false) := heq
        have hstep : runTrace s (Op.add v lvl :: rest) =
            (match runTrace (setNodeAt s m0 { n with value := 0 }) rest with
            | none => none
            | some (s2, res) => some (s2, (Op.add v lvl, false) :: res)) := by
          show (match runOp s (Op.add v lvl) with
            | none => none
            | some (s1, b) =>
              match runTrace s1 rest with
              | none => none
              | some (s2, res) => some (s2, (Op.add v lvl, b) :: res)) = _
          rw [hop_eq]
        rw [hstep] at hrun
        cases hrec : runTrace (setNodeAt s m0 { n with value := 0 }) rest with
        | none =>
          rw [hrec] at hrun
          exact Option.noConfusion hrun
        | some p =>
          obtain ⟨s3, res3⟩ := p
          rw [hrec] at hrun
          have hrun2 : some (s3, (Op.add v lvl, false) :: res3) = some (s2, res) := hrun
          obtain ⟨hs3, hres⟩ := Prod.mk.injEq .. ▸ Option.some.injEq .. ▸ hrun2
          subst hs3
          subst hres
          obtain ⟨mid2, hstruct2, hbody⟩ := ih _ mid hstructF hrestwf s3 res3 hrec
          refine ⟨mid2, hstruct2, ?_⟩
          intro k hk1 hk3
          have hq := hbody k hk1 hk3
          rw [hvh k] at hq
          rw [cntA_cons, cntR_cons]
          have hr0 : opHitR k (Op.add v lvl, false) = 0 := rfl
          have ha0 : opHitA k (Op.add v lvl, false) = 0 := by
            show (if v = k ∧ false = true then 1 else 0) = 0
            rw [if_neg (by simp)]
          rw [hr0, ha0]
          simpa using hq
    | del v =>
      have hb : opWF (Op.del v) = true := hopwf
      simp only [opWF, Bool.and_eq_true, decide_eq_true_eq] at hb
      obtain ⟨hv1, hv3⟩ := hb
      by_cases hH : vHeight s mid v = 0
      · have heq := Remove_spec_absent hstruct hv1 (le_of_lt hv3) hH
        have hop_eq : runOp s (Op.del v) = some (s, false) := heq
        have hstep : runTrace s (Op.del v :: rest) = (match runTrace s rest with
            | none => none
            | some (s2, res) => some (s2, (Op.del v, false) :: res)) := by
          show (match runOp s (Op.del v) with
            | none => none
            | some (s1, b) =>
              match runTrace s1 rest with
              | none => none
              | some (s2, res) => some (s2, (Op.del v, b) :: res)) = _
          rw [hop_eq]
        rw [hstep] at hrun
        cases hrec : runTrace s rest with
        | none =>
          rw [hrec] at hrun
          exact Option.noConfusion hrun
        | some p =>
          obtain ⟨s3, res3⟩ := p
          rw [hrec] at hrun
          have hrun2 : some (s3, (Op.del v, false) :: res3) = some (s2, res) := hrun
          obtain ⟨hs3, hres⟩ := Prod.mk.injEq .. ▸ Option.some.injEq .. ▸ hrun2
          subst hs3
          subst hres
          obtain ⟨mid2, hstruct2, hbody⟩ := ih s mid hstruct hrestwf s3 res3 hrec
          refine ⟨mid2, hstruct2, ?_⟩
          intro k hk1 hk3
          have hq := hbody k hk1 hk3
          rw [cntA_cons, cntR_cons]
          have ha0 : opHitA k (Op.del v, false) = 0 := rfl
          have hr0 : opHitR k (Op.del v, false) = 0 := by
            show (if v = k ∧ false = true then 1 else 0) = 0
            rw [if_neg (by simp)]
          rw [ha0, hr0]
          simpa using hq
      · obtain ⟨sR, m0, midR, hdrop, hkeym0, heq, hstructR, hlenR, hnlenR, hmidlenR,
            hkeysR, hvalsR⟩ := Remove_spec_present hstruct hv1 hv3 hH
        have hmidsplit : mid.takeWhile (fun m => decide (keyOf s m < v))
            ++ mid.dropWhile (fun m => decide (keyOf s m < v)) = mid :=
          List.takeWhile_append_dropWhile _ _
        have hsplit_eq : (mid.takeWhile (fun m => decide (keyOf s m < v)))
            ++ m0 :: midR = mid := by
          rw [← hdrop]
          exact hmidsplit
        have hsorted2 : List.Pairwise (fun a b => keyOf s a < keyOf s b)
            ((mid.takeWhile (fun m => decide (keyOf s m < v))) ++ m0 :: midR) :=
          hsplit_eq.symm ▸ mid_sorted hstruct
        have hmidRgt : ∀ m ∈ midR, v < keyOf s m := by
          have h2 := (List.pairwise_append.mp hsorted2).2.1
          have h3 := (List.pairwise_cons.mp h2).1
          intro m hm
          have h4 := h3 m hm
          rw [hkeym0] at h4
          exact h4
        have hvrem : vHeight sR ((mid.takeWhile (fun m => decide (keyOf s m < v)))
            ++ midR) v = 0 := by
          rw [vHeight_eq_zero_iff hstructR]
          refine ⟨ne_of_lt hv3, ?_⟩
          intro m hm
          rw [hkeysR m]
          rcases List.mem_append.mp hm with h1 | h2
          · exact ne_of_lt (by have := List.mem_takeWhile_imp h1; simpa using this)
          · exact ne_of_gt (hmidRgt m h2)
        have hmemRem : ∀ m, m ∈ mid ↔ (m = m0 ∨
            m ∈ (mid.takeWhile (fun m => decide (keyOf s m < v))) ++ midR) := by
          intro m
          constructor
          · intro hm
            rw [← hsplit_eq] at hm
            rcases List.mem_append.mp hm with h1 | h2
            · right; exact List.mem_append.mpr (Or.inl h1)
            · rcases List.mem_cons.mp h2 with h3 | h4
              · left; exact h3
              · right; exact List.mem_append.mpr (Or.inr h4)
          · intro hm
            rw [← hsplit_eq]
            rcases hm with rfl | h2
            · exact List.mem_append.mpr (Or.inr (by simp))
            · rcases List.mem_append.mp h2 with h3 | h4
              · exact List.mem_append.mpr (Or.inl h3)
              · exact List.mem_append.mpr (Or.inr (by simp [h4]))
        have hpres : ∀ k, k ≠ v →
            (vHeight sR ((mid.takeWhile (fun m => decide (keyOf s m < v))) ++ midR) k = 0 ↔
             vHeight s mid k = 0) := by
          intro k hkv
          rw [vHeight_eq_zero_iff hstructR, vHeight_eq_zero_iff hstruct]
          constructor
          · rintro ⟨hkm, hall⟩
            refine ⟨hkm, ?_⟩
            intro m hm
            rcases (hmemRem m).mp hm with rfl | h2
            · rw [hkeym0]
              exact fun hc => hkv hc.symm
            · rw [← hkeysR m]
              exact hall m h2
          · rintro ⟨hkm, hall⟩
            refine ⟨hkm, ?_⟩
            intro m hm
            rw [hkeysR m]
            exact hall m ((hmemRem m).mpr (Or.inr hm))
        have hop_eq : runOp s (Op.del v) = some (sR, true) := heq
        have hstep : runTrace s (Op.del v :: rest) = (match runTrace sR rest with
            | none => none
            | some (s2, res) => some (s2, (Op.del v, true) :: res)) := by
          show (match runOp s (Op.del v) with
            | none => none
            | some (s1, b) =>
              match runTrace s1 rest with
              | none => none
              | some (s2, res) => some (s2, (Op.del v, b) :: res)) = _
          rw [hop_eq]
        rw [hstep] at hrun
        cases hrec : runTrace sR rest with
        | none =>
          rw [hrec] at hrun
          exact Option.noConfusion hrun
        | some p =>
          obtain ⟨s3, res3⟩ := p
          rw [hrec] at hrun
          have hrun2 : some (s3, (Op.del v, true) :: res3) = some (s2, res) := hrun
          obtain ⟨hs3, hres⟩ := Prod.mk.injEq .. ▸ Option.some.injEq .. ▸ hrun2
          subst hs3
          subst hres
          obtain ⟨mid2, hstruct2, hbody⟩ := ih sR _ hstructR hrestwf s3 res3 hrec
          refine ⟨mid2, hstruct2, ?_⟩
          intro k hk1 hk3
          have hq := hbody k hk1 hk3
          rw [cntA_cons, cntR_cons]
          have ha0 : opHitA k (Op.del v, true) = 0 := rfl
          rw [ha0]
          by_cases hkv : k = v
          · rw [hkv]
            rw [hkv] at hq
            have hr1 : opHitR v (Op.del v, true) = 1 := by
              show (if v = v ∧ true = true then 1 else 0) = 1
              rw [if_pos ⟨rfl, rfl⟩]
            rw [hr1]
            rw [if_neg hH]
            rw [if_pos hvrem] at hq
            obtain ⟨hA, hB, hIff⟩ := hq
            refine ⟨by omega, by omega, ?_⟩
            rw [hIff]
            constructor
            · intro hcc; omega
            · intro hcc; omega
          · have hr0 : opHitR k (Op.del v, true) = 0 := by
              show (if v = k ∧ true = true then 1 else 0) = 0
              rw [if_neg (fun hc => hkv hc.1.symm)]
            rw [hr0]
            by_cases hk0 : vHeight s mid k = 0
            · rw [if_pos hk0]
              rw [if_pos ((hpres k hkv).mpr hk0)] at hq
              simpa using hq
            · rw [if_neg hk0]
              rw [if_neg (fun hc => hk0 ((hpres k hkv).mp hc))] at hq
              simpa using hq

/-- Follow the layer-`layer` forward pointers from node `x` until the right
sentinel, collecting the nodes encountered; fuel-bounded, `none` on a nil
pointer, a dangling index or fuel exhaustion. -/
def chainWalk (s : Header) (layer : Nat) : Nat → Nat → Option (List Nat)
  | 0, _ => none
  | fuel+1, x =>
    if x = s.rightSentinel then some [x]
    else
      match nextAt s x layer with
      | some (some y) => (chainWalk s layer fuel y).map (fun l => x :: l)
      | _ => none

theorem chainWalk_spec {s : Header} {layer : Nat} :
    ∀ (c : List Nat) (x : Nat) (fuel : Nat),
      List.Chain' (ChainRel s layer) (x :: c) →
      (x :: c).getLast? = some s.rightSentinel →
      (x :: c).Nodup →
      c.length < fuel →
      chainWalk s layer fuel x = some (x :: c) := by
  intro c
  induction c with
  | nil =>
    intro x fuel _ hlast _ hfuel
    obtain ⟨f, rfl⟩ : ∃ f, fuel = f + 1 := ⟨fuel - 1, by omega⟩
    have hx : x = s.rightSentinel := by simpa using hlast
    show (if x = s.rightSentinel then some [x] else _) = some [x]
    rw [if_pos hx]
  | cons y c2 ih =>
    intro x fuel hchain hlast hnd hfuel
    obtain ⟨f, rfl⟩ : ∃ f, fuel = f + 1 := ⟨fuel - 1, by omega⟩
    have hlast2 : (y :: c2).getLast? = some s.rightSentinel := by
      rw [List.getLast?_cons_cons] at hlast
      exact hlast
    have hxne : x ≠ s.rightSentinel := by
      intro hc
      have hrmem : s.rightSentinel ∈ y :: c2 := List.mem_of_getLast?_eq_some hlast2
      have hxnot : x ∉ y :: c2 := (List.nodup_cons.mp hnd).1
      rw [hc] at hxnot
      exact hxnot hrmem
    have hrel : ChainRel s layer x y := (List.chain'_cons.mp hchain).1
    have hrec := ih y f (List.chain'_cons.mp hchain).2 hlast2 (List.nodup_cons.mp hnd).2
      (by simp at hfuel ⊢; omega)
    show (if x = s.rightSentinel then some [x]
      else
        match nextAt s x layer with
        | some (some y) => (chainWalk s layer f y).map (fun l => x :: l)
        | _ => none) = some (x :: y :: c2)
    rw [if_neg hxne]
    rw [show nextAt s x layer = some (some y) from hrel]
    show (chainWalk s layer f y).map (fun l => x :: l) = some (x :: y :: c2)
    rw [hrec]
    rfl

/-- On an invariant-satisfying state, the pointer walk from the left
sentinel at any layer visits exactly the expected chain. -/
theorem chainWalk_levChain {s : Header} {mid : List Nat} (h : StructOk s mid)
    {layer : Nat} (hlayer : layer < maxlevel) :
    chainWalk s layer (s.nodes.length + 1) s.leftSentinel
      = some (levChain s mid layer) := by
  have hlen := h.levChain_length layer
  have hlen2 : (levChain s mid layer).length =
      ((mid.filter (fun m => decide (layer < heightOf s m))) ++ [s.rightSentinel]).length
        + 1 := by
    unfold levChain
    simp
  apply chainWalk_spec
  · exact h.chains layer hlayer
  · show ((s.leftSentinel :: (mid.filter (fun m => decide (layer < heightOf s m))))
      ++ [s.rightSentinel]).getLast? = some s.rightSentinel
    exact List.getLast?_concat _
  · exact nodup_levChain h layer
  · omega

/-- Abstract snapshot of what the insertion validation loop of `Set` (first
variant) and `Add` (second variant) reads: the per-layer predecessor and
successor ids recorded by the search, each node's `marked` flag and its
forward pointer per layer.  Only the lock bookkeeping is modelled: `locked`
accumulates the nodes whose `lock.Lock()` ran, in order. -/
structure LockEnv where
  preds : Nat → Nat
  succs : Nat → Nat
  marked : Nat → Bool
  nextp : Nat → Nat → Option Nat

/-- The validation loop shared by `Set` (bound `layer <= topLayer`) and
`Add` (bound `layer < topLayer`): lock the predecessor when it differs from
the previous layer's, record `highestLocked`, validate, and stop on the
first invalid layer.  `rem` is the number of layers still to process;
returns `(valid, highestLocked, locked)`. -/
def insLockLoop (e : LockEnv) : Nat → Nat → Option Nat → Int → List Nat →
    Bool × Int × List Nat
  | _, 0, _, hl, locked => (true, hl, locked)
  | layer, rem+1, prevPred, hl, locked =>
    let pred := e.preds layer
    let succ := e.succs layer
    if some pred ≠ prevPred then
      if !e.marked pred && !e.marked succ && (e.nextp pred layer == some succ) then
        insLockLoop e (layer+1) rem (some pred) (layer : Int) (locked ++ [pred])
      else (false, (layer : Int), locked ++ [pred])
    else
      if !e.marked pred && !e.marked succ && (e.nextp pred layer == some succ) then
        insLockLoop e (layer+1) rem prevPred hl locked
      else (false, hl, locked)

/-- `nodeSlice.unlock(highest)` of the first variant: walk layers
`highest .. 0` and unlock each predecessor once per consecutive run;
returns the list of unlocked nodes.  `rem` counts remaining iterations
(`i+1` when starting at layer `i`). -/
def sliceUnlock (e : LockEnv) : Nat → Nat → Option Nat → List Nat
  | 0, _, _ => []
  | rem+1, i, prev =>
    let curr := e.preds i
    if some curr ≠ prev then curr :: sliceUnlock e rem (i-1) (some curr)
    else sliceUnlock e rem (i-1) prev

/-- `unlock(preds, highestLocked)` of the second variant: unlock
`preds[0] .. preds[highestLocked]` unconditionally (run on the success path
only). -/
def addUnlock (e : LockEnv) (highestLocked : Int) : List Nat :=
  (List.range (highestLocked + 1).toNat).map e.preds

/-- First variant, failed validation: `Set` runs
`preds.unlock(highestLocked)` and then `continue`; the result is the list
of predecessor locks still held when the retry restarts (`none` when
validation succeeded and no retry happens). -/
def setRetryHeld (e : LockEnv) (topLayer : Nat) : Option (List Nat) :=
  match insLockLoop e 0 (topLayer+1) none (-1) [] with
  | (true, _, _) => none
  | (false, hl, locked) =>
    some (locked.filter (fun x =>
      !((sliceUnlock e (hl+1).toNat hl.toNat none).contains x)))

/-- Second variant, failed validation: `Add` runs a bare `continue` with no
unlock; the result is the list of predecessor locks still held when the
retry restarts. -/
def addRetryHeld (e : LockEnv) (topLayer : Nat) : Option (List Nat) :=
  match insLockLoop e 0 topLayer none (-1) [] with
  | (true, _, _) => none
  | (false, _, locked) => some locked

/-- Every lock the validation loop acquired belongs to a layer at most
`highestLocked`. -/
theorem insLockLoop_locked_spec (e : LockEnv) :
    ∀ (rem layer : Nat) (prevPred : Option Nat) (hl : Int) (locked : List Nat)
      (hl2 : Int) (locked2 : List Nat),
      hl < (layer : Int) →
      (∀ x ∈ locked, ∃ i : Nat, (i : Int) ≤ hl ∧ e.preds i = x) →
      insLockLoop e layer rem prevPred hl locked = (false, hl2, locked2) →
      (∀ x ∈ locked2, ∃ i : Nat, (i : Int) ≤ hl2 ∧ e.preds i = x) := by
  intro rem
  induction rem with
  | zero =>
    intro layer prevPred hl locked hl2 locked2 _ _ hres
    have hfst : (true : Bool) = false := congrArg Prod.fst hres
    exact Bool.noConfusion hfst
  | succ rem ih =>
    intro layer prevPred hl locked hl2 locked2 hlt hinv hres
    have hres2 : (if some (e.preds layer) ≠ prevPred then
        (if !e.marked (e.preds layer) && !e.marked (e.succs layer)
            && (e.nextp (e.preds layer) layer == some (e.succs layer)) then
          insLockLoop e (layer+1) rem (some (e.preds layer)) (layer : Int)
            (locked ++ [e.preds layer])
        else (false, (layer : Int), locked ++ [e.preds layer]))
      else
        (if !e.marked (e.preds layer) && !e.marked (e.succs layer)
            && (e.nextp (e.preds layer) layer == some (e.succs layer)) then
          insLockLoop e (layer+1) rem prevPred hl locked
        else (false, hl, locked))) = (false, hl2, locked2) := hres
    have hinv2 : ∀ x ∈ locked ++ [e.preds layer],
        ∃ i : Nat, (i : Int) ≤ (layer : Int) ∧ e.preds i = x := by
      intro x hx
      rcases List.mem_append.mp hx with h1 | h2
      · obtain ⟨i, hi1, hi2⟩ := hinv x h1
        exact ⟨i, by omega, hi2⟩
      · rw [List.mem_singleton.mp h2]
        exact ⟨layer, le_refl _, rfl⟩
    by_cases hne : some (e.preds layer) ≠ prevPred
    · rw [if_pos hne] at hres2
      by_cases hv : (!e.marked (e.preds layer) && !e.marked (e.succs layer)
          && (e.nextp (e.preds layer) layer == some (e.succs layer))) = true
      · rw [if_pos hv] at hres2
        exact ih (layer+1) (some (e.preds layer)) (layer : Int)
          (locked ++ [e.preds layer]) hl2 locked2 (by push_cast; omega) hinv2 hres2
      · rw [if_neg hv] at hres2
        obtain ⟨hb, hrest⟩ := Prod.mk.injEq .. ▸ hres2
        obtain ⟨hhl, hlk⟩ := Prod.mk.injEq .. ▸ hrest
        intro x hx
        rw [← hlk] at hx
        obtain ⟨i, hi1, hi2⟩ := hinv2 x hx
        exact ⟨i, by omega, hi2⟩
    · rw [if_neg hne] at hres2
      by_cases hv : (!e.marked (e.preds layer) && !e.marked (e.succs layer)
          && (e.nextp (e.preds layer) layer == some (e.succs layer))) = true
      · rw [if_pos hv] at hres2
        exact ih (layer+1) prevPred hl locked hl2 locked2 (by push_cast; omega) hinv hres2
      · rw [if_neg hv] at hres2
        obtain ⟨hb, hrest⟩ := Prod.mk.injEq .. ▸ hres2
        obtain ⟨hhl, hlk⟩ := Prod.mk.injEq .. ▸ hrest
        intro x hx
        rw [← hlk] at hx
        obtain ⟨i, hi1, hi2⟩ := hinv x hx
        exact ⟨i, by omega, hi2⟩

/-- Every predecessor of a layer in the unlocked range is released by
`nodeSlice.unlock` (or coincides with the node `prev` already released). -/
theorem sliceUnlock_covers (e : LockEnv) :
    ∀ (rem i : Nat) (prev : Option Nat) (j : Nat),
      j ≤ i → i < j + rem →
      (e.preds j ∈ sliceUnlock e rem i prev ∨ prev = some (e.preds j)) := by
  intro rem
  induction rem with
  | zero =>
    intro i prev j h1 h2
    omega
  | succ rem ih =>
    intro i prev j h1 h2
    show e.preds j ∈ (if some (e.preds i) ≠ prev
        then e.preds i :: sliceUnlock e rem (i-1) (some (e.preds i))
        else sliceUnlock e rem (i-1) prev) ∨ prev = some (e.preds j)
    by_cases hij : j = i
    · subst hij
      by_cases hne : some (e.preds j) ≠ prev
      · rw [if_pos hne]
        left
        exact List.mem_cons_self _ _
      · right
        exact (not_ne_iff.mp hne).symm
    · have hj : j ≤ i - 1 := by omega
      have hlt2 : i - 1 < j + rem := by omega
      by_cases hne : some (e.preds i) ≠ prev
      · rw [if_pos hne]
        rcases ih (i-1) (some (e.preds i)) j hj hlt2 with hmem | hprev
        · left
          exact List.mem_cons_of_mem _ hmem
        · left
          rw [List.mem_cons]
          left
          have := Option.some.injEq .. ▸ hprev
          exact this.symm
      · rw [if_neg hne]
        rcases ih (i-1) prev j hj hlt2 with hmem | hprev
        · left; exact hmem
        · right; exact hprev

/-- The first variant releases every lock it acquired before retrying: the
held set at the `continue` after a failed validation is empty. -/
theorem setRetryHeld_empty (e : LockEnv) (topLayer : Nat) (held : List Nat)
    (h : setRetryHeld e topLayer = some held) : held = [] := by
  unfold setRetryHeld at h
  cases hres : insLockLoop e 0 (topLayer+1) none (-1) [] with
  | mk valid p =>
    obtain ⟨hl, locked⟩ := p
    rw [hres] at h
    cases valid with
    | true => exact Option.noConfusion h
    | false =>
      have hlocked := insLockLoop_locked_spec e (topLayer+1) 0 none (-1) [] hl locked
        (by norm_num) (by simp) hres
      have h2 : some (locked.filter (fun x =>
          !((sliceUnlock e (hl+1).toNat hl.toNat none).contains x))) = some held := h
      have h3 := Option.some.injEq .. ▸ h2
      rw [← h3]
      rw [List.filter_eq_nil_iff]
      intro x hx
      obtain ⟨i, hile, hpx⟩ := hlocked x hx
      have hhl0 : (0 : Int) ≤ hl := by omega
      have hcov := sliceUnlock_covers e (hl+1).toNat hl.toNat none i (by omega) (by omega)
      rcases hcov with hmem | hprev
      · rw [← hpx]
        simp only [Bool.not_eq_true, Bool.not_eq_false]
        simpa using hmem
      · exact Option.noConfusion hprev

/-- A snapshot on which validation fails at layer 0 (the successor is
marked) after the predecessor lock at node 10 has been taken. -/
def leakEnv : LockEnv :=
  { preds := fun _ => 10, succs := fun _ => 20,
    marked := fun x => x == 20, nextp := fun _ _ => some 20 }

/-- C1 (amended): `generateLevel` always returns a tower height in the
range `[1, 31]`, and for every `k` in that range the flip sequences giving
height at least `k` are exactly a `2^-(k-1)` fraction of all sequences
(counted over the 30 coin flips the loop can consume): the geometric law
`P(height >= k) = p^(k-1)` holds for `k = 1..31` with the tail absorbed at
31 — not at `MAX_LEVEL = 32`, which the loop bound `level < maxLevel-1`
makes unreachable. -/
theorem C1_theorem (flips : Nat → Bool) (k : Nat) (h1 : 1 ≤ k) (h2 : k ≤ 31) :
    1 ≤ generateLevel maxlevel flips ∧ generateLevel maxlevel flips ≤ 31 ∧
    (Finset.univ.filter (fun f : Fin 30 → Bool =>
        k ≤ generateLevel maxlevel (fun i => if h : i < 30 then f ⟨i, h⟩ else false))).card
      * 2 ^ (k - 1) = 2 ^ 30 :=
  ⟨generateLevel_ge_1 flips, generateLevel_le_31 flips, generateLevel_tail_count k h1 h2⟩

/-- C1 witness: the amended statement at the all-false flip stream and
`k = 1`. -/
theorem C1_witness : 1 ≤ 1 ∧ 1 ≤ 31 ∧
    (1 ≤ generateLevel maxlevel (fun _ => false) ∧
      generateLevel maxlevel (fun _ => false) ≤ 31 ∧
      (Finset.univ.filter (fun f : Fin 30 → Bool =>
          1 ≤ generateLevel maxlevel (fun i => if h : i < 30 then f ⟨i, h⟩ else false))).card
        * 2 ^ (1 - 1) = 2 ^ 30) :=
  ⟨by decide, by decide, C1_theorem (fun _ => false) 1 (by decide) (by decide)⟩

/-- C1 counterexample: contrary to the claim's tail clause,
`MAX_LEVEL = 32` is not returned even on the all-heads flip sequence, the
only one that could reach it: the loop
`for level = 1; level < maxLevel-1 && flipCoin(); level++` caps the result
at 31 (`generateLevel_le_31` proves the cap for every sequence). -/
theorem C1_counterexample :
    generateLevel maxlevel (fun _ => true) = 31 := by decide

/-- C3: after any single-threaded sequence of Set/Remove calls from a fresh
list, at every level the walk along `forward[i]` from the left sentinel
terminates, visits strictly ascending keys, and ends at the right
sentinel. -/
theorem C3_theorem {s : Header} (hr : Reachable s) (layer : Nat)
    (hlayer : layer < maxlevel) :
    ∃ l, chainWalk s layer (s.nodes.length + 1) s.leftSentinel = some l ∧
      List.Pairwise (fun a b => keyOf s a < keyOf s b) l ∧
      l.getLast? = some s.rightSentinel := by
  obtain ⟨mid, hstruct, _⟩ := reachable_inv hr
  refine ⟨levChain s mid layer, chainWalk_levChain hstruct hlayer,
    hstruct.levChain_sorted layer, ?_⟩
  show ((s.leftSentinel :: (mid.filter (fun m => decide (layer < heightOf s m))))
    ++ [s.rightSentinel]).getLast? = _
  exact List.getLast?_concat _

/-- C3 witness: the fresh list at level 0. -/
theorem C3_witness : (0 : Nat) < maxlevel ∧
    (∃ l, chainWalk New 0 (New.nodes.length + 1) New.leftSentinel = some l ∧
      List.Pairwise (fun a b => keyOf New a < keyOf New b) l ∧
      l.getLast? = some New.rightSentinel) :=
  ⟨by decide, C3_theorem Reachable.init 0 (by decide)⟩

/-- C7: the `Set` variant releases every predecessor lock it acquired
before its validation-failure retry (`preds.unlock(highestLocked)` before
`continue`), but the `Add` variant reaches its retry by a bare `continue`
with the acquired locks intact: on `leakEnv` (validation fails at layer 0
with the lock on node 10 held) the held list at the retry is `[10]`. -/
theorem C7_theorem :
    (∀ (e : LockEnv) (topLayer : Nat) (held : List Nat),
      setRetryHeld e topLayer = some held → held = []) ∧
    addRetryHeld leakEnv 1 = some [10] :=
  ⟨setRetryHeld_empty, rfl⟩

/-- C7 witness: the Set half applied on `leakEnv`, where a retry does
happen and the held list is empty. -/
theorem C7_witness : setRetryHeld leakEnv 1 = some [] ∧ ([] : List Nat) = [] :=
  ⟨rfl, C7_theorem.1 leakEnv 1 [] rfl⟩

/-- C9: on every reachable list, the fresh one included, `Contains` of the
right-sentinel key `math.MaxInt32` answers true although that key was never
inserted: `findNode` matches the sentinel, which is permanently
`fullyLinked` and never marked. -/
theorem C9_theorem {s : Header} (hr : Reachable s) :
    Contains s maxKey = some true := by
  obtain ⟨mid, hstruct, _⟩ := reachable_inv hr
  rw [Contains_spec hstruct (by norm_num [minKey, maxKey]) (le_refl _)]
  have hvh : vHeight s mid maxKey = maxlevel := by
    unfold vHeight
    rw [if_pos rfl]
  rw [hvh]
  rfl

/-- C9 witness: the freshly created empty list. -/
theorem C9_witness : Contains New maxKey = some true :=
  C9_theorem Reachable.init

/-- C10: `Initialize` replaces both sentinels but leaves the `length` field
unchanged: afterwards `Contains` is false for every user key while `Len`
still reports the old count. -/
theorem C10_theorem (s : Header) :
    Len (Initialize s) = Len s ∧
    (∀ k, minKey < k → k < maxKey → Contains (Initialize s) k = some false) := by
  refine ⟨rfl, ?_⟩
  intro k hk1 hk3
  rw [Contains_spec (structOk_Initialize s) hk1 (le_of_lt hk3)]
  rw [vHeight_nil (ne_of_lt hk3)]
  rfl

/-- C10 witness: re-initializing the fresh list; key 0 reads absent and the
length is carried over. -/
theorem C10_witness : Len (Initialize New) = Len New ∧
    Contains (Initialize New) 0 = some false :=
  ⟨(C10_theorem New).1, (C10_theorem New).2 0 (by decide) (by decide)⟩

/-- C2 (amended): after any single-threaded trace of well-formed add /
remove / contains calls from a fresh list, `contains(k)` is true iff the
completed `add(k)` calls that returned `true` outnumber the completed
`remove(k)` calls that returned `true` — the counts of successful calls,
not of all completed calls (see the counterexample for the latter). -/
theorem C2_theorem (ops : List Op) (hwf : ∀ op ∈ ops, opWF op = true)
    (s2 : Header) (res : List (Op × Bool)) (hrun : runTrace New ops = some (s2, res))
    (k : Int) (hk1 : minKey < k) (hk3 : k < maxKey) :
    Contains s2 k = some (decide (cntR k res < cntA k res)) := by
  obtain ⟨mid2, hstruct2, hbody⟩ :=
    runTrace_spec ops New [] (structOk_Initialize _) hwf s2 res hrun
  have hq := hbody k hk1 hk3
  rw [if_pos (vHeight_nil (ne_of_lt hk3))] at hq
  obtain ⟨hA, hB, hIff⟩ := hq
  rw [Contains_spec hstruct2 hk1 (le_of_lt hk3)]
  exact congrArg some (decide_eq_decide.mpr hIff)

/-- C2 witness: the empty trace and key 0. -/
theorem C2_witness :
    (∀ op ∈ ([] : List Op), opWF op = true) ∧
    runTrace New [] = some (New, []) ∧
    minKey < (0 : Int) ∧ (0 : Int) < maxKey ∧
    Contains New 0 = some (decide (cntR 0 [] < cntA 0 [])) :=
  ⟨by simp, rfl, by decide, by decide,
    C2_theorem [] (by simp) New [] rfl 0 (by decide) (by decide)⟩

/-- C2 counterexample: the trace add(0); add(0); remove(0) completes two
`add(0)` calls and one `remove(0)` call, so the claim's count-of-completed-
calls criterion says contains(0) should be true, yet it is false: the
second add found the key present and did not insert. -/
theorem C2_counterexample :
    tracedContains [Op.add 0 1, Op.add 0 1, Op.del 0] 0 = some false ∧
    cntDelCalls 0 [Op.add 0 1, Op.add 0 1, Op.del 0]
      < cntAddCalls 0 [Op.add 0 1, Op.add 0 1, Op.del 0] :=
  ⟨rfl, by decide⟩

/-- C8 (amended): in any reachable quiescent state, `len()` equals the
number of user keys (strictly between the sentinel keys) on which
`contains` answers true.  The restriction matters: the right-sentinel key
`MaxInt32` always answers true without being counted, so the unqualified
cardinality statement fails (see the counterexample). -/
theorem C8_theorem {s : Header} (hr : Reachable s) :
    ∃ S : Finset Int, S.card = Len s ∧
      (∀ k ∈ S, minKey < k ∧ k < maxKey) ∧
      (∀ k, minKey < k → k < maxKey → (Contains s k = some true ↔ k ∈ S)) := by
  obtain ⟨mid, hstruct, hlen⟩ := reachable_inv hr
  have hnd : (mid.map (keyOf s)).Nodup := by
    have hpw : List.Pairwise (fun a b : Int => a < b) (mid.map (keyOf s)) :=
      List.pairwise_map.mpr (mid_sorted hstruct)
    refine hpw.imp ?_
    intro a b hab heq
    subst heq
    exact lt_irrefl _ hab
  refine ⟨(mid.map (keyOf s)).toFinset, ?_, ?_, ?_⟩
  · show (mid.map (keyOf s)).toFinset.card = s.length
    rw [List.toFinset_card_of_nodup hnd, List.length_map, hlen]
  · intro k hk
    rw [List.mem_toFinset] at hk
    obtain ⟨m, hm, rfl⟩ := List.mem_map.mp hk
    exact ⟨(hstruct.mid_ok m hm).2.1, (hstruct.mid_ok m hm).2.2.1⟩
  · intro k hk1 hk3
    rw [Contains_spec hstruct hk1 (le_of_lt hk3)]
    constructor
    · intro hc
      have hdec := Option.some.injEq .. ▸ hc
      have hpos : 0 < vHeight s mid k := of_decide_eq_true hdec
      have hne : vHeight s mid k ≠ 0 := by omega
      rw [List.mem_toFinset]
      by_contra hcc
      refine hne ((vHeight_eq_zero_iff hstruct k).mpr ⟨ne_of_lt hk3, ?_⟩)
      intro m hm hkeq
      exact hcc (List.mem_map.mpr ⟨m, hm, hkeq⟩)
    · intro hk
      rw [List.mem_toFinset] at hk
      obtain ⟨m, hm, hkeq⟩ := List.mem_map.mp hk
      have hne : vHeight s mid k ≠ 0 := by
        intro hc
        exact ((vHeight_eq_zero_iff hstruct k).mp hc).2 m hm hkeq
      have : decide (0 < vHeight s mid k) = true := decide_eq_true (by omega)
      rw [this]

/-- C8 witness: the fresh list. -/
theorem C8_witness : ∃ S : Finset Int, S.card = Len New ∧
    (∀ k ∈ S, minKey < k ∧ k < maxKey) ∧
    (∀ k, minKey < k → k < maxKey → (Contains New k = some true ↔ k ∈ S)) :=
  C8_theorem Reachable.init

/-- C8 counterexample: no finite key set agreeing with `contains` on every
key can have cardinality `len()`: on the fresh list `contains(MaxInt32)` is
already true while `len()` is 0. -/
theorem C8_counterexample :
    ¬ ∃ S : Finset Int,
      (∀ k, Contains New k = some true ↔ k ∈ S) ∧ S.card = Len New := by
  rintro ⟨S, hS, hcard⟩
  have hmax : maxKey ∈ S := (hS maxKey).mp rfl
  have hpos : 0 < S.card := Finset.card_pos.mpr ⟨maxKey, hmax⟩
  rw [hcard] at hpos
  exact absurd hpos (by decide)

/-- C4: on reachable states, `remove(v)` returns true exactly when the key
is present (this call performs the removal) and false exactly when it is
absent; and `okToDelete` accepts a candidate iff it is fully linked,
unmarked, and was found at exactly its own top level
(`height = lFound + 1`). -/
theorem C4_theorem {s : Header} (hr : Reachable s) (v : Int)
    (hv1 : minKey < v) (hv3 : v < maxKey) :
    ((∃ s', Remove s v = some (s', true)) ↔ Contains s v = some true) ∧
    ((∃ s', Remove s v = some (s', false)) ↔ Contains s v = some false) ∧
    (∀ (n : Node) (lf : Int), okToDelete n lf = true ↔
      (n.fullyLinked = true ∧ (n.nexts.length : Int) = lf + 1 ∧ n.marked = false)) := by
  obtain ⟨mid, hstruct, _⟩ := reachable_inv hr
  have hok : ∀ (n : Node) (lf : Int), okToDelete n lf = true ↔
      (n.fullyLinked = true ∧ (n.nexts.length : Int) = lf + 1 ∧ n.marked = false) := by
    intro n lf
    unfold okToDelete
    constructor
    · intro hc
      simp only [Bool.and_eq_true, beq_iff_eq, Bool.not_eq_true'] at hc
      exact ⟨hc.1.1, hc.1.2, hc.2⟩
    · intro hc
      obtain ⟨h1, h2, h3⟩ := hc
      simp [h1, h2, h3]
  by_cases hH : vHeight s mid v = 0
  · have hrem := Remove_spec_absent hstruct hv1 (le_of_lt hv3) hH
    have hcon : Contains s v = some false := by
      rw [Contains_spec hstruct hv1 (le_of_lt hv3), hH]
      rfl
    refine ⟨?_, ?_, hok⟩
    · constructor
      · rintro ⟨s', hs'⟩
        rw [hrem] at hs'
        have hb := (Prod.mk.injEq .. ▸ Option.some.injEq .. ▸ hs').2
        exact absurd hb (by simp)
      · intro hc
        rw [hcon] at hc
        have := Option.some.injEq .. ▸ hc
        exact absurd this (by simp)
    · exact ⟨fun _ => hcon, fun _ => ⟨s, hrem⟩⟩
  · obtain ⟨sR, m0, midR, hdrop, hkeym0, heq, hs1, hs2r, hs3, hs4, hs5, hs6⟩ :=
      Remove_spec_present hstruct hv1 hv3 hH
    have hcon : Contains s v = some true := by
      rw [Contains_spec hstruct hv1 (le_of_lt hv3)]
      have hd : decide (0 < vHeight s mid v) = true := decide_eq_true (by omega)
      rw [hd]
    refine ⟨?_, ?_, hok⟩
    · exact ⟨fun _ => hcon, fun _ => ⟨sR, heq⟩⟩
    · constructor
      · rintro ⟨s', hs'⟩
        rw [heq] at hs'
        have hb := (Prod.mk.injEq .. ▸ Option.some.injEq .. ▸ hs').2
        exact absurd hb (by simp)
      · intro hc
        rw [hcon] at hc
        have := Option.some.injEq .. ▸ hc
        exact absurd this (by simp)

/-- C4 witness: removing the absent key 0 from the fresh list answers
false. -/
theorem C4_witness : ∃ s', Remove New 0 = some (s', false) :=
  ((C4_theorem Reachable.init 0 (by decide) (by decide)).2.1).mpr rfl

/-- C5: on reachable states, `set(v, ptr)` returns true iff a new node was
linked (the key was absent); when the key is present it returns false,
atomically overwrites the stored value, and leaves the rest of the
structure unchanged — same length, node count and sentinels, every node's
key, tower height, flags and forward pointers untouched, and every node
whose key is not `v` keeping its value — and a subsequent `get(v)` returns
the new value with found = true. -/
theorem C5_theorem {s : Header} (hr : Reachable s) (v : Int) (ptr topLayer : Nat)
    (hv1 : minKey < v) (hv3 : v < maxKey) (ht1 : 1 ≤ topLayer) (ht2 : topLayer ≤ 31) :
    ((∃ s', Set s v ptr topLayer = some (s', true)) ↔ Contains s v = some false) ∧
    (Contains s v = some true →
      ∃ s', Set s v ptr topLayer = some (s', false) ∧ Get s' v = some (ptr, true) ∧
        Len s' = Len s ∧
        s'.nodes.length = s.nodes.length ∧
        s'.leftSentinel = s.leftSentinel ∧ s'.rightSentinel = s.rightSentinel ∧
        (∀ j, keyOf s' j = keyOf s j) ∧
        (∀ j, heightOf s' j = heightOf s j) ∧
        (∀ j, markedOf s' j = markedOf s j) ∧
        (∀ j, flagOf s' j = flagOf s j) ∧
        (∀ j layer, nextAt s' j layer = nextAt s j layer) ∧
        (∀ j, keyOf s j ≠ v → valueOf s' j = valueOf s j)) := by
  obtain ⟨mid, hstruct, _⟩ := reachable_inv hr
  by_cases hH : vHeight s mid v = 0
  · obtain ⟨sI, heq, _⟩ := Set_spec_insert hstruct ptr topLayer hv1 hv3 ht1 ht2 hH
    have hcon : Contains s v = some false := by
      rw [Contains_spec hstruct hv1 (le_of_lt hv3), hH]
      rfl
    refine ⟨⟨fun _ => hcon, fun _ => ⟨sI, heq⟩⟩, ?_⟩
    intro hc
    rw [hcon] at hc
    have := Option.some.injEq .. ▸ hc
    exact absurd this (by simp)
  · obtain ⟨m0, n, hm0eq, hn, hkeym0, heq, hstructF, hlenF, hvalF⟩ :=
      Set_spec_found hstruct ptr topLayer hv1 (le_of_lt hv3) hH
    have hm0lt : m0 < s.nodes.length := by
      by_contra hc
      rw [List.getElem?_eq_none (by omega)] at hn
      exact Option.noConfusion hn
    have hcon : Contains s v = some true := by
      rw [Contains_spec hstruct hv1 (le_of_lt hv3)]
      have hd : decide (0 < vHeight s mid v) = true := decide_eq_true (by omega)
      rw [hd]
    have hcongr := @setNodeAt_congr_fields s m0 n { n with value := ptr }
      hn rfl rfl rfl rfl
    have hfields := @setNodeAt_fields s m0 { n with value := ptr }
    constructor
    · constructor
      · rintro ⟨s', hs'⟩
        rw [heq] at hs'
        have hb := (Prod.mk.injEq .. ▸ Option.some.injEq .. ▸ hs').2
        exact absurd hb (by simp)
      · intro hc
        rw [hcon] at hc
        have := Option.some.injEq .. ▸ hc
        exact absurd this (by simp)
    · intro _
      refine ⟨setNodeAt s m0 { n with value := ptr }, heq, ?_, ?_, ?_, ?_, ?_,
        hcongr.1, hcongr.2.1, hcongr.2.2.1, hcongr.2.2.2, ?_, ?_⟩
      · have hvh : vHeight (setNodeAt s m0 { n with value := ptr }) mid v
            = vHeight s mid v := vHeight_congr hcongr.1 hcongr.2.1 mid v
        rw [Get_spec hstructF hv1 (le_of_lt hv3)]
        rw [hvh]
        rw [if_neg hH]
        have hsucc : succAt (setNodeAt s m0 { n with value := ptr }) mid v
            (vHeight s mid v - 1) = succAt s mid v (vHeight s mid v - 1) :=
          succAt_congr hfields.1 hfields.2.1 hcongr.1 hcongr.2.1 mid v _
        rw [hsucc, ← hm0eq, hvalF]
      · show (setNodeAt s m0 { n with value := ptr }).length = s.length
        exact hlenF
      · exact setNodeAt_length _
      · exact hfields.1
      · exact hfields.2.1
      · intro j layer
        by_cases hij : m0 = j
        · subst hij
          unfold nextAt
          rw [setNodeAt_get_same _ hm0lt, hn]
          rfl
        · unfold nextAt
          rw [setNodeAt_get_other _ hij]
      · intro j hj
        by_cases hij : m0 = j
        · subst hij
          exact absurd hkeym0 hj
        · unfold valueOf
          rw [setNodeAt_get_other _ hij]

/-- C5 witness: inserting key 0 with value 7 into the fresh list returns
true. -/
theorem C5_witness : ∃ s', Set New 0 7 1 = some (s', true) :=
  ((C5_theorem Reachable.init 0 7 1 (by decide) (by decide) (by decide)
    (by decide)).1).mpr rfl

/-- C6 (amended): on reachable states, for query keys strictly above the
left-sentinel key, `findNode` records at every level a predecessor with
key < v and a successor with key >= v, and reports the highest chain level
carrying key v, or -1 when v is absent.  The original claim's "every query
key" fails at v = MinInt32, where the recorded predecessor is the left
sentinel whose key equals v (see the counterexample). -/
theorem C6_theorem {s : Header} (hr : Reachable s) (v : Int)
    (hv1 : minKey < v) (hv2 : v ≤ maxKey) :
    ∃ mid lf preds succs,
      findNode s v = some (lf, preds, succs) ∧ StructOk s mid ∧
      (∀ layer, layer < maxlevel →
        preds[layer]? = some (predAt s mid v layer) ∧
        succs[layer]? = some (succAt s mid v layer) ∧
        keyOf s (predAt s mid v layer) < v ∧
        ¬ (keyOf s (succAt s mid v layer) < v)) ∧
      (lf = -1 ↔ vHeight s mid v = 0) ∧
      (vHeight s mid v ≠ 0 →
        lf = (vHeight s mid v : Int) - 1 ∧
        keyOf s (succAt s mid v (vHeight s mid v - 1)) = v ∧
        (∀ layer, layer < maxlevel → vHeight s mid v ≤ layer →
          keyOf s (succAt s mid v layer) ≠ v)) := by
  obtain ⟨mid, hstruct, _⟩ := reachable_inv hr
  refine ⟨mid, _, _, _, findNode_spec hstruct hv1 hv2, hstruct, ?_, ?_, ?_⟩
  · intro layer hlayer
    exact ⟨getElem?_range_map (predAt s mid v) hlayer,
      getElem?_range_map (succAt s mid v) hlayer,
      predAt_key_lt hstruct hv1 layer, succAt_key_ge hstruct hv2 layer⟩
  · rw [lfAux_full hstruct hv1 hv2]
    by_cases hH : vHeight s mid v = 0
    · rw [if_pos hH]
      simp [hH]
    · rw [if_neg hH]
      constructor
      · intro hc
        exfalso
        omega
      · intro hc
        exact absurd hc hH
  · intro hH
    refine ⟨?_, ?_, ?_⟩
    · rw [lfAux_full hstruct hv1 hv2, if_neg hH]
    · rw [succAt_key_iff hstruct hv1 hv2 (vHeight_pos_bounds hstruct hH)]
      omega
    · intro layer hlayer hge
      intro hc
      have := (succAt_key_iff hstruct hv1 hv2 hlayer).mp hc
      omega

/-- C6 witness: the amended statement on the fresh list at key 1. -/
theorem C6_witness : ∃ mid lf preds succs,
    findNode New 1 = some (lf, preds, succs) ∧ StructOk New mid ∧
    (∀ layer, layer < maxlevel →
      preds[layer]? = some (predAt New mid 1 layer) ∧
      succs[layer]? = some (succAt New mid 1 layer) ∧
      keyOf New (predAt New mid 1 layer) < 1 ∧
      ¬ (keyOf New (succAt New mid 1 layer) < 1)) ∧
    (lf = -1 ↔ vHeight New mid 1 = 0) ∧
    (vHeight New mid 1 ≠ 0 →
      lf = (vHeight New mid 1 : Int) - 1 ∧
      keyOf New (succAt New mid 1 (vHeight New mid 1 - 1)) = 1 ∧
      (∀ layer, layer < maxlevel → vHeight New mid 1 ≤ layer →
        keyOf New (succAt New mid 1 layer) ≠ 1)) :=
  C6_theorem Reachable.init 1 (by decide) (by decide)

/-- C6 counterexample: querying the left-sentinel key itself on the fresh
list records the left sentinel as the level-0 predecessor, whose key is not
below the query key. -/
theorem C6_counterexample :
    findNode New minKey = some (-1, List.replicate 32 1, List.replicate 32 0) ∧
    (List.replicate 32 1)[0]? = some New.leftSentinel ∧
    ¬ (keyOf New New.leftSentinel < minKey) := by
  refine ⟨rfl, rfl, ?_⟩
  rw [show keyOf New New.leftSentinel = minKey from rfl]
  exact lt_irrefl _

end SkipList
